import Mathlib

/-! # awair-to-s3: the hourly export pipeline of `main.go`

A shallow embedding of `handleRequest`, `getData`, `getReq`, `writeData` and
`uploadData`, together with the parts of the Go standard library whose behaviour
the pipeline's contract rests on (`time.Time.Truncate`, `Add`, `Format`, `String`;
`strconv.FormatFloat`; `encoding/csv.Writer` over `bufio.Writer`).

Conventions of the embedding:
* Go strings and byte buffers are Lean `String`s (text; one character stands for
  one buffer cell of `bufio.Writer`).
* A Go `error` is its message text.
* `log.Printf` calls are omitted: they have no influence on any returned value.
* The network, the environment and the object store are fields of a `World`.
-/

namespace AwairToS3

/-- A Go error value, represented by its message. -/
abbrev Error := String

/-! ## Package `time` -/

/-- The constant `time.Second` (a `time.Duration` is a signed count of nanoseconds,
here an integer). -/
def Second : Int := 1000000000

/-- The constant `time.Hour`. -/
def Hour : Int := 3600 * Second

/-- A `time.Location` as far as formatting sees it: the zone abbreviation and the
offset in seconds east of UTC. Timestamps decoded from JSON carry either UTC or a
zone fabricated by the parser (empty name, fixed offset). -/
structure Location where
  name : String
  offset : Int
deriving DecidableEq, Repr

/-- The location `time.UTC`. -/
def UTC : Location := ⟨"UTC", 0⟩

/-- The location `time.FixedZone(name, offset)`. -/
def FixedZone (name : String) (offset : Int) : Location := ⟨name, offset⟩

/-- A `time.Time` without monotonic clock reading (none of the times of this
program has one): `sec` counts seconds since January 1, year 1 00:00:00 UTC (the
`ext` field), `nsec` is the nanosecond within that second, `loc` the location. -/
structure Time where
  sec : Int
  nsec : Nat
  loc : Location
deriving DecidableEq, Repr

def minInt64 : Int := -9223372036854775808

def maxInt64 : Int := 9223372036854775807

/-- Conversion of an integer to `int64` (two's complement wrap-around). -/
def wrapInt64 (x : Int) : Int := (x + 9223372036854775808) % 18446744073709551616 - 9223372036854775808

/-- The method `(*Time).addSec` for a time without monotonic reading: the sum
saturates at the ends of the `int64` range. -/
def Time.addSec (t : Time) (d : Int) : Time :=
  let sum := wrapInt64 (t.sec + d)
  if (decide (sum > t.sec)) = (decide (d > 0)) then { t with sec := sum }
  else if d > 0 then { t with sec := maxInt64 }
  else { t with sec := -maxInt64 }

/-- The method `Time.Add`. -/
def Time.Add (t : Time) (d : Int) : Time :=
  let dsec := d.tdiv 1000000000
  let nsec := (t.nsec : Int) + d.tmod 1000000000
  if nsec ≥ 1000000000 then
    ({ t with nsec := (nsec - 1000000000).toNat } : Time).addSec (dsec + 1)
  else if nsec < 0 then
    ({ t with nsec := (nsec + 1000000000).toNat } : Time).addSec (dsec - 1)
  else
    ({ t with nsec := nsec.toNat } : Time).addSec dsec

/-- The remainder computed by `time.div(t, d)`: `t` modulo `d`, counted from the
zero time, always in `[0, d)`. (The quotient parity that `div` also returns is
used by `Round` only.) The general case, which Go evaluates with 128-bit
arithmetic, is written with unbounded integers. -/
def div (t : Time) (d : Int) : Int :=
  let neg := decide (t.sec < 0)
  let sn : Int × Int :=
    if t.sec < 0 then
      -- operate on the absolute value
      if -(t.nsec : Int) < 0 then (-t.sec - 1, -(t.nsec : Int) + 1000000000)
      else (-t.sec, -(t.nsec : Int))
    else (t.sec, (t.nsec : Int))
  let r : Int :=
    if d < Second ∧ Second.tmod (d + d) = 0 then sn.2.tmod d
    else if d.tmod Second = 0 then (sn.1.tmod (d.tdiv Second)) * Second + sn.2
    else (sn.1 * 1000000000 + sn.2).tmod d
  if neg = true ∧ r ≠ 0 then d - r else r

/-- The method `Time.Truncate`: round `t` down to a multiple of `d` since the zero
time. -/
def Time.Truncate (t : Time) (d : Int) : Time :=
  if d ≤ 0 then t else t.Add (-(div t d))

def secondsPerMinute : Nat := 60

def secondsPerHour : Nat := 3600

def secondsPerDay : Nat := 86400

def daysPer400Years : Nat := 146097

def daysPer100Years : Nat := 36524

def daysPer4Years : Nat := 1461

/-- The year of absolute time zero (`absoluteZeroYear`). -/
def absoluteZeroYear : Int := -292277022399

/-- Seconds from absolute time zero to the zero time (`internalToAbsolute`). -/
def internalToAbsolute : Int := 9223371966579724800

/-- The method `Time.abs` (`locabs`): the wall clock of `t` in its own location as
an unsigned 64-bit count of seconds since absolute time zero. -/
def Time.abs (t : Time) : Nat :=
  ((t.sec + t.loc.offset + internalToAbsolute) % 18446744073709551616).toNat

/-- The function `isLeap`. -/
def isLeap (year : Int) : Bool :=
  decide (year % 4 = 0) && (decide (year % 100 ≠ 0) || decide (year % 400 = 0))

/-- The table `daysBefore`: days in a non-leap year before month `m+1`. -/
def daysBefore : List Nat := [0, 31, 59, 90, 120, 151, 181, 212, 243, 273, 304, 334, 365]

/-- A calendar date with its day of the year, as `absDate` returns it. -/
structure Date where
  year : Int
  month : Nat
  day : Nat
  yday : Nat
deriving DecidableEq, Repr

/-- The split of a day count since absolute zero into years and day of the year
(first half of `absDate`): 400-, 100-, 4- and 1-year cycles are cut off in turn. -/
def absYearDay (d0 : Nat) : Nat × Nat :=
  let n400 := d0 / daysPer400Years
  let d1 := d0 - daysPer400Years * n400
  let n100 := d1 / daysPer100Years - (d1 / daysPer100Years) / 4
  let d2 := d1 - daysPer100Years * n100
  let n4 := d2 / daysPer4Years
  let d3 := d2 - daysPer4Years * n4
  let n1 := d3 / 365 - (d3 / 365) / 4
  (400 * n400 + 100 * n100 + 4 * n4 + n1, d3 - 365 * n1)

/-- The month and day of the month for a day of the year (second half of
`absDate`). -/
def monthDay (leap : Bool) (yday : Nat) : Nat × Nat :=
  if leap = true ∧ yday = 31 + 29 - 1 then (2, 29)
  else
    let day := if leap = true ∧ yday > 31 + 29 - 1 then yday - 1 else yday
    let month := day / 31
    let e := daysBefore.getD (month + 1) 0
    if day ≥ e then (month + 2, day - e + 1)
    else (month + 1, day - daysBefore.getD month 0 + 1)

/-- The function `absDate` (with `full = true`). -/
def absDate (abs : Nat) : Date :=
  let yd := absYearDay (abs / secondsPerDay)
  let year : Int := (yd.1 : Int) + absoluteZeroYear
  let md := monthDay (isLeap year) yd.2
  { year := year, month := md.1, day := md.2, yday := yd.2 }

/-- A clock reading, as `absClock` returns it. -/
structure Clock where
  hour : Nat
  min : Nat
  sec : Nat
deriving DecidableEq, Repr

/-- The function `absClock`. -/
def absClock (abs : Nat) : Clock :=
  let s := abs % secondsPerDay
  let hour := s / secondsPerHour
  let s1 := s - hour * secondsPerHour
  let min := s1 / secondsPerMinute
  { hour := hour, min := min, sec := s1 - min * secondsPerMinute }

/-- The character of a decimal digit. -/
def digitChar (d : Nat) : Char := Char.ofNat (48 + d)

/-- The `w` low-order decimal digits of `u`, most significant first. -/
def lowDigits : Nat → Nat → List Char
  | 0, _ => []
  | w + 1, u => lowDigits w (u / 10) ++ [digitChar (u % 10)]

/-- Number of decimal digits of `u`, with `0` counted as one digit; `fuel` bounds
the number of divisions. -/
def numDigitsAux : Nat → Nat → Nat
  | 0, _ => 0
  | fuel + 1, u => if u = 0 then 0 else numDigitsAux fuel (u / 10) + 1

/-- Number of decimal digits of `u` (one for `0`), as `appendInt` counts them. -/
def numDigits (u : Nat) : Nat := if u = 0 then 1 else numDigitsAux u u

/-- The function `appendInt`: the decimal form of `x`, zero-padded to `width`
digits, after a minus sign when `x` is negative. -/
def appendInt (x : Int) (width : Nat) : String :=
  let u := x.natAbs
  let n := numDigits u
  (if x < 0 then "-" else "") ++ String.mk (List.replicate (width - n) '0' ++ lowDigits n u)

/-- The function `formatNano`: a decimal point and the first `n` of the nine
digits of the nanosecond; with `trim`, trailing zeros are dropped and nothing at
all is written when no digit remains. -/
def formatNano (nanosec : Nat) (n : Nat) (trim : Bool) : String :=
  let buf := lowDigits 9 nanosec
  let n := min n 9
  if trim then
    let kept := ((buf.take n).reverse.dropWhile (fun c => c == '0')).reverse
    if kept.isEmpty then "" else String.mk ('.' :: kept)
  else String.mk ('.' :: buf.take n)

/-- The pieces `nextStdChunk` cuts a layout into, for the layouts of this
program. -/
inductive Chunk where
  | lit (s : String)
  | stdLongYear
  | stdZeroMonth
  | stdZeroDay
  | stdHour
  | stdZeroMinute
  | stdZeroSecond
  | stdFracSecond0 (digits : Nat)
  | stdFracSecond9 (digits : Nat)
  | stdISO8601ColonTZ
  | stdNumTZ
  | stdTZ
deriving DecidableEq, Repr

/-- The zone written as sign, two-digit hours and two-digit minutes (with a colon
between them when `colon`), as `appendFormat` does for the numeric zone chunks. -/
def appendZone (offset : Int) (colon : Bool) : String :=
  let zone := offset.tdiv 60
  let sign := if zone < 0 then "-" else "+"
  let z := if zone < 0 then -zone else zone
  sign ++ appendInt (z.tdiv 60) 2 ++ (if colon then ":" else "") ++ appendInt (z.tmod 60) 2

/-- One step of the loop of `Time.appendFormat`: the text written for one chunk of
the layout. -/
def appendChunk (t : Time) (c : Chunk) : String :=
  let abs := t.abs
  match c with
  | .lit s => s
  | .stdLongYear => appendInt (absDate abs).year 4
  | .stdZeroMonth => appendInt (absDate abs).month 2
  | .stdZeroDay => appendInt (absDate abs).day 2
  | .stdHour => appendInt (absClock abs).hour 2
  | .stdZeroMinute => appendInt (absClock abs).min 2
  | .stdZeroSecond => appendInt (absClock abs).sec 2
  | .stdFracSecond0 n => formatNano t.nsec n false
  | .stdFracSecond9 n => formatNano t.nsec n true
  | .stdISO8601ColonTZ => if t.loc.offset = 0 then "Z" else appendZone t.loc.offset true
  | .stdNumTZ => appendZone t.loc.offset false
  | .stdTZ => if t.loc.name ≠ "" then t.loc.name else appendZone t.loc.offset false

/-- The method `Time.Format`, on a layout given as its chunks. -/
def Time.Format (t : Time) (layout : List Chunk) : String :=
  layout.foldl (fun b c => b ++ appendChunk t c) ""

/-- The layout `time.RFC3339`, `"2006-01-02T15:04:05Z07:00"`. -/
def RFC3339 : List Chunk :=
  [.stdLongYear, .lit "-", .stdZeroMonth, .lit "-", .stdZeroDay, .lit "T",
   .stdHour, .lit ":", .stdZeroMinute, .lit ":", .stdZeroSecond, .stdISO8601ColonTZ]

/-- The layout of `Time.String`, `"2006-01-02 15:04:05.999999999 -0700 MST"`. -/
def stringLayout : List Chunk :=
  [.stdLongYear, .lit "-", .stdZeroMonth, .lit "-", .stdZeroDay, .lit " ",
   .stdHour, .lit ":", .stdZeroMinute, .lit ":", .stdZeroSecond, .stdFracSecond9 9,
   .lit " ", .stdNumTZ, .lit " ", .stdTZ]

/-- The method `Time.String`, which `%s` uses to print a time. -/
def Time.String (t : Time) : String := t.Format stringLayout

/-- The constant `ATHENA_TIMESTAMP_FORMAT`, `"2006-01-02 15:04:05.000000"`. -/
def ATHENA_TIMESTAMP_FORMAT : List Chunk :=
  [.stdLongYear, .lit "-", .stdZeroMonth, .lit "-", .stdZeroDay, .lit " ",
   .stdHour, .lit ":", .stdZeroMinute, .lit ":", .stdZeroSecond, .stdFracSecond0 6]

/-- The instant `year-month-day hour:min:sec` UTC for dates from year 1 on, as
seconds since the zero time (used to write down example timestamps). -/
def utcSeconds (year month day hour min sec : Nat) : Int :=
  let y := year - 1
  let days := 365 * y + y / 4 - y / 100 + y / 400 + daysBefore.getD (month - 1) 0
    + (if isLeap year ∧ month > 2 then 1 else 0) + (day - 1)
  ((days * 86400 + hour * 3600 + min * 60 + sec : Nat) : Int)

/-! ## Package `strconv`: `FormatFloat(v, 'f', -1, 64)` -/

/-- A `float64`, given by its IEEE 754 bit pattern (`math.Float64bits`). -/
structure Float64 where
  bits : Nat
deriving DecidableEq, Repr

/-- The normal `float64` with value `m × 2^e`, for `2^52 ≤ m < 2^53` and
`-1074 ≤ e ≤ 971`, negated when `neg` (used to write down example values). -/
def Float64.normal (neg : Bool) (m : Nat) (e : Int) : Float64 :=
  ⟨(if neg then 2 ^ 63 else 0) + (e + 52 + 1023).toNat * 2 ^ 52 + (m - 2 ^ 52)⟩

/-- The type `strconv.decimal`: digits `d` (most significant first) and the
position `dp` of the decimal point, standing for `0.d₀d₁d₂… × 10^dp`. The number of
digits `nd` is the length of `d`. -/
structure decimal where
  d : List Nat
  dp : Int
deriving DecidableEq, Repr

/-- The number of digits of a decimal (its field `nd`). -/
def decimal.nd (a : decimal) : Int := a.d.length

/-- The function `trim`: drop trailing zeros; the empty decimal has `dp = 0`. -/
def trim (a : decimal) : decimal :=
  let d := (a.d.reverse.dropWhile (fun c => c == 0)).reverse
  if d.isEmpty then ⟨[], 0⟩ else ⟨d, a.dp⟩

/-- The decimal digits of `n`, most significant first (none for `0`). -/
def natDigits (n : Nat) : List Nat := (lowDigits (numDigitsAux n n) n).map (fun c => c.toNat - 48)

/-- The decimal `d` after `d.Assign(mant); d.Shift(shift)`: the exact decimal
expansion of `mant × 2^shift` (a `float64` needs at most 767 digits, so the
800-digit buffer of `decimal` never truncates). -/
def decimal.assignShift (mant : Nat) (shift : Int) : decimal :=
  if mant = 0 then ⟨[], 0⟩
  else if shift ≥ 0 then
    let ds := natDigits (mant * 2 ^ shift.toNat)
    trim ⟨ds, ds.length⟩
  else
    let k := (-shift).toNat
    let ds := natDigits (mant * 5 ^ k)
    trim ⟨ds, (ds.length : Int) - k⟩

/-- The method `decimal.RoundDown`. -/
def decimal.RoundDown (a : decimal) (nd : Int) : decimal :=
  if nd < 0 ∨ nd ≥ a.nd then a else trim ⟨a.d.take nd.toNat, a.dp⟩

/-- The carry loop of `RoundUp` on the kept digits, least significant first:
the first digit below nine is incremented and becomes the last digit. -/
def roundUpRev : List Nat → Option (List Nat)
  | [] => none
  | c :: rest => if c < 9 then some ((c + 1) :: rest) else roundUpRev rest

/-- The method `decimal.RoundUp`. -/
def decimal.RoundUp (a : decimal) (nd : Int) : decimal :=
  if nd < 0 ∨ nd ≥ a.nd then a
  else
    match roundUpRev (a.d.take nd.toNat).reverse with
    | some r => ⟨r.reverse, a.dp⟩
    | none => ⟨[1], a.dp + 1⟩

/-- The function `shouldRoundUp` (the decimal is exact, its `trunc` flag unset). -/
def shouldRoundUp (a : decimal) (nd : Int) : Bool :=
  if nd < 0 ∨ nd ≥ a.nd then false
  else if a.d.getD nd.toNat 0 = 5 ∧ nd + 1 = a.nd then
    decide (nd > 0) && decide (a.d.getD (nd.toNat - 1) 0 % 2 ≠ 0)
  else decide (a.d.getD nd.toNat 0 ≥ 5)

/-- The method `decimal.Round`. -/
def decimal.Round (a : decimal) (nd : Int) : decimal :=
  if nd < 0 ∨ nd ≥ a.nd then a
  else if shouldRoundUp a nd then a.RoundUp nd else a.RoundDown nd

/-- The digit loop of `roundShortest`, from position `ui` of `upper` on;
`upperdelta` is the loop's state. `fuel` bounds the number of iterations. -/
def roundShortestLoop (d lower upper : decimal) (inclusive : Bool) :
    Nat → Nat → Nat → decimal
  | 0, _, _ => d
  | fuel + 1, ui, upperdelta =>
    let mi : Int := (ui : Int) - upper.dp + d.dp
    if mi ≥ d.nd then d
    else
      let li : Int := (ui : Int) - upper.dp + lower.dp
      let l := if li ≥ 0 ∧ li < lower.nd then lower.d.getD li.toNat 0 else 0
      let m := if mi ≥ 0 then d.d.getD mi.toNat 0 else 0
      let u := if (ui : Int) < upper.nd then upper.d.getD ui 0 else 0
      let okdown : Bool := decide (l ≠ m) || (inclusive && decide (li + 1 = lower.nd))
      let upperdelta :=
        if upperdelta = 0 ∧ m + 1 < u then 2
        else if upperdelta = 0 ∧ m ≠ u then 1
        else if upperdelta = 1 ∧ (m ≠ 9 ∨ u ≠ 0) then 2
        else upperdelta
      let okup : Bool := decide (upperdelta > 0) &&
        (inclusive || decide (upperdelta > 1) || decide ((ui : Int) + 1 < upper.nd))
      if okdown && okup then d.Round (mi + 1)
      else if okdown then d.RoundDown (mi + 1)
      else if okup then d.RoundUp (mi + 1)
      else roundShortestLoop d lower upper inclusive fuel (ui + 1) upperdelta

/-- The function `roundShortest` for `float64` (`mantbits = 52`, `bias = -1023`):
round `d = mant × 2^(exp-52)` to the shortest decimal that still reads back as the
same float. The loop stops at the latest when `ui` passes the last digit of `d`,
which the fuel given to it covers. -/
def roundShortest (d : decimal) (mant : Nat) (exp : Int) : decimal :=
  if mant = 0 then ⟨[], d.dp⟩
  else
    let minexp : Int := -1023 + 1
    if exp > minexp ∧ 332 * (d.dp - d.nd) ≥ 100 * (exp - 52) then d
    else
      let upper := decimal.assignShift (mant * 2 + 1) (exp - 52 - 1)
      let lo : Nat × Int :=
        if mant > 2 ^ 52 ∨ exp = minexp then (mant - 1, exp) else (mant * 2 - 1, exp - 1)
      let lower := decimal.assignShift (lo.1 * 2 + 1) (lo.2 - 52 - 1)
      let inclusive := decide (mant % 2 = 0)
      roundShortestLoop d lower upper inclusive
        (d.d.length + (upper.dp - d.dp).toNat + 1) 0 0

/-- The function `fmtF` (`%f`: `-ddddddd.ddddd`). -/
def fmtF (neg : Bool) (d : decimal) (prec : Nat) : String :=
  let sign := if neg then "-" else ""
  let int :=
    if d.dp > 0 then
      let m := min d.d.length d.dp.toNat
      String.mk ((d.d.take m).map digitChar ++ List.replicate (d.dp.toNat - m) '0')
    else "0"
  let frac :=
    if prec > 0 then
      String.mk ('.' :: (List.range prec).map (fun (i : Nat) =>
        let j : Int := d.dp + i
        if 0 ≤ j ∧ j < d.nd then digitChar (d.d.getD j.toNat 0) else '0'))
    else ""
  sign ++ int ++ frac

/-- The call `strconv.FormatFloat(val, 'f', -1, 64)`: `genericFtoa` with the
shortest digits taken from `roundShortest`, the multiprecision computation of
`bigFtoa` (the fast path used for the same purpose yields the same digits). -/
def FormatFloat (val : Float64) : String :=
  let bits := val.bits
  let neg := decide (bits / 2 ^ 63 ≠ 0)
  let exp0 : Nat := (bits / 2 ^ 52) % 2 ^ 11
  let mant0 : Nat := bits % 2 ^ 52
  if exp0 = 2 ^ 11 - 1 then
    if mant0 ≠ 0 then "NaN" else if neg then "-Inf" else "+Inf"
  else
    let exp1 : Int := if exp0 = 0 then 1 else (exp0 : Int)
    let mant : Nat := if exp0 = 0 then mant0 else mant0 + 2 ^ 52
    let exp : Int := exp1 + (-1023)
    let d := decimal.assignShift mant (exp - 52)
    let digs := roundShortest d mant exp
    let prec := (digs.nd - digs.dp).toNat
    fmtF neg digs prec

/-! ## Packages `io`, `bytes` and `bufio` -/

/-- An `io.Writer` with internal state `σ`: `Write st p` returns the new state, the
number of characters of `p` it took, and the error if it reports one. -/
structure io.Writer (σ : Type) where
  Write : σ → String → σ × Nat × Option Error

/-- The type `bytes.Buffer`: its `Write` appends and never reports an error. The
state is the buffer's contents. -/
def bytes.Buffer : io.Writer String where
  Write := fun st p => (st ++ p, p.length, none)

/-- The error `io.ErrShortWrite`. -/
def io.ErrShortWrite : Error := "short write"

/-- The size of the buffer `bufio.NewWriter` allocates (`defaultBufSize`). -/
def defaultBufSize : Nat := 4096

/-- A `bufio.Writer`: the sticky error, the buffered text (`buf[0:n]`) and the state
of the underlying writer. -/
structure bufio.Writer (σ : Type) where
  err : Option Error
  buf : String
  wr : σ

/-- The function `bufio.NewWriter`. -/
def bufio.NewWriter {σ : Type} (wr : σ) : bufio.Writer σ := ⟨none, "", wr⟩

/-- The method `(*bufio.Writer).Available`. -/
def bufio.Writer.Available {σ : Type} (b : bufio.Writer σ) : Nat := defaultBufSize - b.buf.length

/-- The method `(*bufio.Writer).Flush`. The error it returns is the field `err`
of the resulting state. (For a writer that reports an error together with a count
beyond the buffered length, which the contract of `io.Writer` forbids, the buffer
is left empty.) -/
def bufio.Writer.Flush {σ : Type} (out : io.Writer σ) (b : bufio.Writer σ) : bufio.Writer σ :=
  if b.err ≠ none then b
  else if b.buf.length = 0 then b
  else if (out.Write b.wr b.buf).2.1 < b.buf.length ∧ (out.Write b.wr b.buf).2.2 = none then
    { err := some io.ErrShortWrite, buf := ⟨b.buf.data.drop (out.Write b.wr b.buf).2.1⟩,
      wr := (out.Write b.wr b.buf).1 }
  else if (out.Write b.wr b.buf).2.2 ≠ none then
    { err := (out.Write b.wr b.buf).2.2, buf := ⟨b.buf.data.drop (out.Write b.wr b.buf).2.1⟩,
      wr := (out.Write b.wr b.buf).1 }
  else { err := none, buf := "", wr := (out.Write b.wr b.buf).1 }

/-- The method `(*bufio.Writer).WriteString`: while `s` does not fit, fill the
buffer and flush it; then buffer what is left. The error it returns is the field
`err` of the resulting state. (The underlying writer is used through `Write`
only.) -/
def bufio.Writer.WriteString {σ : Type} (out : io.Writer σ) (b : bufio.Writer σ) (s : String) :
    bufio.Writer σ :=
  if s.length > b.Available ∧ b.err = none then
    bufio.Writer.WriteString out
      (bufio.Writer.Flush out { b with buf := b.buf ++ ⟨s.data.take b.Available⟩ })
      ⟨s.data.drop b.Available⟩
  else if b.err ≠ none then b
  else { b with buf := b.buf ++ s }
termination_by (s.length, (if b.err = none then 1 else 0) + (if b.Available = 0 then 1 else 0))
decreasing_by
  rename_i h
  obtain ⟨h1, h2⟩ := h
  have hlen : (⟨s.data.drop b.Available⟩ : String).length = s.length - b.Available := by
    show (s.data.drop b.Available).length = s.data.length - b.Available
    exact List.length_drop _ _
  rw [hlen]
  by_cases ha : b.Available = 0
  · have hb : ({ b with buf := b.buf ++ ⟨s.data.take b.Available⟩ } : bufio.Writer σ).buf.length ≠ 0 := by
      have h4 : 0 < defaultBufSize := by decide
      have h5 : (b.buf ++ (⟨s.data.take b.Available⟩ : String)).length
          = b.buf.length + (s.data.take b.Available).length := by
        show (b.buf ++ (⟨s.data.take b.Available⟩ : String)).data.length = _
        rw [String.data_append, List.length_append]
        rfl
      show (b.buf ++ (⟨s.data.take b.Available⟩ : String)).length ≠ 0
      rw [h5]
      unfold bufio.Writer.Available at ha
      omega
    have hm : ((if b.err = none then 1 else 0) + (if b.Available = 0 then 1 else 0)) = 2 := by
      rw [if_pos h2, if_pos ha]
    have hsub : s.length - b.Available = s.length := by omega
    rw [hm, hsub]
    apply Prod.Lex.right
    have hprog : ∀ c : bufio.Writer σ, c.buf.length ≠ 0 → c.err = none →
        (bufio.Writer.Flush out c).err ≠ none ∨
          ((bufio.Writer.Flush out c).err = none ∧ (bufio.Writer.Flush out c).buf = "") := by
      intro c h0 he
      unfold bufio.Writer.Flush
      have he1 : ¬ (c.err ≠ none) := fun h => h he
      rw [if_neg he1, if_neg h0]
      by_cases hc1 : (out.Write c.wr c.buf).2.1 < c.buf.length ∧ (out.Write c.wr c.buf).2.2 = none
      · rw [if_pos hc1]
        left
        exact fun h => Option.noConfusion h
      · rw [if_neg hc1]
        by_cases hc2 : (out.Write c.wr c.buf).2.2 ≠ none
        · rw [if_pos hc2]
          left
          exact hc2
        · rw [if_neg hc2]
          right
          exact ⟨rfl, rfl⟩
    rcases hprog _ hb h2 with h | ⟨h3, h4⟩
    · rw [if_neg h]
      split <;> omega
    · rw [if_pos h3]
      have h6 : ¬ (bufio.Writer.Flush out
          { b with buf := b.buf ++ ⟨s.data.take b.Available⟩ }).Available = 0 := by
        show defaultBufSize - (bufio.Writer.Flush out
          { b with buf := b.buf ++ ⟨s.data.take b.Available⟩ }).buf.length ≠ 0
        rw [h4]
        decide
      rw [if_neg h6]
      omega
  · apply Prod.Lex.left
    omega

/-- The method `(*bufio.Writer).WriteByte`. -/
def bufio.Writer.WriteByte {σ : Type} (out : io.Writer σ) (b : bufio.Writer σ) (c : Char) :
    bufio.Writer σ :=
  if b.err ≠ none then b
  else if b.Available ≤ 0 ∧ (bufio.Writer.Flush out b).err ≠ none then bufio.Writer.Flush out b
  else if b.Available ≤ 0 then
    { bufio.Writer.Flush out b with buf := (bufio.Writer.Flush out b).buf.push c }
  else { b with buf := b.buf.push c }

/-- The method `(*bufio.Writer).WriteRune` for a rune below `utf8.RuneSelf` (the
only rune the CSV writer passes is its comma). -/
def bufio.Writer.WriteRune {σ : Type} (out : io.Writer σ) (b : bufio.Writer σ) (r : Char) :
    bufio.Writer σ :=
  bufio.Writer.WriteByte out b r

/-! ## Package `encoding/csv`: the `Writer` made by `csv.NewWriter`

`csv.NewWriter` sets `Comma = ','` and `UseCRLF = false`, and `writeData` never
changes them; the methods below are `Write`, `Flush` and `Error` for these
settings (for which `validDelim(w.Comma)` holds). The state of a `csv.Writer` is
the state of its `bufio.Writer`. -/

/-- The function `unicode.IsSpace`. -/
def unicode.IsSpace (r : Char) : Bool :=
  let n := r.toNat
  if n ≤ 0xFF then
    n = 0x09 || n = 0x0A || n = 0x0B || n = 0x0C || n = 0x0D || n = 0x20 || n = 0x85 || n = 0xA0
  else
    n = 0x1680 || (0x2000 ≤ n && n ≤ 0x200A) || n = 0x2028 || n = 0x2029 || n = 0x202F
      || n = 0x205F || n = 0x3000

/-- The characters a quoted field treats specially and `fieldNeedsQuotes` looks
for besides the comma: quote, carriage return, line feed. -/
def isSpecial (c : Char) : Bool := c = '"' || c = '\r' || c = '\n'

/-- The method `(*csv.Writer).fieldNeedsQuotes`. -/
def fieldNeedsQuotes (field : String) : Bool :=
  if field = "" then false
  else if field = "\\." then true
  else if field.data.any (fun c => c = '\n' || c = '\r' || c = '"' || c = ',') then true
  else
    match field.data with
    | [] => false
    | r1 :: _ => unicode.IsSpace r1

/-- The `switch field[0]` in the loop of `(*csv.Writer).Write` over a quoted field:
a quote is written doubled, carriage return and line feed as they are. -/
def writeSpecial {σ : Type} (out : io.Writer σ) (b : bufio.Writer σ) (x : Char) : bufio.Writer σ :=
  if x = '"' then bufio.Writer.WriteString out b "\"\""
  else if x = '\r' then bufio.Writer.WriteByte out b '\r'
  else if x = '\n' then bufio.Writer.WriteByte out b '\n'
  else b

/-- The loop of `(*csv.Writer).Write` over a field that is written in quotes: the
stretch before the next special character is copied verbatim, then the special
character is encoded, and the loop goes on behind it. It stops at the first
failing write. -/
def writeQuoted {σ : Type} (out : io.Writer σ) (b : bufio.Writer σ) (field : List Char) :
    bufio.Writer σ :=
  if field.length > 0 then
    if (bufio.Writer.WriteString out b ⟨field.takeWhile (fun x => !isSpecial x)⟩).err ≠ none then
      bufio.Writer.WriteString out b ⟨field.takeWhile (fun x => !isSpecial x)⟩
    else
      match h : field.dropWhile (fun x => !isSpecial x) with
      | [] => bufio.Writer.WriteString out b ⟨field.takeWhile (fun x => !isSpecial x)⟩
      | x :: rest =>
        if (writeSpecial out
            (bufio.Writer.WriteString out b ⟨field.takeWhile (fun x => !isSpecial x)⟩) x).err ≠ none then
          writeSpecial out
            (bufio.Writer.WriteString out b ⟨field.takeWhile (fun x => !isSpecial x)⟩) x
        else
          writeQuoted out (writeSpecial out
            (bufio.Writer.WriteString out b ⟨field.takeWhile (fun x => !isSpecial x)⟩) x) rest
  else b
termination_by field.length
decreasing_by
  have h1 := (List.dropWhile_sublist (l := field) (fun x => !isSpecial x)).length_le
  rw [h] at h1
  simp only [List.length_cons] at h1
  omega

/-- One field of `(*csv.Writer).Write`: written as it is, or in quotes. -/
def writeField {σ : Type} (out : io.Writer σ) (b : bufio.Writer σ) (field : String) :
    bufio.Writer σ :=
  if !fieldNeedsQuotes field then bufio.Writer.WriteString out b field
  else
    let b1 := bufio.Writer.WriteByte out b '"'
    if b1.err ≠ none then b1
    else
      let b2 := writeQuoted out b1 field.data
      if b2.err ≠ none then b2 else bufio.Writer.WriteByte out b2 '"'

/-- The fields of a record in `(*csv.Writer).Write`, a comma before each but the
first (`n` is the index of the first field of `record`); the first failing write
ends the method. -/
def writeFields {σ : Type} (out : io.Writer σ) (b : bufio.Writer σ) (n : Nat) :
    List String → bufio.Writer σ
  | [] => b
  | field :: rest =>
    let b1 := if n > 0 then bufio.Writer.WriteRune out b ',' else b
    if b1.err ≠ none then b1
    else
      let b2 := writeField out b1 field
      if b2.err ≠ none then b2 else writeFields out b2 (n + 1) rest

/-- The method `(*csv.Writer).Write`: the fields, then a line feed. The error it
returns is the field `err` of the resulting state. -/
def csv.Writer.Write {σ : Type} (out : io.Writer σ) (w : bufio.Writer σ) (record : List String) :
    bufio.Writer σ :=
  let b := writeFields out w 0 record
  if b.err ≠ none then b else bufio.Writer.WriteByte out b '\n'

/-! ## `main.go` -/

/-- One element of the `Sensors` array of a `timepoint`. -/
structure Sensor where
  Comp : String
  Value : Float64
deriving DecidableEq, Repr

/-- The type `timepoint`: one element of the array in the Awair API response. -/
structure timepoint where
  Timestamp : Time
  Sensors : List Sensor
deriving DecidableEq, Repr

/-- The lambda trigger event `Event`. -/
structure Event where
  Time : Time
deriving DecidableEq, Repr

/-- The record `writeData` hands to `w.Write` for sensor `s` of a timepoint whose
formatted timestamp is `ts`. -/
def record (ts : String) (s : Sensor) : List String := [ts, s.Comp, FormatFloat s.Value]

/-- The function `writeData`: every sensor of every timepoint is written as one
record (the error `w.Write` returns is ignored), the writer is flushed, and the
error the writer holds is returned. The result is the final state of `output` and
that error. -/
def writeData {σ : Type} (out : io.Writer σ) (data : List timepoint) (output : σ) :
    σ × Option Error :=
  let w := data.foldl (fun w d =>
    let ts := d.Timestamp.Format ATHENA_TIMESTAMP_FORMAT
    d.Sensors.foldl (fun w s => csv.Writer.Write out w (record ts s)) w) (bufio.NewWriter output)
  let w := bufio.Writer.Flush out w
  (w.wr, w.err)

/-- The `*http.Request` built by `getReq`: method, the parts of the URL (the query
as the key-value pairs set in `url.Values`), and the `Authorization` header. -/
structure Request where
  Method : String
  Scheme : String
  Host : String
  Path : String
  Query : List (String × String)
  Authorization : String
deriving DecidableEq, Repr

/-- The `*http.Response` as `getData` uses it: the status code, and the body
represented by what `json.NewDecoder(resp.Body).Decode(&response)` makes of it,
namely the value left in `response.Data` and the error returned. -/
structure Response where
  StatusCode : Nat
  Body : List timepoint × Option Error
deriving DecidableEq, Repr

/-- The `s3manager.UploadInput` handed to the uploader. -/
structure UploadInput where
  Bucket : String
  Key : String
  Body : String
deriving DecidableEq, Repr

/-- Everything outside the program that it consults: the environment variables
(`os.Getenv`), whether `http.NewRequest` accepts a request, the answer of
`http.DefaultClient.Do`, and the answer of the S3 uploader (the location of the
stored object, or an error). -/
structure World where
  Getenv : String → String
  NewRequest : Request → Option Error
  Do : Request → Except Error Response
  Upload : UploadInput → Except Error String

/-- The function `getReq`. -/
def getReq (world : World) (from_ to_ : Time) : Except Error Request :=
  let req : Request :=
    { Method := "GET"
      Scheme := "https"
      Host := "developer-apis.awair.is"
      Path := "/v1/users/self/devices/" ++ world.Getenv "DEVICE_TYPE" ++ "/"
        ++ world.Getenv "DEVICE_ID" ++ "/air-data/raw"
      Query := [("fahrenheit", "false"), ("from", from_.Format RFC3339), ("to", to_.Format RFC3339)]
      Authorization := "Bearer " ++ world.Getenv "AWAIR_API_KEY" }
  match world.NewRequest req with
  | some err => .error err
  | none => .ok req

/-- The function `getData`: the result is `response.Data` and the error. -/
def getData (world : World) (from_ to_ : Time) : List timepoint × Option Error :=
  match getReq world from_ to_ with
  | .error err => ([], some err)
  | .ok req =>
    match world.Do req with
    | .error err => ([], some err)
    | .ok resp => resp.Body

/-- The `s3manager.UploadInput` literal of `uploadData`; `csvData` is what the
reader handed to the uploader yields. -/
def uploadInput (world : World) (filename : String) (csvData : String) : UploadInput :=
  { Bucket := world.Getenv "BUCKET", Key := "airdata/" ++ filename ++ ".csv", Body := csvData }

/-- The function `uploadData`. -/
def uploadData (world : World) (filename : String) (csvData : String) : String × Option Error :=
  match world.Upload (uploadInput world filename csvData) with
  | .error err => ("", some err)
  | .ok location => (location, none)

/-- A call `handleRequest` makes to one of its three helpers, with the arguments
passed. -/
inductive Call where
  | getData (from_ to_ : Time)
  | writeData (data : List timepoint)
  | uploadData (filename : String) (csvData : String)
deriving DecidableEq, Repr

/-- What a run of `handleRequest` yields: the two returned values, and the calls it
made to its helpers, in order. -/
structure Outcome where
  result : String
  err : Option Error
  calls : List Call
deriving DecidableEq, Repr

/-- The body of `handleRequest`, for any writer `out` standing in the place of
`csvData`: `init` is its initial state and `read` what a reader of it yields after
the writes. -/
def handleRequestOn {σ : Type} (out : io.Writer σ) (init : σ) (read : σ → String)
    (world : World) (event : Event) : Outcome :=
  let to_ := event.Time.Truncate Hour
  let from_ := to_.Add (-Hour)
  let fetched := getData world from_ to_
  match fetched.2 with
  | some err => { result := "", err := some err, calls := [.getData from_ to_] }
  | none =>
    let data := fetched.1
    let written := writeData out data init
    match written.2 with
    | some err =>
      { result := "", err := some err, calls := [.getData from_ to_, .writeData data] }
    | none =>
      let filename := to_.Format RFC3339
      let csvData := read written.1
      let uploaded := uploadData world filename csvData
      match uploaded.2 with
      | some err =>
        { result := ""
          err := some ("failed to upload file, " ++ err)
          calls := [.getData from_ to_, .writeData data, .uploadData filename csvData] }
      | none =>
        { result := "Saved data for " ++ from_.String ++ " - " ++ to_.String ++ " to " ++ uploaded.1
          err := none
          calls := [.getData from_ to_, .writeData data, .uploadData filename csvData] }

/-- The function `handleRequest`: `csvData` is a fresh `bytes.Buffer`. -/
def handleRequest (world : World) (event : Event) : Outcome :=
  handleRequestOn bytes.Buffer "" id world event

/-! ## Derived notions used in the statements -/

/-- The end of the window `handleRequest` computes (its local `to`). -/
def windowTo (event : Event) : Time := event.Time.Truncate Hour

/-- The start of the window `handleRequest` computes (its local `from`). -/
def windowFrom (event : Event) : Time := (windowTo event).Add (-Hour)

/-- What the call of `getData` in `handleRequest` returns (its `data, err`). -/
def fetchResult (world : World) (event : Event) : List timepoint × Option Error :=
  getData world (windowFrom event) (windowTo event)

/-- What the call of `writeData` in `handleRequest` yields, in case it is reached:
the final state of the writer and the error. -/
def encodeResult {σ : Type} (out : io.Writer σ) (init : σ) (world : World) (event : Event) :
    σ × Option Error :=
  writeData out (fetchResult world event).1 init

/-- The local `filename` of `handleRequest`. -/
def filenameOf (event : Event) : String := (windowTo event).Format RFC3339

/-- What the call of `uploadData` in `handleRequest` returns, in case it is
reached (its `uploadLocation, err`). -/
def publishResult {σ : Type} (out : io.Writer σ) (init : σ) (read : σ → String) (world : World)
    (event : Event) : String × Option Error :=
  uploadData world (filenameOf event) (read (encodeResult out init world event).1)

/-- The three calls of `handleRequest` to its helpers, with their arguments. -/
def fetchCall (event : Event) : Call := .getData (windowFrom event) (windowTo event)

def encodeCall (world : World) (event : Event) : Call := .writeData (fetchResult world event).1

def publishCall {σ : Type} (out : io.Writer σ) (init : σ) (read : σ → String) (world : World)
    (event : Event) : Call :=
  .uploadData (filenameOf event) (read (encodeResult out init world event).1)

/-- A world for examples: the API answers every request with status `status` and a
body that decodes to `data` without error (for no data: `{}`); the upload of an
object answers with `upload`. The environment is empty. -/
def sampleWorld (status : Nat) (data : List timepoint) (upload : UploadInput → Except Error String) :
    World where
  Getenv := fun _ => ""
  NewRequest := fun _ => none
  Do := fun _ => .ok ⟨status, (data, none)⟩
  Upload := upload

/-- The timepoint of 2023-06-01T14:30:00Z with the sensors `(temp, 21.5)` and
`(co2, 450)`: `21.5 = 43 × 2^47 × 2^-48` and `450 = 450 × 2^44 × 2^-44`. -/
def sampleTimepoint : timepoint :=
  { Timestamp := ⟨utcSeconds 2023 6 1 14 30 0, 0, UTC⟩
    Sensors := [⟨"temp", Float64.normal false (43 * 2 ^ 47) (-48)⟩,
      ⟨"co2", Float64.normal false (450 * 2 ^ 44) (-44)⟩] }

/-- The trigger time 2023-06-01T15:23:00Z. -/
def sampleEvent : Event := ⟨⟨utcSeconds 2023 6 1 15 23 0, 0, UTC⟩⟩

/-- The world in which the API answers every request as in `world`, but with the
status code `status` on every response. -/
def World.withStatus (world : World) (status : Nat) : World :=
  { world with
    Do := fun req =>
      match world.Do req with
      | .error err => .error err
      | .ok resp => .ok { resp with StatusCode := status } }

/-- A world for examples in which no request can be built: `http.NewRequest` fails
with `invalid URL`. -/
def brokenWorld : World where
  Getenv := fun _ => ""
  NewRequest := fun _ => some "invalid URL"
  Do := fun _ => .ok ⟨200, ([], none)⟩
  Upload := fun _ => .ok ""

/-- A world for examples in which the API cannot be reached: every request fails in
transport with `connection refused`. -/
def offlineWorld : World where
  Getenv := fun _ => ""
  NewRequest := fun _ => none
  Do := fun _ => .error "connection refused"
  Upload := fun _ => .ok ""

/-- The body of a quoted field: every quote doubled, all else as it is. -/
def escapeQuotes : List Char → List Char
  | [] => []
  | c :: cs => if c = '"' then '"' :: '"' :: escapeQuotes cs else c :: escapeQuotes cs

/-- The text of one CSV field: the field itself, or, when `fieldNeedsQuotes`, the
field between quotes with its quotes doubled. -/
def fieldText (field : String) : String :=
  if fieldNeedsQuotes field then ⟨'"' :: (escapeQuotes field.data ++ ['"'])⟩ else field

/-- The text of the fields of a record from index `n` on, a comma before each field
but the first of the record. -/
def fieldsText : Nat → List String → String
  | _, [] => ""
  | n, field :: rest => (if n > 0 then "," else "") ++ fieldText field ++ fieldsText (n + 1) rest

/-- The text of one CSV row: the fields separated by commas, then a line feed. -/
def recordText (rec : List String) : String := fieldsText 0 rec ++ "\n"

/-- The records of a data set in the order `writeData` visits them: timepoint by
timepoint, and sensor by sensor within each. -/
def records (data : List timepoint) : List (List String) :=
  data.flatMap (fun d => d.Sensors.map (record (d.Timestamp.Format ATHENA_TIMESTAMP_FORMAT)))

/-- The CSV text of a data set: its rows one after the other, nothing else. -/
def csvText (data : List timepoint) : String := String.join ((records data).map recordText)

/-- One call of the `Write` method of a writer: the text passed, the count and the
error returned. -/
structure WriteCall where
  p : String
  n : Nat
  err : Option Error
deriving DecidableEq, Repr

/-- A write is accepted when the writer took all of the text and returned no
error; otherwise it is rejected. -/
def WriteCall.accepted (c : WriteCall) : Prop := c.err = none ∧ c.p.length ≤ c.n

instance (c : WriteCall) : Decidable c.accepted := by
  unfold WriteCall.accepted
  exact inferInstance

/-- The writer `out` observed: it behaves as `out` does and keeps, next to the state
of `out`, the list of the calls made to it (latest first). -/
def io.Writer.observed {σ : Type} (out : io.Writer σ) : io.Writer (σ × List WriteCall) where
  Write := fun st p =>
    let r := out.Write st.1 p
    ((r.1, ⟨p, r.2.1, r.2.2⟩ :: st.2), r.2.1, r.2.2)

/-- CSV reading, the body of a quoted field (behind the opening quote): a doubled
quote is a quote, a single quote ends the field; the result is the field and the
text behind the closing quote. -/
def readQuoted : List Char → Option (List Char × List Char)
  | [] => none
  | '"' :: '"' :: rest => (readQuoted rest).map (fun p => ('"' :: p.1, p.2))
  | '"' :: rest => some ([], rest)
  | c :: rest => (readQuoted rest).map (fun p => (c :: p.1, p.2))

/-- CSV reading, a field without quotes: it extends to the next comma or line feed;
the result is the field and the text from that delimiter on. -/
def readBare : List Char → List Char × List Char
  | [] => ([], [])
  | c :: rest =>
    if c = ',' ∨ c = '\n' then ([], c :: rest) else ((c :: (readBare rest).1), (readBare rest).2)

/-- CSV reading, one field: quoted when the text starts with a quote. -/
def readField (s : List Char) : Option (List Char × List Char) :=
  match s with
  | '"' :: rest => readQuoted rest
  | _ => some (readBare s)

/-- CSV reading, one row of three fields from the front of a text: the fields are
separated by commas and the row ends with a line feed; the result is the three
fields and the text behind the row. -/
def readRow (s : List Char) : Option (String × String × String × List Char) :=
  match readField s with
  | some (f1, ',' :: r1) =>
    match readField r1 with
    | some (f2, ',' :: r2) =>
      match readField r2 with
      | some (f3, '\n' :: r3) => some (⟨f1⟩, ⟨f2⟩, ⟨f3⟩, r3)
      | _ => none
    | _ => none
  | _ => none

/-- The date and clock reading of a time in its own location, to the microsecond:
what the layout `ATHENA_TIMESTAMP_FORMAT` shows of it. -/
structure WallClock where
  year : Int
  month : Nat
  day : Nat
  hour : Nat
  min : Nat
  sec : Nat
  micro : Nat
deriving DecidableEq, Repr

/-- The wall clock of a time: `absDate` and `absClock` of its `abs`, and the
microsecond of its nanosecond. -/
def Time.wallClock (t : Time) : WallClock :=
  { year := (absDate t.abs).year, month := (absDate t.abs).month, day := (absDate t.abs).day,
    hour := (absClock t.abs).hour, min := (absClock t.abs).min, sec := (absClock t.abs).sec,
    micro := t.nsec / 1000 }

/-- The day of the year of a month and day, the inverse of `monthDay`. -/
def ydayOf (leap : Bool) (month day : Nat) : Nat :=
  if leap = true ∧ month = 2 ∧ day = 29 then 31 + 29 - 1
  else daysBefore.getD (month - 1) 0 + (day - 1) + (if leap = true ∧ month > 2 then 1 else 0)

/-- The characters that timestamps and numbers are made of. -/
def plainChar (c : Char) : Bool :=
  c.isDigit || c = '-' || c = ' ' || c = ':' || c = '.' || c = '+' || c = 'N' || c = 'a'
    || c = 'I' || c = 'n' || c = 'f'

/-- The characters a timestamp or a number can start with. -/
def plainHead (c : Char) : Bool := c.isDigit || c = '-' || c = '+' || c = 'N'

/-- A plain text: not empty, made of plain characters, with a plain first one. -/
def plainText (s : String) : Prop :=
  (∃ h t, s.data = h :: t ∧ plainHead h = true) ∧ ∀ c ∈ s.data, plainChar c = true

/-- The text a special character of a quoted field is written as. -/
def specialText (x : Char) : List Char :=
  if x = '"' then ['"', '"'] else if x = '\r' then ['\r'] else if x = '\n' then ['\n'] else []

/-- A relation `R b t` between the states of the buffered writer over `out` and
texts tracks what is written when it is kept by buffering more text and by
flushing, and holds of a failed state with every text. -/
structure Tracks {σ : Type} (out : io.Writer σ) (R : bufio.Writer σ → List Char → Prop) : Prop where
  buffered : ∀ b t s, R b t → b.err = none → R { b with buf := b.buf ++ s } (t ++ s.data)
  flushed : ∀ b t, R b t → R (bufio.Writer.Flush out b) t
  failed : ∀ b t t', R b t → b.err ≠ none → R b t'

/-- A writer that accepts every write: it takes all of the text and returns no
error, whatever its state. -/
def io.Writer.acceptsAll {σ : Type} (out : io.Writer σ) : Prop :=
  ∀ st p, (out.Write st p).2.2 = none ∧ p.length ≤ (out.Write st p).2.1

/-- A writer that rejects every write: whatever its state and the text, it returns
an error or takes less than all of the text. -/
def io.Writer.rejectsAll {σ : Type} (out : io.Writer σ) : Prop :=
  ∀ st p, ¬ ((out.Write st p).2.2 = none ∧ p.length ≤ (out.Write st p).2.1)

/-! ## The number a decimal stands for, and the text of a value -/

/-- The value of a digit string with its decimal point `dp` places behind its
first digit: `0.d₀d₁d₂… × 10^dp`. -/
def valDigits : List Nat → Int → ℚ
  | [], _ => 0
  | c :: cs, dp => (c : ℚ) * (10 : ℚ) ^ (dp - 1) + valDigits cs (dp - 1)

/-- The value of a decimal. -/
def decimal.val (a : decimal) : ℚ := valDigits a.d a.dp

/-- The value of the first `k` digits of a decimal (of none, when `k ≤ 0`). -/
def decimal.prefixVal (a : decimal) (k : Int) : ℚ := valDigits (a.d.take k.toNat) a.dp

/-- The digit of a decimal at index `k`, zero outside of its digits. -/
def decimal.digit (a : decimal) (k : Int) : Nat := if 0 ≤ k then a.d.getD k.toNat 0 else 0

/-- The value `y` lies between `L` and `U`, and strictly so unless the bounds are
inclusive. -/
def inBounds (L U : ℚ) (inclusive : Bool) (y : ℚ) : Prop :=
  L ≤ y ∧ y ≤ U ∧ (inclusive = false → L < y ∧ y < U)

/-- The new value of `upperdelta` in the loop of `roundShortest`. -/
def stepDelta (upperdelta m u : Nat) : Nat :=
  if upperdelta = 0 ∧ m + 1 < u then 2
  else if upperdelta = 0 ∧ m ≠ u then 1
  else if upperdelta = 1 ∧ (m ≠ 9 ∨ u ≠ 0) then 2
  else upperdelta

/-- The upper end of the rounding interval of the float `mant × 2^(exp-52)`: halfway
to the next float. -/
def upperBound (mant : Nat) (exp : Int) : ℚ := (2 * (mant : ℚ) + 1) * (2 : ℚ) ^ (exp - 53)

/-- The lower end of the rounding interval of the float `mant × 2^(exp-52)`: halfway
to the previous float, which is closer when `mant` is the least mantissa of a binade
above the lowest. -/
def lowerBound (mant : Nat) (exp : Int) : ℚ :=
  if mant > 2 ^ 52 ∨ exp = -1022 then (2 * (mant : ℚ) - 1) * (2 : ℚ) ^ (exp - 53)
  else (4 * (mant : ℚ) - 1) * (2 : ℚ) ^ (exp - 54)

/-- The digits before the decimal point in the text `fmtF` writes. -/
def intDigits (d : decimal) : List Nat :=
  if d.dp > 0 then
    d.d.take (min d.d.length d.dp.toNat)
      ++ List.replicate (d.dp.toNat - min d.d.length d.dp.toNat) 0
  else [0]

/-- The digits after the decimal point in the text `fmtF` writes. -/
def fracDigits (d : decimal) (prec : Nat) : List Nat :=
  (List.range prec).map (fun (i : Nat) =>
    if 0 ≤ d.dp + (i : Int) ∧ d.dp + (i : Int) < d.nd then d.d.getD (d.dp + (i : Int)).toNat 0
    else 0)

/-- Whether a number text starts with a minus sign. -/
def textNeg : List Char → Bool
  | '-' :: _ => true
  | _ => false

/-- A number text without its minus sign. -/
def textBody : List Char → List Char
  | '-' :: r => r
  | cs => cs

/-- The number that a text `ddd` or `ddd.ddd` denotes, read as in school: the
digits before the point count units, tens, …, those after it tenths, hundredths, …. -/
def textValue (cs : List Char) : ℚ :=
  let int := cs.takeWhile (fun c => c != '.')
  let frac := (cs.dropWhile (fun c => c != '.')).drop 1
  valDigits ((int ++ frac).map (fun c => c.toNat - 48)) int.length

/-- The sign bit of a `float64`. -/
def Float64.neg (v : Float64) : Bool := decide (v.bits / 2 ^ 63 ≠ 0)

/-- The exponent field of a `float64`. -/
def Float64.exp0 (v : Float64) : Nat := (v.bits / 2 ^ 52) % 2 ^ 11

/-- The mantissa field of a `float64`. -/
def Float64.mant0 (v : Float64) : Nat := v.bits % 2 ^ 52

/-- Whether a `float64` is a NaN (`math.IsNaN`). -/
def Float64.isNaN (v : Float64) : Prop := v.exp0 = 2 ^ 11 - 1 ∧ v.mant0 ≠ 0

/-- The mantissa of a finite `float64` with its hidden bit, as `FormatFloat` computes it. -/
def Float64.mant (v : Float64) : Nat := if v.exp0 = 0 then v.mant0 else v.mant0 + 2 ^ 52

/-- The exponent of a finite `float64`, as `FormatFloat` computes it. -/
def Float64.exp (v : Float64) : Int := (if v.exp0 = 0 then 1 else (v.exp0 : Int)) + (-1023)

/-- The shortest digits `FormatFloat` computes for a finite `float64`. -/
def Float64.digits (v : Float64) : decimal :=
  roundShortest (decimal.assignShift v.mant (v.exp - 52)) v.mant v.exp

instance (L U : ℚ) (inclusive : Bool) (y : ℚ) : Decidable (inBounds L U inclusive y) := by
  unfold inBounds
  exact inferInstance

instance (v : Float64) : Decidable v.isNaN := by
  unfold Float64.isNaN
  exact inferInstance

/-! ## The pipeline: order of the steps and propagation of errors -/

theorem handleRequestOn_fetch_failed {σ : Type} (out : io.Writer σ) (init : σ) (read : σ → String)
    (world : World) (event : Event) (e : Error) (h : (fetchResult world event).2 = some e) :
    handleRequestOn out init read world event =
      { result := "", err := some e, calls := [fetchCall event] } := by
  unfold fetchResult windowFrom windowTo at h
  simp only [handleRequestOn, h, fetchCall, windowFrom, windowTo]

theorem handleRequestOn_encode_failed {σ : Type} (out : io.Writer σ) (init : σ) (read : σ → String)
    (world : World) (event : Event) (e : Error) (h1 : (fetchResult world event).2 = none)
    (h2 : (encodeResult out init world event).2 = some e) :
    handleRequestOn out init read world event =
      { result := "", err := some e, calls := [fetchCall event, encodeCall world event] } := by
  unfold encodeResult at h2
  unfold fetchResult windowFrom windowTo at h1 h2
  simp only [handleRequestOn, h1, h2, fetchCall, encodeCall, fetchResult, windowFrom, windowTo]

theorem handleRequestOn_publish_failed {σ : Type} (out : io.Writer σ) (init : σ) (read : σ → String)
    (world : World) (event : Event) (e : Error) (h1 : (fetchResult world event).2 = none)
    (h2 : (encodeResult out init world event).2 = none)
    (h3 : (publishResult out init read world event).2 = some e) :
    handleRequestOn out init read world event =
      { result := "", err := some ("failed to upload file, " ++ e),
        calls := [fetchCall event, encodeCall world event, publishCall out init read world event] } := by
  unfold publishResult filenameOf at h3
  unfold encodeResult at h2 h3
  unfold fetchResult windowFrom windowTo at h1 h2 h3
  simp only [handleRequestOn, h1, h2, h3, fetchCall, encodeCall, publishCall, filenameOf,
    encodeResult, fetchResult, windowFrom, windowTo]

theorem handleRequestOn_succeeded {σ : Type} (out : io.Writer σ) (init : σ) (read : σ → String)
    (world : World) (event : Event) (h1 : (fetchResult world event).2 = none)
    (h2 : (encodeResult out init world event).2 = none)
    (h3 : (publishResult out init read world event).2 = none) :
    handleRequestOn out init read world event =
      { result := "Saved data for " ++ (windowFrom event).String ++ " - " ++ (windowTo event).String
          ++ " to " ++ (publishResult out init read world event).1,
        err := none,
        calls := [fetchCall event, encodeCall world event, publishCall out init read world event] } := by
  unfold publishResult filenameOf at h3
  unfold encodeResult at h2 h3
  unfold fetchResult windowFrom windowTo at h1 h2 h3
  simp only [handleRequestOn, h1, h2, h3, fetchCall, encodeCall, publishCall, filenameOf,
    publishResult, encodeResult, fetchResult, windowFrom, windowTo]

/-- C6: `handleRequest` is fail-fast. For every writer standing in for `csvData` (the
program's `bytes.Buffer` included), every world and every event, the calls made are
`getData`, `writeData`, `uploadData` in this order, each at most once; a failed
fetch is followed by no other call, a failed encode by no upload; and whenever a
step fails the result is the empty string together with an error. -/
theorem C6_fail_fast {σ : Type} (out : io.Writer σ) (init : σ) (read : σ → String)
    (world : World) (event : Event) :
    ((handleRequestOn out init read world event).calls = [fetchCall event]
      ∨ (handleRequestOn out init read world event).calls = [fetchCall event, encodeCall world event]
      ∨ (handleRequestOn out init read world event).calls
          = [fetchCall event, encodeCall world event, publishCall out init read world event])
    ∧ ((fetchResult world event).2 ≠ none →
        (handleRequestOn out init read world event).calls = [fetchCall event]
        ∧ (handleRequestOn out init read world event).result = ""
        ∧ (handleRequestOn out init read world event).err ≠ none)
    ∧ ((fetchResult world event).2 = none → (encodeResult out init world event).2 ≠ none →
        (handleRequestOn out init read world event).calls = [fetchCall event, encodeCall world event]
        ∧ (handleRequestOn out init read world event).result = ""
        ∧ (handleRequestOn out init read world event).err ≠ none)
    ∧ ((fetchResult world event).2 = none → (encodeResult out init world event).2 = none →
        (publishResult out init read world event).2 ≠ none →
        (handleRequestOn out init read world event).calls
          = [fetchCall event, encodeCall world event, publishCall out init read world event]
        ∧ (handleRequestOn out init read world event).result = ""
        ∧ (handleRequestOn out init read world event).err ≠ none)
    ∧ ((handleRequestOn out init read world event).err = none ↔
        ((fetchResult world event).2 = none ∧ (encodeResult out init world event).2 = none
          ∧ (publishResult out init read world event).2 = none))
    ∧ ((handleRequestOn out init read world event).err ≠ none →
        (handleRequestOn out init read world event).result = "")
    ∧ handleRequest world event = handleRequestOn bytes.Buffer "" id world event := by
  cases h1 : (fetchResult world event).2 with
  | some e1 =>
    rw [handleRequestOn_fetch_failed out init read world event e1 h1]
    simp [handleRequest]
  | none =>
    cases h2 : (encodeResult out init world event).2 with
    | some e2 =>
      rw [handleRequestOn_encode_failed out init read world event e2 h1 h2]
      simp [handleRequest]
    | none =>
      cases h3 : (publishResult out init read world event).2 with
      | some e3 =>
        rw [handleRequestOn_publish_failed out init read world event e3 h1 h2 h3]
        simp [handleRequest]
      | none =>
        rw [handleRequestOn_succeeded out init read world event h1 h2 h3]
        simp [handleRequest]

/-- C6 when the upload is refused: all three calls are made, and the result is the
empty string with an error. -/
theorem C6_fail_fast_witness :
    (publishResult bytes.Buffer "" id (sampleWorld 200 [] (fun _ => .error "AccessDenied"))
        sampleEvent).2 ≠ none
    ∧ ((handleRequestOn bytes.Buffer "" id (sampleWorld 200 [] (fun _ => .error "AccessDenied"))
          sampleEvent).calls
        = [fetchCall sampleEvent,
            encodeCall (sampleWorld 200 [] (fun _ => .error "AccessDenied")) sampleEvent,
            publishCall bytes.Buffer "" id (sampleWorld 200 [] (fun _ => .error "AccessDenied"))
              sampleEvent]
      ∧ (handleRequestOn bytes.Buffer "" id (sampleWorld 200 [] (fun _ => .error "AccessDenied"))
          sampleEvent).result = ""
      ∧ (handleRequestOn bytes.Buffer "" id (sampleWorld 200 [] (fun _ => .error "AccessDenied"))
          sampleEvent).err ≠ none) :=
  ⟨by decide,
    (C6_fail_fast bytes.Buffer "" id (sampleWorld 200 [] (fun _ => .error "AccessDenied"))
      sampleEvent).2.2.2.1 (by decide) (by decide) (by decide)⟩

/-- C5 (as the code has it): an error of the fetch or of the encode step is returned
by `handleRequest` unchanged; an error `e` of the publish step is returned as a new
error whose message is `"failed to upload file, "` followed by the message of `e`. -/
theorem C5_error_propagation {σ : Type} (out : io.Writer σ) (init : σ) (read : σ → String)
    (world : World) (event : Event) (e : Error) :
    ((fetchResult world event).2 = some e →
        (handleRequestOn out init read world event).err = some e)
    ∧ ((fetchResult world event).2 = none → (encodeResult out init world event).2 = some e →
        (handleRequestOn out init read world event).err = some e)
    ∧ ((fetchResult world event).2 = none → (encodeResult out init world event).2 = none →
        (publishResult out init read world event).2 = some e →
        (handleRequestOn out init read world event).err = some ("failed to upload file, " ++ e))
    ∧ handleRequest world event = handleRequestOn bytes.Buffer "" id world event := by
  refine ⟨?_, ?_, ?_, rfl⟩
  · intro h
    rw [handleRequestOn_fetch_failed out init read world event e h]
  · intro h1 h2
    rw [handleRequestOn_encode_failed out init read world event e h1 h2]
  · intro h1 h2 h3
    rw [handleRequestOn_publish_failed out init read world event e h1 h2 h3]

/-- C5 when the API cannot be reached, and when the upload is refused. -/
theorem C5_error_propagation_witness :
    (fetchResult offlineWorld sampleEvent).2 = some "connection refused"
    ∧ (handleRequestOn bytes.Buffer "" id offlineWorld sampleEvent).err
        = some "connection refused"
    ∧ (handleRequestOn bytes.Buffer "" id (sampleWorld 200 [] (fun _ => .error "AccessDenied"))
        sampleEvent).err = some ("failed to upload file, " ++ "AccessDenied") :=
  ⟨by decide,
    (C5_error_propagation bytes.Buffer "" id offlineWorld sampleEvent "connection refused").1
      (by decide),
    (C5_error_propagation bytes.Buffer "" id (sampleWorld 200 [] (fun _ => .error "AccessDenied"))
      sampleEvent "AccessDenied").2.2.1 (by decide) (by decide) (by decide)⟩

/-- C5 fails as stated: when the upload of the 15:00 window is refused with
`AccessDenied`, the publish step produced the error `AccessDenied`, but
`handleRequest` returns the error `failed to upload file, AccessDenied`. -/
theorem C5_publish_error_is_wrapped :
    (publishResult bytes.Buffer "" id (sampleWorld 200 [] (fun _ => .error "AccessDenied"))
        sampleEvent).2 = some "AccessDenied"
    ∧ (handleRequest (sampleWorld 200 [] (fun _ => .error "AccessDenied")) sampleEvent).err
        = some "failed to upload file, AccessDenied"
    ∧ (handleRequest (sampleWorld 200 [] (fun _ => .error "AccessDenied")) sampleEvent).err
        ≠ some "AccessDenied" := by
  decide

theorem getData_withStatus (world : World) (status : Nat) (from_ to_ : Time) :
    getData (world.withStatus status) from_ to_ = getData world from_ to_ := by
  have hreq : getReq (world.withStatus status) from_ to_ = getReq world from_ to_ := rfl
  unfold getData
  rw [hreq]
  cases h1 : getReq world from_ to_ with
  | error e1 => rfl
  | ok req =>
    simp only [World.withStatus]
    cases h2 : world.Do req with
    | error e2 => rfl
    | ok resp => rfl

/-- C4 (as the code has it): `getData` never looks at the status code. It fails
exactly when the request cannot be built, the transport fails, or the body does not
decode: an error of `getReq` or of `Do` is returned as it is, and otherwise the
result is what decoding the body yields; changing the status code of every response
changes neither the result of `getData` nor the outcome of `handleRequest`. And
whenever `getData` fails, `handleRequest` returns that error with an empty result,
having called nothing but `getData` (no upload is attempted). -/
theorem C4_fetch_failure_aborts (world : World) (event : Event) :
    (∀ e, getReq world (windowFrom event) (windowTo event) = .error e →
        fetchResult world event = ([], some e))
    ∧ (∀ req e, getReq world (windowFrom event) (windowTo event) = .ok req →
        world.Do req = .error e → fetchResult world event = ([], some e))
    ∧ (∀ req resp, getReq world (windowFrom event) (windowTo event) = .ok req →
        world.Do req = .ok resp → fetchResult world event = resp.Body)
    ∧ (∀ status, fetchResult (world.withStatus status) event = fetchResult world event)
    ∧ (∀ status, handleRequest (world.withStatus status) event = handleRequest world event)
    ∧ (∀ e, (fetchResult world event).2 = some e →
        (getReq world (windowFrom event) (windowTo event) = .error e
          ∨ (∃ req, getReq world (windowFrom event) (windowTo event) = .ok req
              ∧ world.Do req = .error e)
          ∨ (∃ req resp, getReq world (windowFrom event) (windowTo event) = .ok req
              ∧ world.Do req = .ok resp ∧ resp.Body.2 = some e)))
    ∧ (∀ e, (fetchResult world event).2 = some e →
        handleRequest world event = { result := "", err := some e, calls := [fetchCall event] }) := by
  refine ⟨?_, ?_, ?_, ?_, ?_, ?_, ?_⟩
  · intro e h
    simp only [fetchResult, getData, h]
  · intro req e h1 h2
    simp only [fetchResult, getData, h1, h2]
  · intro req resp h1 h2
    simp only [fetchResult, getData, h1, h2]
  · intro status
    exact getData_withStatus world status _ _
  · intro status
    unfold handleRequest handleRequestOn
    simp only [getData_withStatus]
    rfl
  · intro e h
    unfold fetchResult getData at h
    cases h1 : getReq world (windowFrom event) (windowTo event) with
    | error e1 =>
      simp only [h1, Option.some.injEq] at h
      left; rw [h]
    | ok req =>
      simp only [h1] at h
      right
      cases h2 : world.Do req with
      | error e2 =>
        simp only [h2, Option.some.injEq] at h
        left; exact ⟨req, rfl, by rw [h2, h]⟩
      | ok resp =>
        simp only [h2] at h
        right; exact ⟨req, resp, rfl, h2, h⟩
  · intro e h
    exact handleRequestOn_fetch_failed bytes.Buffer "" id world event e h

/-- C4 when no request can be built, and when the API cannot be reached: `getData`
returns the error, and `handleRequest` returns it, having called nothing but
`getData`. -/
theorem C4_fetch_failure_aborts_witness :
    fetchResult brokenWorld sampleEvent = ([], some "invalid URL")
    ∧ fetchResult offlineWorld sampleEvent = ([], some "connection refused")
    ∧ handleRequest brokenWorld sampleEvent
        = { result := "", err := some "invalid URL", calls := [fetchCall sampleEvent] }
    ∧ handleRequest offlineWorld sampleEvent
        = { result := "", err := some "connection refused", calls := [fetchCall sampleEvent] } :=
  ⟨(C4_fetch_failure_aborts brokenWorld sampleEvent).1 "invalid URL" rfl,
    (C4_fetch_failure_aborts offlineWorld sampleEvent).2.1 _ "connection refused" rfl rfl,
    (C4_fetch_failure_aborts brokenWorld sampleEvent).2.2.2.2.2.2 "invalid URL" (by decide),
    (C4_fetch_failure_aborts offlineWorld sampleEvent).2.2.2.2.2.2 "connection refused"
      (by decide)⟩

/-- C4 fails as stated: when the API answers HTTP 500 with a body that decodes (such
as `{}`), `getData` returns no error, and `handleRequest` goes on to encode and to
upload the (empty) CSV and reports success. -/
theorem C4_http_500_is_not_an_error :
    (fetchResult (sampleWorld 500 [] (fun u => .ok ("s3://" ++ u.Key))) sampleEvent).2 = none
    ∧ (handleRequest (sampleWorld 500 [] (fun u => .ok ("s3://" ++ u.Key))) sampleEvent).err = none
    ∧ (handleRequest (sampleWorld 500 [] (fun u => .ok ("s3://" ++ u.Key))) sampleEvent).calls
        = [fetchCall sampleEvent, .writeData [], .uploadData "2023-06-01T15:00:00Z" ""] := by
  decide

/-! ## The window: `Truncate(time.Hour)` and `Add(-time.Hour)` -/

theorem div_Hour (t : Time) (h1 : t.nsec < 1000000000) :
    div t Hour = (t.sec % 3600) * 1000000000 + t.nsec := by
  have hH : Hour = 3600000000000 := by decide
  have hS : Second = 1000000000 := by decide
  unfold div
  rw [hH, hS]
  have c1 : ¬ ((3600000000000 : Int) < 1000000000 ∧
      (1000000000 : Int).tmod (3600000000000 + 3600000000000) = 0) := by decide
  have c2 : (3600000000000 : Int).tmod 1000000000 = 0 := by decide
  have c3 : (3600000000000 : Int).tdiv 1000000000 = 3600 := by decide
  simp only [c1, c2, c3, if_false, if_true]
  by_cases hs : t.sec < 0
  · by_cases hn : -(t.nsec : Int) < 0
    · have e1 : (-t.sec - 1).tmod 3600 = (-t.sec - 1) % 3600 :=
        Int.tmod_eq_emod (by omega) (by omega)
      simp only [hs, hn, if_true, decide_True, true_and, e1, eq_self_iff_true, ne_eq, ite_not]
      split <;> omega
    · have e1 : (-t.sec).tmod 3600 = (-t.sec) % 3600 :=
        Int.tmod_eq_emod (by omega) (by omega)
      simp only [hs, hn, if_true, if_false, decide_True, true_and, e1, eq_self_iff_true, ne_eq, ite_not]
      split <;> omega
  · have e1 : (t.sec).tmod 3600 = (t.sec) % 3600 :=
      Int.tmod_eq_emod (by omega) (by omega)
    simp only [hs, if_false, decide_False, false_and, e1, Bool.false_eq_true]

theorem addSec_in_range (t : Time) (d : Int) (h1 : minInt64 ≤ t.sec + d) (h2 : t.sec + d ≤ maxInt64) :
    t.addSec d = { t with sec := t.sec + d } := by
  unfold Time.addSec wrapInt64
  unfold minInt64 at h1
  unfold maxInt64 at h2
  have e : (t.sec + d + 9223372036854775808) % 18446744073709551616 - 9223372036854775808
      = t.sec + d := by omega
  simp only [e]
  have : (decide (t.sec + d > t.sec)) = (decide (d > 0)) := by
    by_cases hd : d > 0
    · simp [hd]
    · simp only [hd, decide_False, decide_eq_false_iff_not, gt_iff_lt, not_lt]
      omega
  simp only [this, if_true]

theorem Truncate_Hour (t : Time) (h1 : t.nsec < 1000000000) (h2 : minInt64 + 3600 ≤ t.sec)
    (h3 : t.sec ≤ maxInt64) :
    t.Truncate Hour = { t with sec := t.sec - t.sec % 3600, nsec := 0 } := by
  have hH : ¬ (Hour ≤ 0) := by decide
  unfold Time.Truncate
  simp only [hH, if_false]
  rw [div_Hour t h1]
  unfold Time.Add
  have hm := Int.emod_nonneg t.sec (show (3600 : Int) ≠ 0 by decide)
  have hm2 := Int.emod_lt_of_pos t.sec (show (0 : Int) < 3600 by decide)
  have e1 : (-(t.sec % 3600 * 1000000000 + (t.nsec : Int))).tdiv 1000000000 = -(t.sec % 3600) := by
    have e0 : (t.sec % 3600 * 1000000000 + (t.nsec : Int)) / 1000000000 = t.sec % 3600 := by
      omega
    rw [Int.neg_tdiv, Int.tdiv_eq_ediv (by omega) (by omega), e0]
  have e2 : (-(t.sec % 3600 * 1000000000 + (t.nsec : Int))).tmod 1000000000 = -(t.nsec : Int) := by
    rw [Int.tmod_def, e1]
    omega
  rw [e1, e2]
  have e3 : (t.nsec : Int) + -(t.nsec : Int) = 0 := by omega
  simp only [e3]
  have c1 : ¬ ((0 : Int) ≥ 1000000000) := by decide
  have c2 : ¬ ((0 : Int) < 0) := by decide
  simp only [c1, c2, if_false]
  rw [addSec_in_range]
  · simp only [Int.toNat_zero]
    congr 1
  · show minInt64 ≤ t.sec + -(t.sec % 3600)
    omega
  · show t.sec + -(t.sec % 3600) ≤ maxInt64
    omega

theorem Add_neg_Hour (t : Time) (h1 : t.nsec < 1000000000) (h2 : minInt64 + 3600 ≤ t.sec)
    (h3 : t.sec ≤ maxInt64) :
    t.Add (-Hour) = { t with sec := t.sec - 3600 } := by
  unfold Time.Add
  have e1 : (-Hour).tdiv 1000000000 = -3600 := by decide
  have e2 : (-Hour).tmod 1000000000 = 0 := by decide
  rw [e1, e2]
  have c1 : ¬ ((t.nsec : Int) + 0 ≥ 1000000000) := by omega
  have c2 : ¬ ((t.nsec : Int) + 0 < 0) := by omega
  simp only [c1, c2, if_false]
  rw [addSec_in_range]
  · simp only [Int.add_zero, Int.toNat_ofNat]
    congr 1
  · show minInt64 ≤ t.sec + -3600
    omega
  · show t.sec + -3600 ≤ maxInt64
    omega

theorem handleRequestOn_calls_head {σ : Type} (out : io.Writer σ) (init : σ) (read : σ → String)
    (world : World) (event : Event) :
    (handleRequestOn out init read world event).calls.head? = some (fetchCall event) := by
  cases h1 : (fetchResult world event).2 with
  | some e1 => rw [handleRequestOn_fetch_failed out init read world event e1 h1]; rfl
  | none =>
    cases h2 : (encodeResult out init world event).2 with
    | some e2 => rw [handleRequestOn_encode_failed out init read world event e2 h1 h2]; rfl
    | none =>
      cases h3 : (publishResult out init read world event).2 with
      | some e3 => rw [handleRequestOn_publish_failed out init read world event e3 h1 h2 h3]; rfl
      | none => rw [handleRequestOn_succeeded out init read world event h1 h2 h3]; rfl

theorem windowTo_eq (event : Event) (h1 : event.Time.nsec < 1000000000)
    (h2 : minInt64 + 3600 ≤ event.Time.sec) (h3 : event.Time.sec ≤ maxInt64) :
    windowTo event =
      { event.Time with sec := event.Time.sec - event.Time.sec % 3600, nsec := 0 } :=
  Truncate_Hour event.Time h1 h2 h3

theorem windowFrom_eq (event : Event) (h1 : event.Time.nsec < 1000000000)
    (h2 : minInt64 + 7200 ≤ event.Time.sec) (h3 : event.Time.sec ≤ maxInt64) :
    windowFrom event =
      { event.Time with sec := event.Time.sec - event.Time.sec % 3600 - 3600, nsec := 0 } := by
  unfold windowFrom
  rw [windowTo_eq event h1 (by omega) h3]
  rw [Add_neg_Hour]
  · show (0 : Nat) < 1000000000
    decide
  · show minInt64 + 3600 ≤ event.Time.sec - event.Time.sec % 3600
    unfold minInt64 at *
    omega
  · show event.Time.sec - event.Time.sec % 3600 ≤ maxInt64
    omega

theorem abs_truncated (t : Time) (ho : t.loc.offset % 3600 = 0)
    (a1 : 0 ≤ t.sec + t.loc.offset + internalToAbsolute)
    (a2 : t.sec + t.loc.offset + internalToAbsolute < 18446744073709551616) :
    ({ t with sec := t.sec - t.sec % 3600, nsec := 0 } : Time).abs = t.abs - t.abs % 3600 := by
  have e1 : t.abs = (t.sec + t.loc.offset + internalToAbsolute).toNat := by
    unfold Time.abs
    rw [Int.emod_eq_of_lt a1 a2]
  have hs : t.sec % 3600 = (t.sec + t.loc.offset + internalToAbsolute) % 3600 := by
    unfold internalToAbsolute
    omega
  have e2 : ({ t with sec := t.sec - t.sec % 3600, nsec := 0 } : Time).abs
      = (t.sec + t.loc.offset + internalToAbsolute - t.sec % 3600).toNat := by
    unfold Time.abs
    have b1 : 0 ≤ t.sec - t.sec % 3600 + t.loc.offset + internalToAbsolute := by omega
    have b2 : t.sec - t.sec % 3600 + t.loc.offset + internalToAbsolute < 18446744073709551616 := by
      omega
    simp only []
    rw [Int.emod_eq_of_lt b1 b2]
    congr 1
    ring
  rw [e1, e2, hs]
  generalize t.sec + t.loc.offset + internalToAbsolute = A at a1 a2
  omega

theorem absDate_truncated (a : Nat) : absDate (a - a % 3600) = absDate a := by
  have h : (a - a % 3600) / 86400 = a / 86400 := by omega
  simp only [absDate, secondsPerDay, h]

theorem absClock_truncated (a : Nat) :
    absClock (a - a % 3600) = { absClock a with min := 0, sec := 0 } := by
  simp only [absClock, secondsPerDay, secondsPerHour, secondsPerMinute, Clock.mk.injEq]
  refine ⟨?_, ?_, ?_⟩ <;> omega

/-- In a zone whose offset is a whole number of hours, the end of the window shows
the date and the hour of the trigger time, and zero minutes, seconds and microseconds. -/
theorem windowTo_wallClock (event : Event) (h1 : event.Time.nsec < 1000000000)
    (h2 : minInt64 + 3600 ≤ event.Time.sec) (h3 : event.Time.sec ≤ maxInt64)
    (ho : event.Time.loc.offset % 3600 = 0)
    (a1 : 0 ≤ event.Time.sec + event.Time.loc.offset + internalToAbsolute)
    (a2 : event.Time.sec + event.Time.loc.offset + internalToAbsolute < 18446744073709551616) :
    (windowTo event).wallClock
      = { event.Time.wallClock with min := 0, sec := 0, micro := 0 } := by
  rw [windowTo_eq event h1 h2 h3]
  unfold Time.wallClock
  rw [abs_truncated event.Time ho a1 a2, absDate_truncated, absClock_truncated]
  simp

/-- C1 (as the code has it): for every trigger time `T` (any `time.Time` at least two
hours after the smallest representable instant, hence every time a timestamp can
denote), the window `handleRequest` passes to `getData` has
`to = T.Truncate(time.Hour)` and `from = to.Add(-time.Hour)`: `to` is `T` cut down
to a whole number of hours since the zero time, in the location of `T`, with
`to ≤ T < to + 1h`, and `from` is exactly one hour before `to`. In a zone whose
offset is a whole number of hours (UTC among them) that is the top of the hour: `to`
shows the date and hour of `T` with zero minutes, seconds and microseconds. For
`T = 2023-06-01T15:23:00Z` the window is `2023-06-01T14:00:00Z` to
`2023-06-01T15:00:00Z`. -/
theorem C1_window (world : World) (event : Event) (h1 : event.Time.nsec < 1000000000)
    (h2 : minInt64 + 7200 ≤ event.Time.sec) (h3 : event.Time.sec ≤ maxInt64) :
    (handleRequest world event).calls.head? = some (.getData (windowFrom event) (windowTo event))
    ∧ windowTo event = event.Time.Truncate Hour
    ∧ windowFrom event = (windowTo event).Add (-Hour)
    ∧ (windowTo event).loc = event.Time.loc
    ∧ (windowTo event).nsec = 0
    ∧ (windowTo event).sec % 3600 = 0
    ∧ (windowTo event).sec ≤ event.Time.sec
    ∧ event.Time.sec < (windowTo event).sec + 3600
    ∧ windowFrom event = { windowTo event with sec := (windowTo event).sec - 3600 }
    ∧ (event.Time.loc.offset % 3600 = 0 →
        0 ≤ event.Time.sec + event.Time.loc.offset + internalToAbsolute →
        event.Time.sec + event.Time.loc.offset + internalToAbsolute < 18446744073709551616 →
        (windowTo event).wallClock
          = { event.Time.wallClock with min := 0, sec := 0, micro := 0 })
    ∧ sampleEvent.Time.Format RFC3339 = "2023-06-01T15:23:00Z"
    ∧ (windowFrom sampleEvent).Format RFC3339 = "2023-06-01T14:00:00Z"
    ∧ (windowTo sampleEvent).Format RFC3339 = "2023-06-01T15:00:00Z" := by
  have hto := windowTo_eq event h1 (by omega) h3
  have hfrom := windowFrom_eq event h1 h2 h3
  refine ⟨handleRequestOn_calls_head bytes.Buffer "" id world event, rfl, rfl, ?_, ?_, ?_, ?_, ?_,
    ?_, ?_, by decide, by decide, by decide⟩
  · rw [hto]
  · rw [hto]
  · rw [hto]
    show (event.Time.sec - event.Time.sec % 3600) % 3600 = 0
    omega
  · rw [hto]
    show event.Time.sec - event.Time.sec % 3600 ≤ event.Time.sec
    omega
  · rw [hto]
    show event.Time.sec < event.Time.sec - event.Time.sec % 3600 + 3600
    omega
  · rw [hfrom, hto]
  · intro ho a1 a2
    exact windowTo_wallClock event h1 (by omega) h3 ho a1 a2

/-- C1 at the trigger time 2023-06-01T15:23:00Z. -/
theorem C1_window_witness :
    sampleEvent.Time.nsec < 1000000000
    ∧ (handleRequest (sampleWorld 200 [] (fun _ => .ok "")) sampleEvent).calls.head?
        = some (.getData (windowFrom sampleEvent) (windowTo sampleEvent))
    ∧ (windowTo sampleEvent).sec % 3600 = 0
    ∧ (windowTo sampleEvent).wallClock
        = { sampleEvent.Time.wallClock with min := 0, sec := 0, micro := 0 } :=
  ⟨by decide,
    (C1_window (sampleWorld 200 [] (fun _ => .ok "")) sampleEvent (by decide) (by decide)
      (by decide)).1,
    (C1_window (sampleWorld 200 [] (fun _ => .ok "")) sampleEvent (by decide) (by decide)
      (by decide)).2.2.2.2.2.1,
    (C1_window (sampleWorld 200 [] (fun _ => .ok "")) sampleEvent (by decide) (by decide)
      (by decide)).2.2.2.2.2.2.2.2.2.1 (by decide) (by decide) (by decide)⟩

/-- C1 fails as stated: for the trigger time 2023-06-01T20:10:00+05:30 the window
`handleRequest` passes to `getData` ends at 19:30:00+05:30 and starts at
18:30:00+05:30; the top of the hour is 20:00:00+05:30. -/
theorem C1_half_hour_zone :
    (⟨⟨utcSeconds 2023 6 1 14 40 0, 0, FixedZone "" 19800⟩⟩ : Event).Time.Format RFC3339
      = "2023-06-01T20:10:00+05:30"
    ∧ (handleRequest (sampleWorld 200 [] (fun _ => .ok ""))
        ⟨⟨utcSeconds 2023 6 1 14 40 0, 0, FixedZone "" 19800⟩⟩).calls.head?
      = some (.getData (windowFrom ⟨⟨utcSeconds 2023 6 1 14 40 0, 0, FixedZone "" 19800⟩⟩)
          (windowTo ⟨⟨utcSeconds 2023 6 1 14 40 0, 0, FixedZone "" 19800⟩⟩))
    ∧ (windowTo ⟨⟨utcSeconds 2023 6 1 14 40 0, 0, FixedZone "" 19800⟩⟩).Format RFC3339
      = "2023-06-01T19:30:00+05:30"
    ∧ (windowFrom ⟨⟨utcSeconds 2023 6 1 14 40 0, 0, FixedZone "" 19800⟩⟩).Format RFC3339
      = "2023-06-01T18:30:00+05:30"
    ∧ (windowTo ⟨⟨utcSeconds 2023 6 1 14 40 0, 0, FixedZone "" 19800⟩⟩).Format RFC3339
      ≠ "2023-06-01T20:00:00+05:30" := by
  decide

/-! ## The object key -/

theorem handleRequestOn_upload_call {σ : Type} (out : io.Writer σ) (init : σ) (read : σ → String)
    (world : World) (event : Event) (f b : String)
    (h : Call.uploadData f b ∈ (handleRequestOn out init read world event).calls) :
    f = filenameOf event ∧ b = read (encodeResult out init world event).1 := by
  cases h1 : (fetchResult world event).2 with
  | some e1 =>
    rw [handleRequestOn_fetch_failed out init read world event e1 h1] at h
    simp [fetchCall] at h
  | none =>
    cases h2 : (encodeResult out init world event).2 with
    | some e2 =>
      rw [handleRequestOn_encode_failed out init read world event e2 h1 h2] at h
      simp [fetchCall, encodeCall] at h
    | none =>
      cases h3 : (publishResult out init read world event).2 with
      | some e3 =>
        rw [handleRequestOn_publish_failed out init read world event e3 h1 h2 h3] at h
        simp [fetchCall, encodeCall, publishCall] at h
        exact h
      | none =>
        rw [handleRequestOn_succeeded out init read world event h1 h2 h3] at h
        simp [fetchCall, encodeCall, publishCall] at h
        exact h

/-! ## Zero readings -/

theorem foldl_sensors_nil {σ : Type} (out : io.Writer σ) (data : List timepoint)
    (h : ∀ d ∈ data, d.Sensors = []) (w : bufio.Writer σ) :
    data.foldl (fun w d =>
      d.Sensors.foldl (fun w s => csv.Writer.Write out w
        (record (d.Timestamp.Format ATHENA_TIMESTAMP_FORMAT) s)) w) w = w := by
  induction data generalizing w with
  | nil => rfl
  | cons d ds ih =>
    have hd : d.Sensors = [] := h d (List.mem_cons_self _ _)
    simp only [List.foldl_cons, hd, List.foldl_nil]
    exact ih (fun x hx => h x (List.mem_cons_of_mem _ hx)) w

theorem writeData_no_sensors {σ : Type} (out : io.Writer σ) (output : σ) (data : List timepoint)
    (h : ∀ d ∈ data, d.Sensors = []) :
    writeData out data output = (output, none) := by
  unfold writeData
  have := foldl_sensors_nil out data h (bufio.NewWriter output)
  simp only [] at this ⊢
  rw [this]
  rfl

/-- C8: encoding zero readings writes nothing. For every writer and every sequence
of timepoints without sensors (the empty sequence included), `writeData` returns no
error and leaves the writer as it was; observed, the writer has received no call of
`Write` at all; and the `bytes.Buffer` of `handleRequest` stays empty. -/
theorem C8_zero_readings {σ : Type} (out : io.Writer σ) (output : σ) (data : List timepoint)
    (h : ∀ d ∈ data, d.Sensors = []) :
    writeData out data output = (output, none)
    ∧ writeData out.observed data (output, []) = ((output, []), none)
    ∧ writeData bytes.Buffer data "" = ("", none)
    ∧ writeData out [] output = (output, none) :=
  ⟨writeData_no_sensors out output data h, writeData_no_sensors _ _ data h,
    writeData_no_sensors _ _ data h, rfl⟩

/-- C8 at two timepoints without sensors, on a writer that rejects every write. -/
theorem C8_zero_readings_witness :
    (∀ d ∈ [(⟨⟨utcSeconds 2023 6 1 14 30 0, 0, UTC⟩, []⟩ : timepoint),
        ⟨⟨utcSeconds 2023 6 1 14 31 0, 0, UTC⟩, []⟩], d.Sensors = [])
    ∧ writeData (⟨fun st _ => (st + 1, 0, some "closed")⟩ : io.Writer Nat)
        [⟨⟨utcSeconds 2023 6 1 14 30 0, 0, UTC⟩, []⟩, ⟨⟨utcSeconds 2023 6 1 14 31 0, 0, UTC⟩, []⟩] 0
        = (0, none) :=
  ⟨by decide,
    (C8_zero_readings (⟨fun st _ => (st + 1, 0, some "closed")⟩ : io.Writer Nat) 0
      [⟨⟨utcSeconds 2023 6 1 14 30 0, 0, UTC⟩, []⟩, ⟨⟨utcSeconds 2023 6 1 14 31 0, 0, UTC⟩, []⟩]
      (by decide)).1⟩

/-! ## An empty window -/

/-- C10: when the fetch succeeds with zero timepoints, `handleRequest` goes through
all three steps: it encodes nothing and calls `uploadData` with an empty body, the
object key being `"airdata/"`, `to` in RFC 3339, `".csv"`; and when the upload
answers with a location, it returns `"Saved data for {from} - {to} to {location}"`
(the times printed as `%s` prints them) and no error. -/
theorem C10_empty_window (world : World) (event : Event)
    (h : fetchResult world event = ([], none)) :
    (handleRequest world event).calls
      = [.getData (windowFrom event) (windowTo event), .writeData [],
          .uploadData ((windowTo event).Format RFC3339) ""]
    ∧ uploadInput world ((windowTo event).Format RFC3339) ""
      = { Bucket := world.Getenv "BUCKET",
          Key := "airdata/" ++ (windowTo event).Format RFC3339 ++ ".csv", Body := "" }
    ∧ (∀ location,
        world.Upload (uploadInput world ((windowTo event).Format RFC3339) "") = .ok location →
        (handleRequest world event).result
          = "Saved data for " ++ (windowFrom event).String ++ " - " ++ (windowTo event).String
            ++ " to " ++ location
        ∧ (handleRequest world event).err = none) := by
  have h1 : (fetchResult world event).2 = none := by rw [h]
  have hd : (fetchResult world event).1 = [] := by rw [h]
  have h2 : encodeResult bytes.Buffer "" world event = ("", none) := by
    unfold encodeResult
    rw [hd]
    rfl
  have hp : publishResult bytes.Buffer "" id world event
      = uploadData world ((windowTo event).Format RFC3339) "" := by
    unfold publishResult
    rw [h2]
    rfl
  refine ⟨?_, rfl, ?_⟩
  · cases h3 : (publishResult bytes.Buffer "" id world event).2 with
    | some e3 =>
      show (handleRequestOn bytes.Buffer "" id world event).calls = _
      rw [handleRequestOn_publish_failed bytes.Buffer "" id world event e3 h1 (by rw [h2]) h3]
      simp only [fetchCall, encodeCall, publishCall, hd, h2, filenameOf, id]
    | none =>
      show (handleRequestOn bytes.Buffer "" id world event).calls = _
      rw [handleRequestOn_succeeded bytes.Buffer "" id world event h1 (by rw [h2]) h3]
      simp only [fetchCall, encodeCall, publishCall, hd, h2, filenameOf, id]
  · intro location hl
    have hu : uploadData world ((windowTo event).Format RFC3339) "" = (location, none) := by
      unfold uploadData
      rw [hl]
    have h3 : (publishResult bytes.Buffer "" id world event).2 = none := by rw [hp, hu]
    show (handleRequestOn bytes.Buffer "" id world event).result = _
      ∧ (handleRequestOn bytes.Buffer "" id world event).err = none
    rw [handleRequestOn_succeeded bytes.Buffer "" id world event h1 (by rw [h2]) h3]
    simp only [hp, hu, and_self]

/-- C10 at the trigger time 2023-06-01T15:23:00Z, with an API that answers with no
timepoints and a store that answers with the location `s3://` followed by the key. -/
theorem C10_empty_window_witness :
    fetchResult (sampleWorld 200 [] (fun u => .ok ("s3://" ++ u.Key))) sampleEvent = ([], none)
    ∧ (handleRequest (sampleWorld 200 [] (fun u => .ok ("s3://" ++ u.Key))) sampleEvent).calls
      = [.getData (windowFrom sampleEvent) (windowTo sampleEvent), .writeData [],
          .uploadData ((windowTo sampleEvent).Format RFC3339) ""]
    ∧ handleRequest (sampleWorld 200 [] (fun u => .ok ("s3://" ++ u.Key))) sampleEvent
      = { result := "Saved data for 2023-06-01 14:00:00 +0000 UTC - 2023-06-01 15:00:00 +0000 UTC"
            ++ " to s3://airdata/2023-06-01T15:00:00Z.csv",
          err := none,
          calls := [.getData (windowFrom sampleEvent) (windowTo sampleEvent), .writeData [],
            .uploadData "2023-06-01T15:00:00Z" ""] } :=
  ⟨by decide,
    (C10_empty_window (sampleWorld 200 [] (fun u => .ok ("s3://" ++ u.Key))) sampleEvent
      (by decide)).1,
    by decide⟩

/-! ## What the CSV writer writes -/

theorem WriteString_tracks {σ : Type} (out : io.Writer σ) (R : bufio.Writer σ → List Char → Prop)
    (hR : Tracks out R) (b : bufio.Writer σ) (s : String) :
    ∀ t, R b t → R (bufio.Writer.WriteString out b s) (t ++ s.data) := by
  induction b, s using bufio.Writer.WriteString.induct out with
  | case1 b s hc ih =>
    intro t ht
    rw [bufio.Writer.WriteString, if_pos hc]
    have h1 := hR.buffered b t ⟨s.data.take b.Available⟩ ht hc.2
    have h2 := hR.flushed _ _ h1
    have h3 := ih _ h2
    simp only [List.append_assoc, List.take_append_drop] at h3
    exact h3
  | case2 b s hc he =>
    intro t ht
    rw [bufio.Writer.WriteString, if_neg hc, if_pos he]
    exact hR.failed b t _ ht he
  | case3 b s hc he =>
    intro t ht
    rw [bufio.Writer.WriteString, if_neg hc, if_neg he]
    exact hR.buffered b t s ht (by simpa using he)

theorem push_eq_append (s : String) (c : Char) : s.push c = s ++ ⟨[c]⟩ := by
  apply String.ext
  simp

theorem WriteByte_tracks {σ : Type} (out : io.Writer σ) (R : bufio.Writer σ → List Char → Prop)
    (hR : Tracks out R) (b : bufio.Writer σ) (c : Char) (t : List Char) (ht : R b t) :
    R (bufio.Writer.WriteByte out b c) (t ++ [c]) := by
  unfold bufio.Writer.WriteByte
  by_cases he : b.err ≠ none
  · rw [if_pos he]
    exact hR.failed b t _ ht he
  · rw [if_neg he]
    have hf := hR.flushed b t ht
    by_cases h1 : b.Available ≤ 0 ∧ (bufio.Writer.Flush out b).err ≠ none
    · rw [if_pos h1]
      exact hR.failed _ t _ hf h1.2
    · rw [if_neg h1]
      by_cases h2 : b.Available ≤ 0
      · rw [if_pos h2]
        have h3 : (bufio.Writer.Flush out b).err = none := by
          by_contra h4
          exact h1 ⟨h2, h4⟩
        have := hR.buffered _ t ⟨[c]⟩ hf h3
        rw [push_eq_append]
        exact this
      · rw [if_neg h2]
        have := hR.buffered b t ⟨[c]⟩ ht (by simpa using he)
        rw [push_eq_append]
        exact this

theorem writeSpecial_tracks {σ : Type} (out : io.Writer σ) (R : bufio.Writer σ → List Char → Prop)
    (hR : Tracks out R) (b : bufio.Writer σ) (x : Char) (t : List Char) (ht : R b t) :
    R (writeSpecial out b x) (t ++ specialText x) := by
  unfold writeSpecial specialText
  by_cases h1 : x = '"'
  · rw [if_pos h1, if_pos h1]
    exact WriteString_tracks out R hR b "\"\"" t ht
  · rw [if_neg h1, if_neg h1]
    by_cases h2 : x = '\r'
    · rw [if_pos h2, if_pos h2]
      exact WriteByte_tracks out R hR b '\r' t ht
    · rw [if_neg h2, if_neg h2]
      by_cases h3 : x = '\n'
      · rw [if_pos h3, if_pos h3]
        exact WriteByte_tracks out R hR b '\n' t ht
      · rw [if_neg h3, if_neg h3, List.append_nil]
        exact ht

theorem escapeQuotes_takeWhile (l : List Char) :
    escapeQuotes l = l.takeWhile (fun x => !isSpecial x)
      ++ escapeQuotes (l.dropWhile (fun x => !isSpecial x)) := by
  induction l with
  | nil => rfl
  | cons c cs ih =>
    by_cases hc : isSpecial c = true
    · simp [List.takeWhile, List.dropWhile, hc]
    · have hq : c ≠ '"' := by
        intro h
        apply hc
        rw [h]
        rfl
      simp only [Bool.not_eq_true] at hc
      simp only [List.takeWhile, List.dropWhile, hc, Bool.not_false, escapeQuotes, if_neg hq,
        List.cons_append]
      rw [← ih]

theorem escapeQuotes_special (x : Char) (rest : List Char) (hx : isSpecial x = true) :
    escapeQuotes (x :: rest) = specialText x ++ escapeQuotes rest := by
  unfold isSpecial at hx
  simp only [Bool.or_eq_true, decide_eq_true_eq] at hx
  unfold specialText
  rcases hx with (h | h) | h
  · subst h
    simp [escapeQuotes]
  · subst h
    have : ('\r' : Char) ≠ '"' := by decide
    simp [escapeQuotes]
  · subst h
    have : ('\n' : Char) ≠ '"' := by decide
    simp [escapeQuotes]

theorem dropWhile_head_special (l : List Char) (x : Char) (rest : List Char)
    (h : l.dropWhile (fun x => !isSpecial x) = x :: rest) : isSpecial x = true := by
  induction l with
  | nil => simp at h
  | cons c cs ih =>
    by_cases hc : isSpecial c = true
    · simp only [List.dropWhile, hc, Bool.not_true] at h
      have := (List.cons.inj h).1
      rw [← this]
      exact hc
    · simp only [Bool.not_eq_true] at hc
      simp only [List.dropWhile, hc, Bool.not_false] at h
      exact ih h

theorem writeQuoted_tracks {σ : Type} (out : io.Writer σ) (R : bufio.Writer σ → List Char → Prop)
    (hR : Tracks out R) (b : bufio.Writer σ) (field : List Char) :
    ∀ t, R b t → R (writeQuoted out b field) (t ++ escapeQuotes field) := by
  induction b, field using writeQuoted.induct out with
  | case1 b field hpos he =>
    intro t ht
    rw [writeQuoted, if_pos hpos, if_pos he]
    have h1 := WriteString_tracks out R hR b ⟨field.takeWhile (fun x => !isSpecial x)⟩ t ht
    exact hR.failed _ _ _ h1 he
  | case2 b field hpos he hd =>
    intro t ht
    rw [writeQuoted, if_pos hpos, if_neg he]
    have h1 := WriteString_tracks out R hR b ⟨field.takeWhile (fun x => !isSpecial x)⟩ t ht
    have e := escapeQuotes_takeWhile field
    rw [hd] at e
    simp only [escapeQuotes, List.append_nil] at e
    rw [e]
    split
    · exact h1
    · rename_i x rest hx
      rw [hd] at hx
      exact absurd hx (by simp)
  | case3 b field hpos he x rest hd he2 =>
    intro t ht
    rw [writeQuoted, if_pos hpos, if_neg he]
    have h1 := WriteString_tracks out R hR b ⟨field.takeWhile (fun x => !isSpecial x)⟩ t ht
    split
    · rename_i hx
      rw [hd] at hx
      exact absurd hx (by simp)
    · rename_i x' rest' hx
      rw [hd] at hx
      obtain ⟨hx1, hx2⟩ := List.cons.inj hx
      subst hx1
      subst hx2
      rw [if_pos he2]
      have h2 := writeSpecial_tracks out R hR _ x _ h1
      exact hR.failed _ _ _ h2 he2
  | case4 b field hpos he x rest hd he2 ih =>
    intro t ht
    rw [writeQuoted, if_pos hpos, if_neg he]
    have h1 := WriteString_tracks out R hR b ⟨field.takeWhile (fun x => !isSpecial x)⟩ t ht
    split
    · rename_i hx
      rw [hd] at hx
      exact absurd hx (by simp)
    · rename_i x' rest' hx
      rw [hd] at hx
      obtain ⟨hx1, hx2⟩ := List.cons.inj hx
      subst hx1
      subst hx2
      rw [if_neg he2]
      have h2 := writeSpecial_tracks out R hR _ x _ h1
      have h3 := ih _ h2
      have e := escapeQuotes_takeWhile field
      rw [hd, escapeQuotes_special x rest (dropWhile_head_special field x rest hd)] at e
      rw [e]
      simp only [List.append_assoc] at h3 ⊢
      exact h3
  | case5 b field hpos =>
    intro t ht
    rw [writeQuoted, if_neg hpos]
    have : field = [] := by
      cases field with
      | nil => rfl
      | cons c cs => simp at hpos
    rw [this]
    simpa [escapeQuotes] using ht

theorem writeField_tracks {σ : Type} (out : io.Writer σ) (R : bufio.Writer σ → List Char → Prop)
    (hR : Tracks out R) (b : bufio.Writer σ) (field : String) (t : List Char) (ht : R b t) :
    R (writeField out b field) (t ++ (fieldText field).data) := by
  unfold writeField fieldText
  by_cases hq : fieldNeedsQuotes field = true
  · simp only [hq, Bool.not_true, Bool.false_eq_true, if_false, if_true]
    have h1 := WriteByte_tracks out R hR b '"' t ht
    by_cases he : (bufio.Writer.WriteByte out b '"').err ≠ none
    · rw [if_pos he]
      exact hR.failed _ _ _ h1 he
    · rw [if_neg he]
      have h2 := writeQuoted_tracks out R hR _ field.data _ h1
      by_cases he2 : (writeQuoted out (bufio.Writer.WriteByte out b '"') field.data).err ≠ none
      · rw [if_pos he2]
        exact hR.failed _ _ _ h2 he2
      · rw [if_neg he2]
        have h3 := WriteByte_tracks out R hR _ '"' _ h2
        simp only [List.append_assoc, List.singleton_append, List.cons_append, List.nil_append] at h3 ⊢
        exact h3
  · simp only [Bool.not_eq_true] at hq
    simp only [hq, Bool.not_false, if_true, Bool.false_eq_true, if_false]
    exact WriteString_tracks out R hR b field t ht

theorem writeFields_tracks {σ : Type} (out : io.Writer σ) (R : bufio.Writer σ → List Char → Prop)
    (hR : Tracks out R) (fields : List String) :
    ∀ (b : bufio.Writer σ) (n : Nat) (t : List Char), R b t →
      R (writeFields out b n fields) (t ++ (fieldsText n fields).data) := by
  induction fields with
  | nil =>
    intro b n t ht
    simpa [writeFields, fieldsText] using ht
  | cons field rest ih =>
    intro b n t ht
    have h1 : R (if n > 0 then bufio.Writer.WriteRune out b ',' else b)
        (t ++ (if n > 0 then "," else "" : String).data) := by
      by_cases hn : n > 0
      · rw [if_pos hn, if_pos hn]
        exact WriteByte_tracks out R hR b ',' t ht
      · rw [if_neg hn, if_neg hn]
        simpa using ht
    unfold writeFields fieldsText
    simp only [String.data_append]
    by_cases he : (if n > 0 then bufio.Writer.WriteRune out b ',' else b).err ≠ none
    · rw [if_pos he]
      exact hR.failed _ _ _ h1 he
    · rw [if_neg he]
      have h2 := writeField_tracks out R hR _ field _ h1
      by_cases he2 : (writeField out (if n > 0 then bufio.Writer.WriteRune out b ',' else b)
          field).err ≠ none
      · rw [if_pos he2]
        exact hR.failed _ _ _ h2 he2
      · rw [if_neg he2]
        have h3 := ih _ (n + 1) _ h2
        simp only [List.append_assoc] at h3 ⊢
        exact h3

theorem Write_tracks {σ : Type} (out : io.Writer σ) (R : bufio.Writer σ → List Char → Prop)
    (hR : Tracks out R) (w : bufio.Writer σ) (rec : List String) (t : List Char) (ht : R w t) :
    R (csv.Writer.Write out w rec) (t ++ (recordText rec).data) := by
  unfold csv.Writer.Write recordText
  have h1 := writeFields_tracks out R hR rec w 0 t ht
  by_cases he : (writeFields out w 0 rec).err ≠ none
  · simp only [if_pos he]
    exact hR.failed _ _ _ h1 he
  · simp only [if_neg he]
    have h2 := WriteByte_tracks out R hR _ '\n' _ h1
    simp only [String.data_append, List.append_assoc] at h2 ⊢
    exact h2

theorem csvText_nil : csvText [] = "" := rfl

theorem join_data (l : List String) : (String.join l).data = (l.map String.data).flatten := by
  exact String.data_join l

theorem writeRecords_tracks {σ : Type} (out : io.Writer σ) (R : bufio.Writer σ → List Char → Prop)
    (hR : Tracks out R) (recs : List (List String)) :
    ∀ (w : bufio.Writer σ) (t : List Char), R w t →
      R (recs.foldl (fun w r => csv.Writer.Write out w r) w)
        (t ++ (String.join (recs.map recordText)).data) := by
  induction recs with
  | nil =>
    intro w t ht
    simpa [String.join] using ht
  | cons r rs ih =>
    intro w t ht
    have h1 := Write_tracks out R hR w r t ht
    have h2 := ih _ _ h1
    simp only [List.foldl_cons, List.map_cons, join_data, List.flatten_cons,
      List.append_assoc] at h2 ⊢
    exact h2

theorem writeData_loop_eq {σ : Type} (out : io.Writer σ) (data : List timepoint) :
    ∀ w : bufio.Writer σ,
      data.foldl (fun w d =>
        d.Sensors.foldl (fun w s => csv.Writer.Write out w
          (record (d.Timestamp.Format ATHENA_TIMESTAMP_FORMAT) s)) w) w
      = (records data).foldl (fun w r => csv.Writer.Write out w r) w := by
  induction data with
  | nil => intro w; rfl
  | cons d ds ih =>
    intro w
    simp only [List.foldl_cons, records, List.flatMap_cons, List.foldl_append, List.foldl_map]
    exact ih _

theorem writeData_tracks {σ : Type} (out : io.Writer σ) (R : bufio.Writer σ → List Char → Prop)
    (hR : Tracks out R) (data : List timepoint) (output : σ) (h0 : R (bufio.NewWriter output) []) :
    ∃ w : bufio.Writer σ, R w (csvText data).data ∧ writeData out data output = (w.wr, w.err)
      ∧ (w.err = none → w.buf = "") := by
  refine ⟨bufio.Writer.Flush out ((records data).foldl (fun w r => csv.Writer.Write out w r)
    (bufio.NewWriter output)), ?_, ?_, ?_⟩
  · have h1 := writeRecords_tracks out R hR (records data) _ _ h0
    simp only [List.nil_append] at h1
    exact hR.flushed _ _ h1
  · unfold writeData
    simp only []
    rw [writeData_loop_eq]
  · generalize (records data).foldl (fun w r => csv.Writer.Write out w r)
      (bufio.NewWriter output) = b
    unfold bufio.Writer.Flush
    by_cases he : b.err ≠ none
    · rw [if_pos he]
      intro h
      exact absurd h he
    · rw [if_neg he]
      by_cases hl : b.buf.length = 0
      · rw [if_pos hl]
        intro _
        apply String.ext
        exact List.eq_nil_of_length_eq_zero hl
      · rw [if_neg hl]
        by_cases hc1 : (out.Write b.wr b.buf).2.1 < b.buf.length ∧ (out.Write b.wr b.buf).2.2 = none
        · rw [if_pos hc1]
          intro h
          exact Option.noConfusion h
        · rw [if_neg hc1]
          by_cases hc2 : (out.Write b.wr b.buf).2.2 ≠ none
          · rw [if_pos hc2]
            intro h
            exact absurd h hc2
          · rw [if_neg hc2]
            intro _
            rfl

/-! ## Writers that accept every write, and writers that do not -/

theorem Flush_idle {σ : Type} (out : io.Writer σ) (b : bufio.Writer σ)
    (h : b.err ≠ none ∨ b.buf.length = 0) : bufio.Writer.Flush out b = b := by
  unfold bufio.Writer.Flush
  by_cases he : b.err ≠ none
  · rw [if_pos he]
  · rw [if_neg he]
    rcases h with h | h
    · exact absurd h he
    · rw [if_pos h]

theorem Flush_accepted {σ : Type} (out : io.Writer σ) (b : bufio.Writer σ) (he : b.err = none)
    (hl : b.buf.length ≠ 0) (h1 : (out.Write b.wr b.buf).2.2 = none)
    (h2 : b.buf.length ≤ (out.Write b.wr b.buf).2.1) :
    bufio.Writer.Flush out b = { err := none, buf := "", wr := (out.Write b.wr b.buf).1 } := by
  unfold bufio.Writer.Flush
  have he1 : ¬ (b.err ≠ none) := fun h => h he
  have hc : ¬ ((out.Write b.wr b.buf).2.1 < b.buf.length ∧ (out.Write b.wr b.buf).2.2 = none) := by
    intro h
    exact Nat.lt_irrefl _ (Nat.lt_of_lt_of_le h.1 h2)
  have hc2 : ¬ ((out.Write b.wr b.buf).2.2 ≠ none) := fun h => h h1
  rw [if_neg he1, if_neg hl, if_neg hc, if_neg hc2]

theorem Flush_rejected {σ : Type} (out : io.Writer σ) (b : bufio.Writer σ) (he : b.err = none)
    (hl : b.buf.length ≠ 0)
    (h : ¬ ((out.Write b.wr b.buf).2.2 = none ∧ b.buf.length ≤ (out.Write b.wr b.buf).2.1)) :
    (bufio.Writer.Flush out b).err ≠ none
      ∧ (bufio.Writer.Flush out b).wr = (out.Write b.wr b.buf).1 := by
  unfold bufio.Writer.Flush
  have he1 : ¬ (b.err ≠ none) := fun h => h he
  rw [if_neg he1, if_neg hl]
  by_cases hc1 : (out.Write b.wr b.buf).2.1 < b.buf.length ∧ (out.Write b.wr b.buf).2.2 = none
  · rw [if_pos hc1]
    exact ⟨fun h => Option.noConfusion h, rfl⟩
  · rw [if_neg hc1]
    have hc2 : (out.Write b.wr b.buf).2.2 ≠ none := by
      intro hr
      apply h
      refine ⟨hr, ?_⟩
      by_contra hn
      exact hc1 ⟨by omega, hr⟩
    rw [if_pos hc2]
    exact ⟨hc2, rfl⟩

theorem tracks_bytes_Buffer (init : String) :
    Tracks bytes.Buffer
      (fun b t => b.err = none ∧ b.wr.data ++ b.buf.data = init.data ++ t) where
  buffered := by
    intro b t s h _
    refine ⟨h.1, ?_⟩
    show b.wr.data ++ (b.buf ++ s).data = init.data ++ (t ++ s.data)
    rw [String.data_append, ← List.append_assoc, h.2, List.append_assoc]
  flushed := by
    intro b t h
    by_cases hl : b.buf.length = 0
    · rw [Flush_idle bytes.Buffer b (Or.inr hl)]
      exact h
    · rw [Flush_accepted bytes.Buffer b h.1 hl rfl (Nat.le_refl _)]
      refine ⟨rfl, ?_⟩
      show (b.wr ++ b.buf).data ++ ("" : String).data = init.data ++ t
      rw [String.data_append]
      simpa using h.2
  failed := by
    intro b t t' h he
    exact absurd h.1 he

theorem writeData_bytes_Buffer (data : List timepoint) (init : String) :
    writeData bytes.Buffer data init = (init ++ csvText data, none) := by
  obtain ⟨w, hw, he, hb⟩ := writeData_tracks bytes.Buffer _ (tracks_bytes_Buffer init) data init
    ⟨rfl, by simp [bufio.NewWriter]⟩
  rw [he, hw.1]
  have h2 := hw.2
  rw [hb hw.1] at h2
  have : w.wr = init ++ csvText data := by
    apply String.ext
    rw [String.data_append]
    simpa using h2
  rw [this]

theorem tracks_acceptsAll {σ : Type} (out : io.Writer σ) (hacc : out.acceptsAll) :
    Tracks out (fun b _ => b.err = none) where
  buffered := by
    intro b t s h _
    exact h
  flushed := by
    intro b t h
    by_cases hl : b.buf.length = 0
    · rw [Flush_idle out b (Or.inr hl)]
      exact h
    · rw [Flush_accepted out b h hl (hacc b.wr b.buf).1 (hacc b.wr b.buf).2]
  failed := by
    intro b t t' h _
    exact h

theorem tracks_observed {σ : Type} (out : io.Writer σ) :
    Tracks out.observed (fun b _ => (b.err = none ↔ ∀ c ∈ b.wr.2, c.accepted)) where
  buffered := by
    intro b t s h _
    exact h
  flushed := by
    intro b t h
    by_cases hi : b.err ≠ none ∨ b.buf.length = 0
    · rw [Flush_idle _ b hi]
      exact h
    · have he : b.err = none := by
        by_contra h1
        exact hi (Or.inl h1)
      have hl : b.buf.length ≠ 0 := fun h1 => hi (Or.inr h1)
      have hall : ∀ c ∈ b.wr.2, c.accepted := h.mp he
      have hw : out.observed.Write b.wr b.buf
          = (((out.Write b.wr.1 b.buf).1,
              ⟨b.buf, (out.Write b.wr.1 b.buf).2.1, (out.Write b.wr.1 b.buf).2.2⟩ :: b.wr.2),
            (out.Write b.wr.1 b.buf).2.1, (out.Write b.wr.1 b.buf).2.2) := rfl
      by_cases hacc : (out.observed.Write b.wr b.buf).2.2 = none
          ∧ b.buf.length ≤ (out.observed.Write b.wr b.buf).2.1
      · rw [Flush_accepted _ b he hl hacc.1 hacc.2]
        rw [hw] at hacc ⊢
        simp only [true_iff]
        intro c hcmem
        rcases List.mem_cons.mp hcmem with h2 | h2
        · rw [h2]
          exact hacc
        · exact hall c h2
      · have hrej := Flush_rejected _ b he hl hacc
        rw [hw] at hacc hrej
        constructor
        · intro h1
          exact absurd h1 hrej.1
        · intro h1
          rw [hrej.2] at h1
          exact absurd (h1 _ (List.mem_cons_self _ _)) hacc
  failed := by
    intro b t t' h _
    exact h

theorem writeData_acceptsAll {σ : Type} (out : io.Writer σ) (hacc : out.acceptsAll)
    (data : List timepoint) (output : σ) : (writeData out data output).2 = none := by
  obtain ⟨w, hw, he, _⟩ := writeData_tracks out _ (tracks_acceptsAll out hacc) data output rfl
  rw [he]
  exact hw

theorem writeData_observed {σ : Type} (out : io.Writer σ) (data : List timepoint) (output : σ) :
    (writeData out.observed data (output, [])).2 = none
      ↔ ∀ c ∈ (writeData out.observed data (output, [])).1.2, c.accepted := by
  obtain ⟨w, hw, he, _⟩ := writeData_tracks out.observed _ (tracks_observed out) data (output, [])
    (by simp [bufio.NewWriter])
  rw [he]
  exact hw

theorem bytes_Buffer_acceptsAll : bytes.Buffer.acceptsAll := by
  intro st p
  exact ⟨rfl, Nat.le_refl _⟩

theorem tracks_rejectsAll {σ : Type} (out : io.Writer σ) (hrej : out.rejectsAll) :
    Tracks out (fun b t => b.err = none → b.buf = "" → t = []) where
  buffered := by
    intro b t s h he _ hb
    have hd := congrArg String.data hb
    simp only [String.data_append, List.append_eq_nil] at hd
    have ht := h he (String.ext hd.1)
    rw [ht, hd.2]
    rfl
  flushed := by
    intro b t h
    by_cases hi : b.err ≠ none ∨ b.buf.length = 0
    · rw [Flush_idle _ b hi]
      exact h
    · have he : b.err = none := by
        by_contra h1
        exact hi (Or.inl h1)
      have hl : b.buf.length ≠ 0 := fun h1 => hi (Or.inr h1)
      intro h1
      exact absurd h1 (Flush_rejected out b he hl (hrej b.wr b.buf)).1
  failed := by
    intro b t t' _ he h1
    exact absurd h1 he

theorem csvText_ne_nil (data : List timepoint) (h : ∃ d ∈ data, d.Sensors ≠ []) :
    (csvText data).data ≠ [] := by
  obtain ⟨d, hd, hs⟩ := h
  cases hS : d.Sensors with
  | nil => exact absurd hS hs
  | cons s ss =>
    have hmem : record (d.Timestamp.Format ATHENA_TIMESTAMP_FORMAT) s ∈ records data := by
      unfold records
      rw [List.mem_flatMap]
      exact ⟨d, hd, by rw [hS]; exact List.mem_map.mpr ⟨s, List.mem_cons_self _ _, rfl⟩⟩
    intro hnil
    unfold csvText at hnil
    rw [join_data, List.flatten_eq_nil_iff] at hnil
    have := hnil (recordText (record (d.Timestamp.Format ATHENA_TIMESTAMP_FORMAT) s)).data
      (List.mem_map.mpr ⟨_, List.mem_map.mpr ⟨_, hmem, rfl⟩, rfl⟩)
    unfold recordText at this
    rw [String.data_append] at this
    simp at this

theorem writeData_rejectsAll {σ : Type} (out : io.Writer σ) (hrej : out.rejectsAll)
    (data : List timepoint) (output : σ) (h : ∃ d ∈ data, d.Sensors ≠ []) :
    (writeData out data output).2 ≠ none := by
  obtain ⟨w, hw, he, hb⟩ := writeData_tracks out _ (tracks_rejectsAll out hrej) data output
    (fun _ _ => rfl)
  rw [he]
  intro hn
  exact csvText_ne_nil data h (hw hn (hb hn))

/-- C9: `writeData` fails only on a write fault of its output. For every sequence of
timepoints, whatever it holds: on a writer that accepts every write (as `bytes.Buffer`
does) `writeData` returns no error; with the writer observed, `writeData` returns an
error exactly when one of the calls of `Write` it made was rejected; on a writer
that rejects every write it returns an error as soon as there is a reading to write;
and in `handleRequest`, whose writer is a `bytes.Buffer`, the encode step never
fails, so the run never ends in the branch that returns the encode error. -/
theorem C9_only_write_faults {σ : Type} (out : io.Writer σ) (data : List timepoint) (output : σ) :
    (out.acceptsAll → (writeData out data output).2 = none)
    ∧ ((writeData out.observed data (output, [])).2 ≠ none
        ↔ ∃ c ∈ (writeData out.observed data (output, [])).1.2, ¬ c.accepted)
    ∧ (out.rejectsAll → (∃ d ∈ data, d.Sensors ≠ []) → (writeData out data output).2 ≠ none)
    ∧ bytes.Buffer.acceptsAll
    ∧ (∀ init, (writeData bytes.Buffer data init).2 = none)
    ∧ (∀ world event, (encodeResult bytes.Buffer "" world event).2 = none
        ∧ (handleRequest world event).calls ≠ [fetchCall event, encodeCall world event]) := by
  refine ⟨fun h => writeData_acceptsAll out h data output, ?_,
    fun h hd => writeData_rejectsAll out h data output hd, bytes_Buffer_acceptsAll,
    fun init => writeData_acceptsAll _ bytes_Buffer_acceptsAll data init, ?_⟩
  · rw [Ne, writeData_observed out data output]
    constructor
    · intro h
      by_contra hn
      apply h
      intro c hc
      by_contra hc2
      exact hn ⟨c, hc, hc2⟩
    · rintro ⟨c, hc, hc2⟩ h
      exact hc2 (h c hc)
  · intro world event
    have h2 : (encodeResult bytes.Buffer "" world event).2 = none :=
      writeData_acceptsAll _ bytes_Buffer_acceptsAll _ _
    refine ⟨h2, ?_⟩
    show (handleRequestOn bytes.Buffer "" id world event).calls ≠ _
    cases h1 : (fetchResult world event).2 with
    | some e1 =>
      rw [handleRequestOn_fetch_failed bytes.Buffer "" id world event e1 h1]
      simp
    | none =>
      cases h3 : (publishResult bytes.Buffer "" id world event).2 with
      | some e3 =>
        rw [handleRequestOn_publish_failed bytes.Buffer "" id world event e3 h1 h2 h3]
        simp
      | none =>
        rw [handleRequestOn_succeeded bytes.Buffer "" id world event h1 h2 h3]
        simp

/-- C9 on a writer that is closed, which rejects every write: writing the sample
timepoint returns an error; and on the `bytes.Buffer` it returns none. -/
theorem C9_only_write_faults_witness :
    (⟨fun st _ => (st + 1, 0, some "closed")⟩ : io.Writer Nat).rejectsAll
    ∧ (∃ d ∈ [sampleTimepoint], d.Sensors ≠ [])
    ∧ (writeData (⟨fun st _ => (st + 1, 0, some "closed")⟩ : io.Writer Nat)
        [sampleTimepoint] 0).2 ≠ none
    ∧ (writeData bytes.Buffer [sampleTimepoint] "").2 = none :=
  ⟨fun _ _ h => Option.noConfusion h.1, by decide,
    (C9_only_write_faults (⟨fun st _ => (st + 1, 0, some "closed")⟩ : io.Writer Nat)
      [sampleTimepoint] 0).2.2.1 (fun _ _ h => Option.noConfusion h.1) (by decide),
    (C9_only_write_faults bytes.Buffer [sampleTimepoint] "").1
      (fun _ _ => ⟨rfl, Nat.le_refl _⟩)⟩

/-! ## Timestamps and numbers are never quoted -/

theorem plainChar_not_special (c : Char) (h : plainChar c = true) :
    (decide (c = '\n') || decide (c = '\r') || decide (c = '"') || decide (c = ',')) = false := by
  by_contra hn
  simp only [Bool.not_eq_false, Bool.or_eq_true, decide_eq_true_eq] at hn
  rcases hn with ((hn | hn) | hn) | hn <;> (subst hn; revert h; decide)

theorem isDigit_toNat (c : Char) (h : c.isDigit = true) : 48 ≤ c.toNat ∧ c.toNat ≤ 57 := by
  unfold Char.isDigit at h
  simp only [Bool.and_eq_true, decide_eq_true_eq] at h
  have h1 : (48 : UInt32) ≤ c.val := h.1
  have h2 : c.val ≤ (57 : UInt32) := h.2
  rw [UInt32.le_def] at h1 h2
  exact ⟨h1, h2⟩

theorem plainHead_not_space (c : Char) (h : plainHead c = true) : unicode.IsSpace c = false := by
  unfold plainHead at h
  simp only [Bool.or_eq_true, decide_eq_true_eq] at h
  rcases h with ((h | h) | h) | h
  · have := isDigit_toNat c h
    unfold unicode.IsSpace
    simp only []
    have h1 : c.toNat ≤ 0xFF := by omega
    rw [if_pos h1]
    simp only [Bool.or_eq_false_iff, decide_eq_false_iff_not]
    omega
  · subst h; decide
  · subst h; decide
  · subst h; decide

theorem fieldNeedsQuotes_plain (s : String) (h : plainText s) : fieldNeedsQuotes s = false := by
  obtain ⟨⟨c, t, hd, hc⟩, hall⟩ := h
  unfold fieldNeedsQuotes
  have h1 : s ≠ "" := by
    intro h
    rw [h] at hd
    exact List.noConfusion hd
  have h2 : s ≠ "\\." := by
    intro h
    rw [h] at hd
    have := (List.cons.inj hd).1
    rw [← this] at hc
    revert hc
    decide
  have h3 : s.data.any (fun c => decide (c = '\n') || decide (c = '\r') || decide (c = '"')
      || decide (c = ',')) = false := by
    rw [List.any_eq_false]
    intro x hx
    rw [plainChar_not_special x (hall x hx)]
    simp
  rw [if_neg h1, if_neg h2, h3]
  simp only [Bool.false_eq_true, if_false]
  rw [hd]
  exact plainHead_not_space c hc

theorem fieldText_plain (s : String) (h : plainText s) : fieldText s = s := by
  unfold fieldText
  rw [fieldNeedsQuotes_plain s h]
  simp

theorem digitChar_isDigit : ∀ d, d < 10 → (digitChar d).isDigit = true := by
  decide

theorem lowDigits_isDigit (w u : Nat) : ∀ c ∈ lowDigits w u, c.isDigit = true := by
  induction w generalizing u with
  | zero => intro c hc; simp [lowDigits] at hc
  | succ w ih =>
    intro c hc
    simp only [lowDigits, List.mem_append, List.mem_singleton] at hc
    rcases hc with hc | hc
    · exact ih _ c hc
    · rw [hc]
      exact digitChar_isDigit _ (Nat.mod_lt _ (by decide))

theorem lowDigits_length (w u : Nat) : (lowDigits w u).length = w := by
  induction w generalizing u with
  | zero => rfl
  | succ w ih => simp [lowDigits, ih]

theorem numDigits_pos (u : Nat) : 0 < numDigits u := by
  unfold numDigits
  by_cases h : u = 0
  · rw [if_pos h]; decide
  · rw [if_neg h]
    cases u with
    | zero => exact absurd rfl h
    | succ n => simp [numDigitsAux]

theorem isDigit_plainChar (c : Char) (h : c.isDigit = true) : plainChar c = true := by
  unfold plainChar
  simp [h]

theorem isDigit_plainHead (c : Char) (h : c.isDigit = true) : plainHead c = true := by
  unfold plainHead
  simp [h]

theorem plainText_append_left (s t : String) (hs : plainText s)
    (ht : ∀ c ∈ t.data, plainChar c = true) : plainText (s ++ t) := by
  obtain ⟨⟨c, r, hd, hc⟩, hall⟩ := hs
  refine ⟨⟨c, r ++ t.data, ?_, hc⟩, ?_⟩
  · rw [String.data_append, hd]
    rfl
  · intro x hx
    rw [String.data_append, List.mem_append] at hx
    rcases hx with hx | hx
    · exact hall x hx
    · exact ht x hx

theorem appendInt_plain (x : Int) (width : Nat) : plainText (appendInt x width) := by
  have hn := numDigits_pos x.natAbs
  have hdig : ∀ c ∈ List.replicate (width - numDigits x.natAbs) '0'
      ++ lowDigits (numDigits x.natAbs) x.natAbs, c.isDigit = true := by
    intro c hc
    rw [List.mem_append] at hc
    rcases hc with hc | hc
    · rw [(List.mem_replicate.mp hc).2]
      decide
    · exact lowDigits_isDigit _ _ c hc
  have hne : List.replicate (width - numDigits x.natAbs) '0'
      ++ lowDigits (numDigits x.natAbs) x.natAbs ≠ [] := by
    intro h
    have := congrArg List.length h
    rw [List.length_append, lowDigits_length] at this
    simp only [List.length_replicate, List.length_nil] at this
    omega
  unfold appendInt
  simp only []
  by_cases hx : x < 0
  · rw [if_pos hx]
    refine ⟨⟨'-', _, rfl, by decide⟩, ?_⟩
    intro c hc
    rw [String.data_append] at hc
    rcases List.mem_append.mp hc with hc | hc
    · simp only [List.mem_singleton] at hc
      rw [hc]
      decide
    · exact isDigit_plainChar c (hdig c hc)
  · rw [if_neg hx]
    cases hl : List.replicate (width - numDigits x.natAbs) '0'
      ++ lowDigits (numDigits x.natAbs) x.natAbs with
    | nil => exact absurd hl hne
    | cons c r =>
      refine ⟨⟨c, r, by simp, ?_⟩, ?_⟩
      · apply isDigit_plainHead
        apply hdig
        rw [hl]
        exact List.mem_cons_self _ _
      · intro y hy
        apply isDigit_plainChar
        apply hdig
        rw [hl]
        simpa using hy

theorem appendInt_chars (x : Int) (width : Nat) : ∀ c ∈ (appendInt x width).data, plainChar c = true :=
  (appendInt_plain x width).2

theorem formatNano_chars (nanosec n : Nat) :
    ∀ c ∈ (formatNano nanosec n false).data, plainChar c = true := by
  intro c hc
  unfold formatNano at hc
  simp only [Bool.false_eq_true, if_false, List.mem_cons] at hc
  rcases hc with hc | hc
  · rw [hc]; decide
  · exact isDigit_plainChar c (lowDigits_isDigit _ _ c (List.mem_of_mem_take hc))

theorem Format_ATHENA (t : Time) :
    t.Format ATHENA_TIMESTAMP_FORMAT
      = appendInt (absDate t.abs).year 4 ++ "-" ++ appendInt (absDate t.abs).month 2 ++ "-"
        ++ appendInt (absDate t.abs).day 2 ++ " " ++ appendInt (absClock t.abs).hour 2 ++ ":"
        ++ appendInt (absClock t.abs).min 2 ++ ":" ++ appendInt (absClock t.abs).sec 2
        ++ formatNano t.nsec 6 false := by
  simp only [Time.Format, ATHENA_TIMESTAMP_FORMAT, List.foldl, appendChunk, String.empty_append]

theorem lit_chars_dash : ∀ c ∈ ("-" : String).data, plainChar c = true := by decide

theorem lit_chars_space : ∀ c ∈ (" " : String).data, plainChar c = true := by decide

theorem lit_chars_colon : ∀ c ∈ (":" : String).data, plainChar c = true := by decide

theorem Format_ATHENA_plain (t : Time) : plainText (t.Format ATHENA_TIMESTAMP_FORMAT) := by
  rw [Format_ATHENA]
  refine plainText_append_left _ _ ?_ (formatNano_chars _ _)
  refine plainText_append_left _ _ ?_ (appendInt_chars _ _)
  refine plainText_append_left _ _ ?_ lit_chars_colon
  refine plainText_append_left _ _ ?_ (appendInt_chars _ _)
  refine plainText_append_left _ _ ?_ lit_chars_colon
  refine plainText_append_left _ _ ?_ (appendInt_chars _ _)
  refine plainText_append_left _ _ ?_ lit_chars_space
  refine plainText_append_left _ _ ?_ (appendInt_chars _ _)
  refine plainText_append_left _ _ ?_ lit_chars_dash
  refine plainText_append_left _ _ ?_ (appendInt_chars _ _)
  refine plainText_append_left _ _ ?_ lit_chars_dash
  exact appendInt_plain _ _

theorem natDigits_le (n : Nat) : ∀ x ∈ natDigits n, x ≤ 9 := by
  intro x hx
  unfold natDigits at hx
  rw [List.mem_map] at hx
  obtain ⟨c, hc, rfl⟩ := hx
  have := isDigit_toNat c (lowDigits_isDigit _ _ c hc)
  omega

theorem trim_le (a : decimal) (h : ∀ x ∈ a.d, x ≤ 9) : ∀ x ∈ (trim a).d, x ≤ 9 := by
  intro x hx
  unfold trim at hx
  simp only [] at hx
  split at hx
  · simp at hx
  · apply h
    have h1 : x ∈ (a.d.reverse.dropWhile (fun c => c == 0)) := List.mem_reverse.mp hx
    exact List.mem_reverse.mp (List.dropWhile_subset _ h1)

theorem assignShift_le (mant : Nat) (shift : Int) :
    ∀ x ∈ (decimal.assignShift mant shift).d, x ≤ 9 := by
  unfold decimal.assignShift
  split
  · intro x hx; simp at hx
  · split
    · exact trim_le _ (natDigits_le _)
    · exact trim_le _ (natDigits_le _)

theorem RoundDown_le (a : decimal) (nd : Int) (h : ∀ x ∈ a.d, x ≤ 9) :
    ∀ x ∈ (a.RoundDown nd).d, x ≤ 9 := by
  unfold decimal.RoundDown
  split
  · exact h
  · exact trim_le _ (fun x hx => h x (List.mem_of_mem_take hx))

theorem roundUpRev_le (l r : List Nat) (h : ∀ x ∈ l, x ≤ 9) (hr : roundUpRev l = some r) :
    ∀ x ∈ r, x ≤ 9 := by
  induction l with
  | nil => simp [roundUpRev] at hr
  | cons c rest ih =>
    unfold roundUpRev at hr
    split at hr
    · rename_i hc
      simp only [Option.some.injEq] at hr
      rw [← hr]
      intro x hx
      rcases List.mem_cons.mp hx with hx | hx
      · omega
      · exact h x (List.mem_cons_of_mem _ hx)
    · exact ih (fun x hx => h x (List.mem_cons_of_mem _ hx)) hr

theorem RoundUp_le (a : decimal) (nd : Int) (h : ∀ x ∈ a.d, x ≤ 9) :
    ∀ x ∈ (a.RoundUp nd).d, x ≤ 9 := by
  unfold decimal.RoundUp
  split
  · exact h
  · split
    · rename_i r hr
      intro x hx
      have h1 : x ∈ r := List.mem_reverse.mp hx
      refine roundUpRev_le _ r ?_ hr x h1
      intro y hy
      exact h y (List.mem_of_mem_take (List.mem_reverse.mp hy))
    · intro x hx
      simp only [List.mem_singleton] at hx
      omega

theorem Round_le (a : decimal) (nd : Int) (h : ∀ x ∈ a.d, x ≤ 9) :
    ∀ x ∈ (a.Round nd).d, x ≤ 9 := by
  unfold decimal.Round
  split
  · exact h
  · split
    · exact RoundUp_le a nd h
    · exact RoundDown_le a nd h

theorem ite_prop {α : Type} (P : α → Prop) (c : Prop) [Decidable c] (a b : α) (ha : P a)
    (hb : P b) : P (if c then a else b) := by
  split <;> assumption

theorem roundShortestLoop_le (d lower upper : decimal) (inclusive : Bool)
    (h : ∀ x ∈ d.d, x ≤ 9) (fuel : Nat) :
    ∀ ui upperdelta, ∀ x ∈ (roundShortestLoop d lower upper inclusive fuel ui upperdelta).d, x ≤ 9 := by
  induction fuel with
  | zero => intro ui upperdelta; exact h
  | succ fuel ih =>
    intro ui upperdelta
    unfold roundShortestLoop
    simp only []
    refine ite_prop (fun r : decimal => ∀ x ∈ r.d, x ≤ 9) _ _ _ h ?_
    refine ite_prop (fun r : decimal => ∀ x ∈ r.d, x ≤ 9) _ _ _ (Round_le d _ h) ?_
    refine ite_prop (fun r : decimal => ∀ x ∈ r.d, x ≤ 9) _ _ _ (RoundDown_le d _ h) ?_
    exact ite_prop (fun r : decimal => ∀ x ∈ r.d, x ≤ 9) _ _ _ (RoundUp_le d _ h) (ih _ _)

theorem roundShortest_le (d : decimal) (mant : Nat) (exp : Int) (h : ∀ x ∈ d.d, x ≤ 9) :
    ∀ x ∈ (roundShortest d mant exp).d, x ≤ 9 := by
  unfold roundShortest
  simp only []
  refine ite_prop (fun r : decimal => ∀ x ∈ r.d, x ≤ 9) _ _ _ ?_ ?_
  · intro x hx; simp at hx
  · exact ite_prop (fun r : decimal => ∀ x ∈ r.d, x ≤ 9) _ _ _ h
      (roundShortestLoop_le d _ _ _ h _ _ _)

theorem fmtF_plain (neg : Bool) (d : decimal) (prec : Nat) (h : ∀ x ∈ d.d, x ≤ 9) :
    plainText (fmtF neg d prec) := by
  have hint : plainText (if d.dp > 0 then
      String.mk ((d.d.take (min d.d.length d.dp.toNat)).map digitChar
        ++ List.replicate (d.dp.toNat - min d.d.length d.dp.toNat) '0') else "0") := by
    by_cases hdp : d.dp > 0
    · rw [if_pos hdp]
      have hdig : ∀ c ∈ (d.d.take (min d.d.length d.dp.toNat)).map digitChar
          ++ List.replicate (d.dp.toNat - min d.d.length d.dp.toNat) '0', c.isDigit = true := by
        intro c hc
        rcases List.mem_append.mp hc with hc | hc
        · obtain ⟨x, hx, rfl⟩ := List.mem_map.mp hc
          exact digitChar_isDigit x (Nat.lt_succ_of_le (h x (List.mem_of_mem_take hx)))
        · rw [(List.mem_replicate.mp hc).2]
          decide
      cases hl : (d.d.take (min d.d.length d.dp.toNat)).map digitChar
          ++ List.replicate (d.dp.toNat - min d.d.length d.dp.toNat) '0' with
      | nil =>
        have := congrArg List.length hl
        simp only [List.length_append, List.length_map, List.length_take, List.length_replicate,
          List.length_nil] at this
        omega
      | cons c r =>
        refine ⟨⟨c, r, rfl, ?_⟩, ?_⟩
        · apply isDigit_plainHead
          apply hdig
          rw [hl]
          exact List.mem_cons_self _ _
        · intro y hy
          apply isDigit_plainChar
          apply hdig
          rw [hl]
          exact hy
    · rw [if_neg hdp]
      exact ⟨⟨'0', [], rfl, by decide⟩, by decide⟩
  have hfrac : ∀ c ∈ (if prec > 0 then
      String.mk ('.' :: (List.range prec).map (fun (i : Nat) =>
        if 0 ≤ d.dp + (i : Int) ∧ d.dp + (i : Int) < d.nd then
          digitChar (d.d.getD (d.dp + (i : Int)).toNat 0) else '0')) else "").data,
      plainChar c = true := by
    intro c hc
    by_cases hp : prec > 0
    · rw [if_pos hp] at hc
      rcases List.mem_cons.mp hc with hc | hc
      · rw [hc]; decide
      · obtain ⟨i, _, rfl⟩ := List.mem_map.mp hc
        apply isDigit_plainChar
        split
        · apply digitChar_isDigit
          rw [List.getD_eq_getElem?_getD]
          cases hg : d.d[(d.dp + (i : Int)).toNat]? with
          | none => decide
          | some v =>
            have := h v (List.getElem?_mem hg)
            simp only [Option.getD_some]
            omega
        · decide
    · rw [if_neg hp] at hc
      simp at hc
  unfold fmtF
  simp only []
  by_cases hn : neg = true
  · rw [if_pos hn]
    refine plainText_append_left _ _ ?_ hfrac
    refine ⟨⟨'-', _, rfl, by decide⟩, ?_⟩
    intro c hc
    rw [String.data_append] at hc
    rcases List.mem_append.mp hc with hc | hc
    · simp only [List.mem_singleton] at hc
      rw [hc]
      decide
    · exact hint.2 c hc
  · rw [if_neg hn, String.empty_append]
    exact plainText_append_left _ _ hint hfrac

theorem FormatFloat_plain (val : Float64) : plainText (FormatFloat val) := by
  unfold FormatFloat
  simp only []
  split
  · split
    · exact ⟨⟨'N', _, rfl, by decide⟩, by decide⟩
    · split
      · exact ⟨⟨'-', _, rfl, by decide⟩, by decide⟩
      · exact ⟨⟨'+', _, rfl, by decide⟩, by decide⟩
  · exact fmtF_plain _ _ _ (roundShortest_le _ _ _ (assignShift_le _ _))

theorem recordText_record (ts : String) (s : Sensor) (hts : plainText ts) :
    recordText (record ts s) = ts ++ "," ++ fieldText s.Comp ++ "," ++ FormatFloat s.Value ++ "\n" := by
  unfold recordText record
  simp only [fieldsText]
  rw [fieldText_plain ts hts, fieldText_plain _ (FormatFloat_plain s.Value)]
  apply String.ext
  simp

theorem records_length (data : List timepoint) :
    (records data).length = (data.map (fun d => d.Sensors.length)).sum := by
  induction data with
  | nil => rfl
  | cons d ds ih =>
    simp only [records, List.flatMap_cons, List.length_append, List.length_map, List.map_cons,
      List.sum_cons] at ih ⊢
    rw [ih]

/-! ## Reading a row back -/

theorem readQuoted_quote_quote (rest : List Char) :
    readQuoted ('"' :: '"' :: rest) = (readQuoted rest).map (fun p => ('"' :: p.1, p.2)) := by
  rw [readQuoted]

theorem readQuoted_quote_end (d : Char) (rest : List Char) (hd : d ≠ '"') :
    readQuoted ('"' :: d :: rest) = some ([], d :: rest) := by
  rw [readQuoted]
  intro r h
  exact hd (List.cons.inj h).1

theorem readQuoted_other (c : Char) (rest : List Char) (hc : c ≠ '"') :
    readQuoted (c :: rest) = (readQuoted rest).map (fun p => (c :: p.1, p.2)) := by
  rw [readQuoted]
  · intro r h
    exact absurd h hc
  · intro h
    exact hc h

theorem readQuoted_escape (f : List Char) (d : Char) (rest : List Char) (hd : d ≠ '"') :
    readQuoted (escapeQuotes f ++ '"' :: d :: rest) = some (f, d :: rest) := by
  induction f with
  | nil => exact readQuoted_quote_end d rest hd
  | cons c cs ih =>
    by_cases hc : c = '"'
    · subst hc
      simp only [escapeQuotes, if_true, List.cons_append]
      rw [readQuoted_quote_quote, ih]
      rfl
    · simp only [escapeQuotes, if_neg hc, List.cons_append]
      rw [readQuoted_other c _ hc, ih]
      rfl

theorem readBare_append (f : List Char) (d : Char) (rest : List Char)
    (hf : ∀ c ∈ f, c ≠ ',' ∧ c ≠ '\n') (hd : d = ',' ∨ d = '\n') :
    readBare (f ++ d :: rest) = (f, d :: rest) := by
  induction f with
  | nil =>
    show readBare (d :: rest) = ([], d :: rest)
    rw [readBare, if_pos hd]
  | cons c cs ih =>
    have hc := hf c (List.mem_cons_self _ _)
    have hn : ¬ (c = ',' ∨ c = '\n') := by
      intro h
      rcases h with h | h
      · exact hc.1 h
      · exact hc.2 h
    show readBare (c :: (cs ++ d :: rest)) = (c :: cs, d :: rest)
    rw [readBare, if_neg hn, ih (fun x hx => hf x (List.mem_cons_of_mem _ hx))]

theorem readField_bare (s : List Char) (h : ∀ r, s ≠ '"' :: r) : readField s = some (readBare s) := by
  unfold readField
  split
  · rename_i r
    exact absurd rfl (h r)
  · rfl

theorem fieldNeedsQuotes_false (f : String) (h : fieldNeedsQuotes f = false) :
    ∀ c ∈ f.data, c ≠ '\n' ∧ c ≠ '\r' ∧ c ≠ '"' ∧ c ≠ ',' := by
  unfold fieldNeedsQuotes at h
  by_cases h1 : f = ""
  · intro c hc
    rw [h1] at hc
    simp at hc
  · rw [if_neg h1] at h
    by_cases h2 : f = "\\."
    · rw [if_pos h2] at h
      exact absurd h (by decide)
    · rw [if_neg h2] at h
      by_cases h3 : f.data.any (fun c => decide (c = '\n') || decide (c = '\r')
          || decide (c = '"') || decide (c = ',')) = true
      · rw [if_pos h3] at h
        exact absurd h (by decide)
      · simp only [Bool.not_eq_true] at h3
        rw [List.any_eq_false] at h3
        intro c hc
        have := h3 c hc
        simp only [Bool.or_eq_true, decide_eq_true_eq, not_or] at this
        exact ⟨this.1.1.1, this.1.1.2, this.1.2, this.2⟩

theorem readField_fieldText (f : String) (d : Char) (rest : List Char) (hd : d = ',' ∨ d = '\n') :
    readField ((fieldText f).data ++ d :: rest) = some (f.data, d :: rest) := by
  have hdq : d ≠ '"' := by
    rcases hd with h | h <;> (rw [h]; decide)
  unfold fieldText
  by_cases hq : fieldNeedsQuotes f = true
  · rw [if_pos hq]
    show readField ('"' :: ((escapeQuotes f.data ++ ['"']) ++ d :: rest)) = _
    rw [List.append_assoc]
    show readQuoted (escapeQuotes f.data ++ '"' :: d :: rest) = _
    exact readQuoted_escape f.data d rest hdq
  · rw [if_neg hq]
    simp only [Bool.not_eq_true] at hq
    have hf := fieldNeedsQuotes_false f hq
    rw [readField_bare, readBare_append f.data d rest (fun c hc => ⟨(hf c hc).2.2.2, (hf c hc).1⟩) hd]
    intro r hr
    cases hfd : f.data with
    | nil =>
      rw [hfd] at hr
      exact hdq (List.cons.inj hr).1
    | cons c cs =>
      rw [hfd] at hr
      have := (List.cons.inj hr).1
      have h2 := (hf c (by rw [hfd]; exact List.mem_cons_self _ _)).2.2.1
      exact h2 this

theorem readRow_recordText (a b c : String) (rest : List Char) :
    readRow ((recordText [a, b, c]).data ++ rest) = some (a, b, c, rest) := by
  have h0 : (recordText [a, b, c]).data ++ rest
      = (fieldText a).data ++ ',' :: ((fieldText b).data ++ ',' :: ((fieldText c).data
          ++ '\n' :: rest)) := by
    simp [recordText, fieldsText]
  rw [h0]
  unfold readRow
  rw [readField_fieldText a ',' _ (Or.inl rfl)]
  simp only []
  rw [readField_fieldText b ',' _ (Or.inl rfl)]
  simp only []
  rw [readField_fieldText c '\n' _ (Or.inr rfl)]
  rfl

theorem recordText_injective (a b c a' b' c' : String)
    (h : recordText [a, b, c] = recordText [a', b', c']) : a = a' ∧ b = b' ∧ c = c' := by
  have h1 := readRow_recordText a b c []
  rw [h, readRow_recordText a' b' c' []] at h1
  simp only [Option.some.injEq, Prod.mk.injEq, and_true] at h1
  exact ⟨h1.1.symm, h1.2.1.symm, h1.2.2.symm⟩

/-! ## The timestamp text determines the wall clock -/

theorem digitChar_inj : ∀ i, i < 10 → ∀ j, j < 10 → digitChar i = digitChar j → i = j := by
  decide

theorem lowDigits_inj (w : Nat) : ∀ a b, lowDigits w a = lowDigits w b → a % 10 ^ w = b % 10 ^ w := by
  induction w with
  | zero =>
    intro a b _
    simp [Nat.mod_one]
  | succ w ih =>
    intro a b h
    simp only [lowDigits] at h
    have hl : (lowDigits w (a / 10)).length = (lowDigits w (b / 10)).length := by
      rw [lowDigits_length, lowDigits_length]
    obtain ⟨h1, h2⟩ := List.append_inj h hl
    have h3 := ih _ _ h1
    have h4 : a % 10 = b % 10 :=
      digitChar_inj _ (Nat.mod_lt _ (by decide)) _ (Nat.mod_lt _ (by decide)) (List.cons.inj h2).1
    rw [Nat.pow_succ, Nat.mul_comm, Nat.mod_mul, Nat.mod_mul, h3, h4]

theorem lowDigits_pad (k n u : Nat) (h : u < 10 ^ n) :
    lowDigits (k + n) u = List.replicate k '0' ++ lowDigits n u := by
  induction n generalizing u with
  | zero =>
    have hu : u = 0 := by simpa using h
    subst hu
    simp only [Nat.add_zero, lowDigits, List.append_nil]
    clear h
    induction k with
    | zero => rfl
    | succ k ih =>
      simp only [lowDigits, Nat.zero_div, ih, Nat.zero_mod]
      show List.replicate k '0' ++ ['0'] = List.replicate (k + 1) '0'
      rw [List.replicate_succ']
  | succ n ih =>
    have h1 : u / 10 < 10 ^ n := by
      rw [Nat.pow_succ] at h
      omega
    show lowDigits (k + n + 1) u = _
    simp only [lowDigits, ih (u / 10) h1, List.append_assoc]

theorem numDigitsAux_bound (fuel : Nat) : ∀ u, u ≤ fuel → u < 10 ^ numDigitsAux fuel u := by
  induction fuel with
  | zero =>
    intro u hu
    have : u = 0 := by omega
    subst this
    simp [numDigitsAux]
  | succ fuel ih =>
    intro u hu
    unfold numDigitsAux
    by_cases h0 : u = 0
    · rw [if_pos h0, h0]
      simp
    · rw [if_neg h0]
      have := ih (u / 10) (by omega)
      rw [Nat.pow_succ]
      omega

theorem numDigits_bound (u : Nat) : u < 10 ^ numDigits u := by
  unfold numDigits
  by_cases h0 : u = 0
  · rw [if_pos h0, h0]
    simp
  · rw [if_neg h0]
    exact numDigitsAux_bound u u (Nat.le_refl _)

theorem padded_eq (width u : Nat) :
    List.replicate (width - numDigits u) '0' ++ lowDigits (numDigits u) u
      = lowDigits (max width (numDigits u)) u := by
  have h := lowDigits_pad (width - numDigits u) (numDigits u) u (numDigits_bound u)
  rw [← h]
  congr 1
  omega

theorem padded_inj (width u v : Nat)
    (h : List.replicate (width - numDigits u) '0' ++ lowDigits (numDigits u) u
      = List.replicate (width - numDigits v) '0' ++ lowDigits (numDigits v) v) : u = v := by
  rw [padded_eq, padded_eq] at h
  have hl := congrArg List.length h
  rw [lowDigits_length, lowDigits_length] at hl
  rw [hl] at h
  have h2 := lowDigits_inj _ _ _ h
  have hu : u < 10 ^ max width (numDigits v) := by
    rw [← hl]
    exact Nat.lt_of_lt_of_le (numDigits_bound u)
      (Nat.pow_le_pow_right (by decide) (Nat.le_max_right _ _))
  have hv : v < 10 ^ max width (numDigits v) :=
    Nat.lt_of_lt_of_le (numDigits_bound v)
      (Nat.pow_le_pow_right (by decide) (Nat.le_max_right _ _))
  rw [Nat.mod_eq_of_lt hu, Nat.mod_eq_of_lt hv] at h2
  exact h2

theorem padded_head_isDigit (width u : Nat) (c : Char) (r : List Char)
    (h : List.replicate (width - numDigits u) '0' ++ lowDigits (numDigits u) u = c :: r) :
    c.isDigit = true := by
  have hm : c ∈ List.replicate (width - numDigits u) '0' ++ lowDigits (numDigits u) u := by
    rw [h]
    exact List.mem_cons_self _ _
  rcases List.mem_append.mp hm with hc | hc
  · rw [(List.mem_replicate.mp hc).2]
    decide
  · exact lowDigits_isDigit _ _ c hc

theorem padded_ne_nil (width u : Nat) :
    List.replicate (width - numDigits u) '0' ++ lowDigits (numDigits u) u ≠ [] := by
  intro h
  have := congrArg List.length h
  rw [List.length_append, lowDigits_length] at this
  have := numDigits_pos u
  simp only [List.length_replicate, List.length_nil] at *
  omega

theorem appendInt_inj (x y : Int) (width : Nat) (h : appendInt x width = appendInt y width) :
    x = y := by
  unfold appendInt at h
  simp only [] at h
  have hd := congrArg String.data h
  simp only [String.data_append] at hd
  by_cases hx : x < 0
  · by_cases hy : y < 0
    · rw [if_pos hx, if_pos hy] at hd
      have := padded_inj width _ _ (List.cons.inj hd).2
      omega
    · rw [if_pos hx, if_neg hy] at hd
      cases hl : List.replicate (width - numDigits y.natAbs) '0'
          ++ lowDigits (numDigits y.natAbs) y.natAbs with
      | nil => exact absurd hl (padded_ne_nil _ _)
      | cons c r =>
        have hc := padded_head_isDigit _ _ c r hl
        rw [hl] at hd
        have : '-' = c := (List.cons.inj hd).1
        rw [← this] at hc
        exact absurd hc (by decide)
  · by_cases hy : y < 0
    · rw [if_neg hx, if_pos hy] at hd
      cases hl : List.replicate (width - numDigits x.natAbs) '0'
          ++ lowDigits (numDigits x.natAbs) x.natAbs with
      | nil => exact absurd hl (padded_ne_nil _ _)
      | cons c r =>
        have hc := padded_head_isDigit _ _ c r hl
        rw [hl] at hd
        have : c = '-' := (List.cons.inj hd).1
        rw [this] at hc
        exact absurd hc (by decide)
    · rw [if_neg hx, if_neg hy] at hd
      have := padded_inj width _ _ hd
      omega

theorem appendInt_two (x : Nat) (h : x < 100) : (appendInt (x : Int) 2).data = lowDigits 2 x := by
  unfold appendInt
  simp only []
  have hx : ¬ ((x : Int) < 0) := by omega
  rw [if_neg hx]
  have hn : (x : Int).natAbs = x := Int.natAbs_ofNat x
  rw [hn]
  show ("" : String).data ++ (List.replicate (2 - numDigits x) '0' ++ lowDigits (numDigits x) x) = _
  rw [padded_eq]
  have h1 := numDigits_pos x
  have h2 : numDigits x ≤ 2 := by
    unfold numDigits
    by_cases h0 : x = 0
    · rw [if_pos h0]; decide
    · rw [if_neg h0]
      cases x with
      | zero => exact absurd rfl h0
      | succ n =>
        unfold numDigitsAux
        rw [if_neg h0]
        by_cases h3 : (n + 1) / 10 = 0
        · rw [h3]
          cases n with
          | zero => simp [numDigitsAux]
          | succ m => simp [numDigitsAux]
        · cases n with
          | zero => exact absurd rfl h3
          | succ m =>
            unfold numDigitsAux
            rw [if_neg h3]
            have h4 : (m + 1 + 1) / 10 / 10 = 0 := by omega
            rw [h4]
            cases m with
            | zero => simp [numDigitsAux]
            | succ k => simp [numDigitsAux]
  have : max 2 (numDigits x) = 2 := by omega
  rw [this]
  rfl

theorem absYearDay_spec (d : Nat) : ∃ n400 n100 n4 n1 : Nat,
    (absYearDay d).1 = 400 * n400 + 100 * n100 + 4 * n4 + n1
    ∧ d = 146097 * n400 + 36524 * n100 + 1461 * n4 + 365 * n1 + (absYearDay d).2
    ∧ n100 ≤ 3 ∧ n4 ≤ 24 ∧ n1 ≤ 3 ∧ (absYearDay d).2 ≤ 365 := by
  unfold absYearDay daysPer400Years daysPer100Years daysPer4Years
  simp only []
  generalize h400 : d / 146097 = n400
  generalize hd1 : d - 146097 * n400 = d1
  have b1 : d1 < 146097 ∧ d = 146097 * n400 + d1 := by omega
  generalize h100 : d1 / 36524 - d1 / 36524 / 4 = n100
  have b100 : n100 ≤ 3 ∧ 36524 * n100 ≤ d1 := by omega
  generalize hd2 : d1 - 36524 * n100 = d2
  have b2 : d2 < 36525 ∧ d1 = 36524 * n100 + d2 := by omega
  generalize h4 : d2 / 1461 = n4
  generalize hd3 : d2 - 1461 * n4 = d3
  have b3 : d3 < 1461 ∧ d2 = 1461 * n4 + d3 ∧ n4 ≤ 24 := by omega
  generalize h1 : d3 / 365 - d3 / 365 / 4 = n1
  have b4 : n1 ≤ 3 ∧ 365 * n1 ≤ d3 := by omega
  exact ⟨n400, n100, n4, n1, rfl, by omega, b100.1, b3.2.2, b4.1, by omega⟩

theorem absYearDay_inj (a b : Nat) (h : absYearDay a = absYearDay b) : a = b := by
  obtain ⟨a400, a100, a4, a1, ha1, ha2, ha3, ha4, ha5, _⟩ := absYearDay_spec a
  obtain ⟨b400, b100, b4, b1, hb1, hb2, hb3, hb4, hb5, _⟩ := absYearDay_spec b
  rw [h] at ha1 ha2
  omega

theorem absYearDay_yday_lt (d : Nat) : (absYearDay d).2 < 366 := by
  obtain ⟨_, _, _, _, _, _, _, _, _, h⟩ := absYearDay_spec d
  omega

set_option maxRecDepth 100000 in
theorem ydayOf_monthDay : ∀ leap : Bool, ∀ y, y < 366 →
    ydayOf leap (monthDay leap y).1 (monthDay leap y).2 = y := by
  decide

set_option maxRecDepth 100000 in
theorem monthDay_bounds : ∀ leap : Bool, ∀ y, y < 366 →
    (monthDay leap y).1 < 100 ∧ (monthDay leap y).2 < 100 := by
  decide

theorem absDate_bounds (abs : Nat) : (absDate abs).month < 100 ∧ (absDate abs).day < 100 := by
  unfold absDate
  exact monthDay_bounds _ _ (absYearDay_yday_lt _)

theorem absClock_bounds (abs : Nat) :
    (absClock abs).hour < 100 ∧ (absClock abs).min < 100 ∧ (absClock abs).sec < 100 := by
  unfold absClock secondsPerDay secondsPerHour secondsPerMinute
  simp only []
  omega

theorem absDate_days (a b : Nat) (hy : (absDate a).year = (absDate b).year)
    (hm : (absDate a).month = (absDate b).month) (hd : (absDate a).day = (absDate b).day) :
    a / secondsPerDay = b / secondsPerDay := by
  unfold absDate at hy hm hd
  simp only [] at hy hm hd
  have h1 : (absYearDay (a / secondsPerDay)).1 = (absYearDay (b / secondsPerDay)).1 := by
    omega
  rw [h1] at hm hd
  have ha := ydayOf_monthDay (isLeap (((absYearDay (b / secondsPerDay)).1 : Nat) + absoluteZeroYear))
    _ (absYearDay_yday_lt (a / secondsPerDay))
  have hb := ydayOf_monthDay (isLeap (((absYearDay (b / secondsPerDay)).1 : Nat) + absoluteZeroYear))
    _ (absYearDay_yday_lt (b / secondsPerDay))
  rw [hm, hd, hb] at ha
  exact absYearDay_inj _ _ (Prod.ext h1 ha.symm)

theorem absClock_seconds (a b : Nat) (hh : (absClock a).hour = (absClock b).hour)
    (hm : (absClock a).min = (absClock b).min) (hs : (absClock a).sec = (absClock b).sec) :
    a % secondsPerDay = b % secondsPerDay := by
  unfold absClock secondsPerDay secondsPerHour secondsPerMinute at *
  simp only [] at hh hm hs
  omega

theorem wallClock_abs (t1 t2 : Time) (h : t1.wallClock = t2.wallClock) : t1.abs = t2.abs := by
  unfold Time.wallClock at h
  simp only [WallClock.mk.injEq] at h
  obtain ⟨hy, hm, hd, hh, hmi, hs, _⟩ := h
  have h1 := absDate_days _ _ hy hm hd
  have h2 := absClock_seconds _ _ hh hmi hs
  unfold secondsPerDay at h1 h2
  omega

theorem formatNano_six (n : Nat) : (formatNano n 6 false).data = '.' :: lowDigits 6 (n / 1000) := by
  unfold formatNano
  simp only [Bool.false_eq_true, if_false]
  have h6 : min 6 9 = 6 := by decide
  rw [h6]
  have e : lowDigits 9 n = lowDigits 6 (n / 1000)
      ++ [digitChar (n / 10 / 10 % 10), digitChar (n / 10 % 10), digitChar (n % 10)] := by
    have : n / 10 / 10 / 10 = n / 1000 := by omega
    simp only [lowDigits, List.append_assoc, List.singleton_append, this, List.nil_append]
    simp
  rw [e, List.take_left' (lowDigits_length 6 _)]

/-- The part of the timestamp text behind the year. -/
theorem Format_ATHENA_data (t : Time) :
    (t.Format ATHENA_TIMESTAMP_FORMAT).data
      = (appendInt t.wallClock.year 4).data
        ++ ('-' :: (lowDigits 2 t.wallClock.month ++ '-' :: (lowDigits 2 t.wallClock.day
          ++ ' ' :: (lowDigits 2 t.wallClock.hour ++ ':' :: (lowDigits 2 t.wallClock.min
          ++ ':' :: (lowDigits 2 t.wallClock.sec ++ '.' :: lowDigits 6 t.wallClock.micro)))))) := by
  rw [Format_ATHENA]
  have hb := absDate_bounds t.abs
  have hc := absClock_bounds t.abs
  simp only [String.data_append, appendInt_two _ hb.1, appendInt_two _ hb.2, appendInt_two _ hc.1,
    appendInt_two _ hc.2.1, appendInt_two _ hc.2.2, formatNano_six, Time.wallClock]
  simp

theorem Format_ATHENA_wallClock (t1 t2 : Time) (h1 : t1.nsec < 1000000000)
    (h2 : t2.nsec < 1000000000) :
    t1.Format ATHENA_TIMESTAMP_FORMAT = t2.Format ATHENA_TIMESTAMP_FORMAT
      ↔ t1.wallClock = t2.wallClock := by
  constructor
  · intro h
    have hd := congrArg String.data h
    rw [Format_ATHENA_data, Format_ATHENA_data] at hd
    have hl : ('-' :: (lowDigits 2 t1.wallClock.month ++ '-' :: (lowDigits 2 t1.wallClock.day
          ++ ' ' :: (lowDigits 2 t1.wallClock.hour ++ ':' :: (lowDigits 2 t1.wallClock.min
          ++ ':' :: (lowDigits 2 t1.wallClock.sec ++ '.' :: lowDigits 6 t1.wallClock.micro)))))).length
        = ('-' :: (lowDigits 2 t2.wallClock.month ++ '-' :: (lowDigits 2 t2.wallClock.day
          ++ ' ' :: (lowDigits 2 t2.wallClock.hour ++ ':' :: (lowDigits 2 t2.wallClock.min
          ++ ':' :: (lowDigits 2 t2.wallClock.sec ++ '.' :: lowDigits 6 t2.wallClock.micro)))))).length := by
      simp [lowDigits_length]
    obtain ⟨hy, hr⟩ := List.append_inj' hd hl
    have hyear : t1.wallClock.year = t2.wallClock.year := appendInt_inj _ _ 4 (String.ext hy)
    have hr1 := (List.cons.inj hr).2
    obtain ⟨hmo, hr2⟩ := List.append_inj hr1 (by rw [lowDigits_length, lowDigits_length])
    obtain ⟨hda, hr3⟩ := List.append_inj (List.cons.inj hr2).2
      (by rw [lowDigits_length, lowDigits_length])
    obtain ⟨hho, hr4⟩ := List.append_inj (List.cons.inj hr3).2
      (by rw [lowDigits_length, lowDigits_length])
    obtain ⟨hmi, hr5⟩ := List.append_inj (List.cons.inj hr4).2
      (by rw [lowDigits_length, lowDigits_length])
    obtain ⟨hse, hr6⟩ := List.append_inj (List.cons.inj hr5).2
      (by rw [lowDigits_length, lowDigits_length])
    have hmu := (List.cons.inj hr6).2
    have b1 := absDate_bounds t1.abs
    have b2 := absDate_bounds t2.abs
    have c1 := absClock_bounds t1.abs
    have c2 := absClock_bounds t2.abs
    have e1 := lowDigits_inj 2 _ _ hmo
    have e2 := lowDigits_inj 2 _ _ hda
    have e3 := lowDigits_inj 2 _ _ hho
    have e4 := lowDigits_inj 2 _ _ hmi
    have e5 := lowDigits_inj 2 _ _ hse
    have e6 := lowDigits_inj 6 _ _ hmu
    have hyear' : (absDate t1.abs).year = (absDate t2.abs).year := hyear
    unfold Time.wallClock at e1 e2 e3 e4 e5 e6 ⊢
    simp only [] at e1 e2 e3 e4 e5 e6
    simp only [WallClock.mk.injEq]
    have p2 : (10 : Nat) ^ 2 = 100 := by decide
    have p6 : (10 : Nat) ^ 6 = 1000000 := by decide
    rw [p2] at e1 e2 e3 e4 e5
    rw [p6] at e6
    refine ⟨hyear', ?_, ?_, ?_, ?_, ?_, ?_⟩ <;> omega
  · intro h
    apply String.ext
    rw [Format_ATHENA_data, Format_ATHENA_data, h]

theorem abs_same_offset (t1 t2 : Time) (h : t1.abs = t2.abs)
    (ho : t1.loc.offset = t2.loc.offset) (a1 : minInt64 ≤ t1.sec) (a2 : t1.sec ≤ maxInt64)
    (b1 : minInt64 ≤ t2.sec) (b2 : t2.sec ≤ maxInt64) : t1.sec = t2.sec := by
  unfold Time.abs internalToAbsolute at h
  unfold minInt64 at a1 b1
  unfold maxInt64 at a2 b2
  rw [ho] at h
  omega

theorem wallClock_same_offset (t1 t2 : Time) (h : t1.wallClock = t2.wallClock)
    (ho : t1.loc.offset = t2.loc.offset) (a1 : minInt64 ≤ t1.sec) (a2 : t1.sec ≤ maxInt64)
    (b1 : minInt64 ≤ t2.sec) (b2 : t2.sec ≤ maxInt64) :
    t1.sec = t2.sec ∧ t1.nsec / 1000 = t2.nsec / 1000 := by
  refine ⟨abs_same_offset t1 t2 (wallClock_abs t1 t2 h) ho a1 a2 b1 b2, ?_⟩
  have := congrArg WallClock.micro h
  exact this

/-! ## Trigger times of one hour -/

theorem abs_in_range (t : Time)
    (a1 : 0 ≤ t.sec + t.loc.offset + internalToAbsolute)
    (a2 : t.sec + t.loc.offset + internalToAbsolute < 18446744073709551616) :
    (t.abs : Int) = t.sec + t.loc.offset + internalToAbsolute := by
  unfold Time.abs
  rw [Int.emod_eq_of_lt a1 a2]
  omega

/-- Two times of one zone whose offset is a whole number of hours show the same date
and hour exactly when they lie in the same whole hour since the zero time. -/
theorem same_clock_hour (t1 t2 : Time) (hl : t1.loc.offset = t2.loc.offset)
    (ho : t1.loc.offset % 3600 = 0)
    (a1 : 0 ≤ t1.sec + t1.loc.offset + internalToAbsolute)
    (a2 : t1.sec + t1.loc.offset + internalToAbsolute < 18446744073709551616)
    (b1 : 0 ≤ t2.sec + t2.loc.offset + internalToAbsolute)
    (b2 : t2.sec + t2.loc.offset + internalToAbsolute < 18446744073709551616) :
    ({ t1.wallClock with min := 0, sec := 0, micro := 0 } : WallClock)
        = { t2.wallClock with min := 0, sec := 0, micro := 0 }
      ↔ t1.sec / 3600 = t2.sec / 3600 := by
  have e1 := abs_in_range t1 a1 a2
  have e2 := abs_in_range t2 b1 b2
  have key : t1.abs / 3600 = t2.abs / 3600 ↔ t1.sec / 3600 = t2.sec / 3600 := by
    unfold internalToAbsolute at e1 e2
    omega
  rw [← key]
  unfold Time.wallClock
  generalize t1.abs = a
  generalize t2.abs = b
  simp only [WallClock.mk.injEq, and_true]
  constructor
  · rintro ⟨hy, hm, hd, hh⟩
    have h1 := absDate_days a b hy hm hd
    unfold absClock secondsPerDay secondsPerHour at hh
    unfold secondsPerDay at h1
    simp only [] at hh
    omega
  · intro h
    have hd : absDate a = absDate b := by
      have : a / 86400 = b / 86400 := by omega
      simp only [absDate, secondsPerDay, this]
    have hh : (absClock a).hour = (absClock b).hour := by
      simp only [absClock, secondsPerDay, secondsPerHour]
      omega
    rw [hd]
    exact ⟨rfl, rfl, rfl, hh⟩

/-- C7 (as the code has it): the object key is `"airdata/"`, then `to` formatted as
RFC 3339 (which includes the zone offset of `to`), then `".csv"`; whatever the world
(and so whatever the fetched data), two invocations whose trigger times truncate to
the same `to` upload under the same key; two trigger times in the same location
truncate to the same `to` exactly when they lie in the same whole hour counted from
the zero time; and in a zone whose offset is a whole number of hours (UTC among
them) that is exactly when they show the same date and clock hour. -/
theorem C7_object_key (world1 world2 : World) (event1 event2 : Event) :
    (∀ f b, Call.uploadData f b ∈ (handleRequest world1 event1).calls →
        f = (windowTo event1).Format RFC3339
        ∧ (uploadInput world1 f b).Key = "airdata/" ++ (windowTo event1).Format RFC3339 ++ ".csv")
    ∧ (windowTo event1 = windowTo event2 →
        ∀ f1 b1 f2 b2, Call.uploadData f1 b1 ∈ (handleRequest world1 event1).calls →
          Call.uploadData f2 b2 ∈ (handleRequest world2 event2).calls →
          (uploadInput world1 f1 b1).Key = (uploadInput world2 f2 b2).Key)
    ∧ (event1.Time.loc = event2.Time.loc →
        event1.Time.nsec < 1000000000 → event2.Time.nsec < 1000000000 →
        minInt64 + 3600 ≤ event1.Time.sec → event1.Time.sec ≤ maxInt64 →
        minInt64 + 3600 ≤ event2.Time.sec → event2.Time.sec ≤ maxInt64 →
        (windowTo event1 = windowTo event2
          ↔ event1.Time.sec / 3600 = event2.Time.sec / 3600))
    ∧ (event1.Time.loc = event2.Time.loc → event1.Time.loc.offset % 3600 = 0 →
        event1.Time.nsec < 1000000000 → event2.Time.nsec < 1000000000 →
        minInt64 + 3600 ≤ event1.Time.sec → event1.Time.sec ≤ maxInt64 →
        minInt64 + 3600 ≤ event2.Time.sec → event2.Time.sec ≤ maxInt64 →
        0 ≤ event1.Time.sec + event1.Time.loc.offset + internalToAbsolute →
        event1.Time.sec + event1.Time.loc.offset + internalToAbsolute < 18446744073709551616 →
        0 ≤ event2.Time.sec + event2.Time.loc.offset + internalToAbsolute →
        event2.Time.sec + event2.Time.loc.offset + internalToAbsolute < 18446744073709551616 →
        (windowTo event1 = windowTo event2
          ↔ ({ event1.Time.wallClock with min := 0, sec := 0, micro := 0 } : WallClock)
            = { event2.Time.wallClock with min := 0, sec := 0, micro := 0 })) := by
  have hour : event1.Time.loc = event2.Time.loc →
      event1.Time.nsec < 1000000000 → event2.Time.nsec < 1000000000 →
      minInt64 + 3600 ≤ event1.Time.sec → event1.Time.sec ≤ maxInt64 →
      minInt64 + 3600 ≤ event2.Time.sec → event2.Time.sec ≤ maxInt64 →
      (windowTo event1 = windowTo event2
        ↔ event1.Time.sec / 3600 = event2.Time.sec / 3600) := by
    intro hloc n1 n2 a1 a2 a3 a4
    rw [windowTo_eq event1 n1 a1 a2, windowTo_eq event2 n2 a3 a4]
    constructor
    · intro h
      have hs := congrArg Time.sec h
      simp only [] at hs
      omega
    · intro hhour
      have hs : event1.Time.sec - event1.Time.sec % 3600
          = event2.Time.sec - event2.Time.sec % 3600 := by
        omega
      rw [hs]
      show ({ sec := _, nsec := 0, loc := event1.Time.loc } : Time)
        = { sec := _, nsec := 0, loc := event2.Time.loc }
      rw [hloc]
  refine ⟨?_, ?_, hour, ?_⟩
  · intro f b h
    have := (handleRequestOn_upload_call bytes.Buffer "" id world1 event1 f b h).1
    rw [this]
    exact ⟨rfl, rfl⟩
  · intro hto f1 b1 f2 b2 h1 h2
    have e1 := (handleRequestOn_upload_call bytes.Buffer "" id world1 event1 f1 b1 h1).1
    have e2 := (handleRequestOn_upload_call bytes.Buffer "" id world2 event2 f2 b2 h2).1
    rw [e1, e2]
    show "airdata/" ++ filenameOf event1 ++ ".csv" = "airdata/" ++ filenameOf event2 ++ ".csv"
    unfold filenameOf
    rw [hto]
  · intro hloc ho n1 n2 a1 a2 a3 a4 c1 c2 c3 c4
    rw [hour hloc n1 n2 a1 a2 a3 a4]
    exact (same_clock_hour event1.Time event2.Time (by rw [hloc]) ho c1 c2 c3 c4).symm

/-- C7 at the trigger times 2023-06-01T15:23:00Z and 2023-06-01T15:59:59Z: both
truncate to the same `to`, and both invocations upload under the key
`airdata/2023-06-01T15:00:00Z.csv`, the one to a store that accepts the upload and
the other to a store that refuses it. -/
theorem C7_object_key_witness :
    sampleEvent ≠ ⟨⟨utcSeconds 2023 6 1 15 59 59, 0, UTC⟩⟩
    ∧ windowTo sampleEvent = windowTo ⟨⟨utcSeconds 2023 6 1 15 59 59, 0, UTC⟩⟩
    ∧ Call.uploadData "2023-06-01T15:00:00Z" ""
        ∈ (handleRequest (sampleWorld 200 [] (fun u => .ok u.Key)) sampleEvent).calls
    ∧ Call.uploadData "2023-06-01T15:00:00Z" ""
        ∈ (handleRequest (sampleWorld 500 [] (fun _ => .error "AccessDenied"))
            ⟨⟨utcSeconds 2023 6 1 15 59 59, 0, UTC⟩⟩).calls
    ∧ (uploadInput (sampleWorld 200 [] (fun u => .ok u.Key)) "2023-06-01T15:00:00Z" "").Key
        = (uploadInput (sampleWorld 500 [] (fun _ => .error "AccessDenied"))
            "2023-06-01T15:00:00Z" "").Key
    ∧ ("2023-06-01T15:00:00Z" = (windowTo sampleEvent).Format RFC3339
        ∧ (uploadInput (sampleWorld 200 [] (fun u => .ok u.Key)) "2023-06-01T15:00:00Z" "").Key
          = "airdata/" ++ (windowTo sampleEvent).Format RFC3339 ++ ".csv") :=
  ⟨by decide,
    ((C7_object_key (sampleWorld 200 [] (fun u => .ok u.Key))
      (sampleWorld 500 [] (fun _ => .error "AccessDenied")) sampleEvent
      ⟨⟨utcSeconds 2023 6 1 15 59 59, 0, UTC⟩⟩).2.2.1 rfl (by decide) (by decide) (by decide)
      (by decide) (by decide) (by decide)).mpr (by decide),
    by decide, by decide,
    (C7_object_key (sampleWorld 200 [] (fun u => .ok u.Key))
      (sampleWorld 500 [] (fun _ => .error "AccessDenied")) sampleEvent
      ⟨⟨utcSeconds 2023 6 1 15 59 59, 0, UTC⟩⟩).2.1
      (((C7_object_key (sampleWorld 200 [] (fun u => .ok u.Key))
        (sampleWorld 500 [] (fun _ => .error "AccessDenied")) sampleEvent
        ⟨⟨utcSeconds 2023 6 1 15 59 59, 0, UTC⟩⟩).2.2.1 rfl (by decide) (by decide) (by decide)
        (by decide) (by decide) (by decide)).mpr (by decide))
      "2023-06-01T15:00:00Z" "" "2023-06-01T15:00:00Z" "" (by decide) (by decide),
    (C7_object_key (sampleWorld 200 [] (fun u => .ok u.Key))
      (sampleWorld 500 [] (fun _ => .error "AccessDenied")) sampleEvent
      ⟨⟨utcSeconds 2023 6 1 15 59 59, 0, UTC⟩⟩).1 "2023-06-01T15:00:00Z" "" (by decide)⟩

/-- C7 fails as stated: the trigger times 2023-06-01T15:23:00Z and
2023-06-01T16:23:00+01:00 are the same instant, hence within the same hour, and the
two invocations upload under different keys; and the trigger times
2023-06-01T20:10:00+05:30 and 2023-06-01T20:50:00+05:30, of one location and one
clock hour, truncate to 19:30 and 20:30 and upload under different keys. -/
theorem C7_same_hour_different_key :
    sampleEvent.Time.Format RFC3339 = "2023-06-01T15:23:00Z"
    ∧ (⟨⟨utcSeconds 2023 6 1 15 23 0, 0, FixedZone "" 3600⟩⟩ : Event).Time.Format RFC3339
        = "2023-06-01T16:23:00+01:00"
    ∧ sampleEvent.Time.sec = (⟨⟨utcSeconds 2023 6 1 15 23 0, 0, FixedZone "" 3600⟩⟩ : Event).Time.sec
    ∧ sampleEvent.Time.nsec = (⟨⟨utcSeconds 2023 6 1 15 23 0, 0, FixedZone "" 3600⟩⟩ : Event).Time.nsec
    ∧ Call.uploadData "2023-06-01T15:00:00Z" ""
        ∈ (handleRequest (sampleWorld 200 [] (fun u => .ok u.Key)) sampleEvent).calls
    ∧ Call.uploadData "2023-06-01T16:00:00+01:00" ""
        ∈ (handleRequest (sampleWorld 200 [] (fun u => .ok u.Key))
            ⟨⟨utcSeconds 2023 6 1 15 23 0, 0, FixedZone "" 3600⟩⟩).calls
    ∧ (uploadInput (sampleWorld 200 [] (fun u => .ok u.Key)) "2023-06-01T15:00:00Z" "").Key
        = "airdata/2023-06-01T15:00:00Z.csv"
    ∧ (uploadInput (sampleWorld 200 [] (fun u => .ok u.Key)) "2023-06-01T16:00:00+01:00" "").Key
        = "airdata/2023-06-01T16:00:00+01:00.csv"
    ∧ (⟨⟨utcSeconds 2023 6 1 14 40 0, 0, FixedZone "" 19800⟩⟩ : Event).Time.Format RFC3339
        = "2023-06-01T20:10:00+05:30"
    ∧ (⟨⟨utcSeconds 2023 6 1 15 20 0, 0, FixedZone "" 19800⟩⟩ : Event).Time.Format RFC3339
        = "2023-06-01T20:50:00+05:30"
    ∧ Call.uploadData "2023-06-01T19:30:00+05:30" ""
        ∈ (handleRequest (sampleWorld 200 [] (fun u => .ok u.Key))
            ⟨⟨utcSeconds 2023 6 1 14 40 0, 0, FixedZone "" 19800⟩⟩).calls
    ∧ Call.uploadData "2023-06-01T20:30:00+05:30" ""
        ∈ (handleRequest (sampleWorld 200 [] (fun u => .ok u.Key))
            ⟨⟨utcSeconds 2023 6 1 15 20 0, 0, FixedZone "" 19800⟩⟩).calls
    ∧ (uploadInput (sampleWorld 200 [] (fun u => .ok u.Key)) "2023-06-01T19:30:00+05:30" "").Key
        = "airdata/2023-06-01T19:30:00+05:30.csv"
    ∧ (uploadInput (sampleWorld 200 [] (fun u => .ok u.Key)) "2023-06-01T20:30:00+05:30" "").Key
        = "airdata/2023-06-01T20:30:00+05:30.csv" := by
  decide

/-! ## The text of a value determines the value -/

theorem ten_zpow_pos (n : Int) : (0 : ℚ) < (10 : ℚ) ^ n := zpow_pos (by norm_num) n

theorem ten_zpow_succ (n : Int) : (10 : ℚ) ^ (n + 1) = 10 * (10 : ℚ) ^ n := by
  rw [zpow_add_one₀ (by norm_num : (10 : ℚ) ≠ 0)]
  ring

theorem ten_zpow_pred (n : Int) : (10 : ℚ) ^ n = 10 * (10 : ℚ) ^ (n - 1) := by
  have := ten_zpow_succ (n - 1)
  rw [sub_add_cancel] at this
  exact this

theorem ten_zpow_mono {m n : Int} (h : m ≤ n) : (10 : ℚ) ^ m ≤ (10 : ℚ) ^ n :=
  zpow_le_zpow_right₀ (by norm_num) h

theorem valDigits_nonneg (l : List Nat) : ∀ dp, 0 ≤ valDigits l dp := by
  induction l with
  | nil => intro dp; exact le_refl _
  | cons c cs ih =>
    intro dp
    unfold valDigits
    have := ih (dp - 1)
    have h2 := ten_zpow_pos (dp - 1)
    have h3 : (0 : ℚ) ≤ (c : ℚ) := Nat.cast_nonneg c
    positivity

theorem valDigits_append (l1 l2 : List Nat) :
    ∀ dp, valDigits (l1 ++ l2) dp = valDigits l1 dp + valDigits l2 (dp - l1.length) := by
  induction l1 with
  | nil => intro dp; simp [valDigits]
  | cons c cs ih =>
    intro dp
    have e := ih (dp - 1)
    show (c : ℚ) * (10 : ℚ) ^ (dp - 1) + valDigits (cs ++ l2) (dp - 1)
      = ((c : ℚ) * (10 : ℚ) ^ (dp - 1) + valDigits cs (dp - 1))
        + valDigits l2 (dp - ((cs.length + 1 : Nat) : Int))
    rw [e]
    have : dp - ((cs.length + 1 : Nat) : Int) = dp - 1 - (cs.length : Int) := by
      push_cast
      ring
    rw [this]
    ring

theorem valDigits_lt (l : List Nat) (h : ∀ x ∈ l, x ≤ 9) :
    ∀ dp, valDigits l dp + (10 : ℚ) ^ (dp - l.length) ≤ (10 : ℚ) ^ dp := by
  induction l with
  | nil => intro dp; simp [valDigits]
  | cons c cs ih =>
    intro dp
    have h1 := ih (fun x hx => h x (List.mem_cons_of_mem _ hx)) (dp - 1)
    have hc : (c : ℚ) ≤ 9 := by
      have := h c (List.mem_cons_self _ _)
      exact_mod_cast this
    have h2 := ten_zpow_pos (dp - 1)
    have h3 := ten_zpow_pred dp
    show (c : ℚ) * (10 : ℚ) ^ (dp - 1) + valDigits cs (dp - 1)
      + (10 : ℚ) ^ (dp - ((cs.length + 1 : Nat) : Int)) ≤ (10 : ℚ) ^ dp
    have : dp - ((cs.length + 1 : Nat) : Int) = dp - 1 - (cs.length : Int) := by
      push_cast
      ring
    rw [this]
    nlinarith

theorem valDigits_lt_strict (l : List Nat) (h : ∀ x ∈ l, x ≤ 9) (dp : Int) :
    valDigits l dp < (10 : ℚ) ^ dp := by
  have := valDigits_lt l h dp
  have := ten_zpow_pos (dp - l.length)
  linarith

theorem valDigits_zeros (k : Nat) : ∀ dp, valDigits (List.replicate k 0) dp = 0 := by
  induction k with
  | zero => intro dp; rfl
  | succ k ih =>
    intro dp
    simp [List.replicate_succ, valDigits, ih]

theorem dropWhile_zero_reverse (l : List Nat) :
    ∃ k, l = (l.reverse.dropWhile (fun c => c == 0)).reverse ++ List.replicate k 0 := by
  induction l using List.reverseRecOn with
  | nil => exact ⟨0, rfl⟩
  | append_singleton l c ih =>
    by_cases hc : c = 0
    · obtain ⟨k, hk⟩ := ih
      refine ⟨k + 1, ?_⟩
      subst hc
      simp only [List.reverse_append, List.reverse_cons, List.reverse_nil, List.nil_append,
        List.singleton_append, List.dropWhile_cons, beq_self_eq_true, if_true]
      rw [List.replicate_succ', ← List.append_assoc, ← hk]
    · refine ⟨0, ?_⟩
      have : (c == 0) = false := by simpa using hc
      simp [List.dropWhile_cons, this]

theorem trim_val (a : decimal) : (trim a).val = a.val := by
  obtain ⟨k, hk⟩ := dropWhile_zero_reverse a.d
  unfold trim decimal.val
  simp only []
  have e : valDigits a.d a.dp
      = valDigits (a.d.reverse.dropWhile (fun c => c == 0)).reverse a.dp := by
    conv_lhs => rw [hk]
    rw [valDigits_append, valDigits_zeros, add_zero]
  split
  · rename_i h
    rw [e]
    have : (a.d.reverse.dropWhile (fun c => c == 0)).reverse = [] := by
      simpa using h
    rw [this]
    rfl
  · rw [e]

theorem trim_dp (a : decimal) (h : (trim a).d ≠ []) : (trim a).dp = a.dp := by
  unfold trim at h ⊢
  simp only [] at h ⊢
  split
  · rename_i h1
    rw [if_pos h1] at h
    exact absurd rfl h
  · rfl

theorem trim_last (a : decimal) : ∀ x, (trim a).d.getLast? = some x → x ≠ 0 := by
  intro x hx
  unfold trim at hx
  simp only [] at hx
  split at hx
  · simp at hx
  · simp only [List.getLast?_reverse] at hx
    have := List.head?_dropWhile_not (fun c => c == 0) a.d.reverse
    rw [hx] at this
    simpa using this

theorem valDigits_shift (l : List Nat) : ∀ dp e : Int,
    valDigits l (dp + e) = valDigits l dp * (10 : ℚ) ^ e := by
  induction l with
  | nil => intro dp e; simp [valDigits]
  | cons c cs ih =>
    intro dp e
    unfold valDigits
    rw [show dp + e - 1 = (dp - 1) + e by ring, ih (dp - 1) e,
      zpow_add₀ (by norm_num : (10 : ℚ) ≠ 0)]
    ring

theorem digitChar_toNat : ∀ d, d < 10 → (digitChar d).toNat - 48 = d := by
  decide

theorem valDigits_lowDigits (w : Nat) : ∀ u : Nat,
    valDigits ((lowDigits w u).map (fun c => c.toNat - 48)) w = ((u % 10 ^ w : Nat) : ℚ) := by
  induction w with
  | zero =>
    intro u
    simp [lowDigits, valDigits, Nat.mod_one]
  | succ w ih =>
    intro u
    simp only [lowDigits, List.map_append, List.map_cons, List.map_nil]
    rw [valDigits_append, List.length_map, lowDigits_length,
      digitChar_toNat _ (Nat.mod_lt _ (by decide))]
    have h1 : valDigits ((lowDigits w (u / 10)).map (fun c => c.toNat - 48)) ((w + 1 : Nat) : Int)
        = valDigits ((lowDigits w (u / 10)).map (fun c => c.toNat - 48)) (w : Int) * 10 := by
      have := valDigits_shift ((lowDigits w (u / 10)).map (fun c => c.toNat - 48)) (w : Int) 1
      simpa using this
    rw [h1, ih (u / 10)]
    have h2 : u % 10 ^ (w + 1) = u % 10 + 10 * (u / 10 % 10 ^ w) := by
      rw [Nat.pow_succ, Nat.mul_comm, Nat.mod_mul]
    rw [h2]
    simp only [valDigits, Nat.cast_add, Nat.cast_one, add_sub_cancel_left, sub_self, zpow_zero,
      mul_one, add_zero, Nat.cast_mul, Nat.cast_ofNat]
    ring

theorem numDigitsAux_low (fuel : Nat) : ∀ u, 0 < u → u ≤ fuel → 10 ^ numDigitsAux fuel u ≤ 10 * u := by
  induction fuel with
  | zero =>
    intro u h0 hu
    omega
  | succ fuel ih =>
    intro u h0 hu
    unfold numDigitsAux
    have hne : u ≠ 0 := by omega
    rw [if_neg hne]
    by_cases h1 : u / 10 = 0
    · rw [h1]
      have : numDigitsAux fuel 0 = 0 := by
        cases fuel with
        | zero => rfl
        | succ f => simp [numDigitsAux]
      rw [this]
      simp only [zero_add, pow_one]
      omega
    · have := ih (u / 10) (by omega) (by omega)
      rw [Nat.pow_succ]
      omega

theorem natDigits_val (n : Nat) : valDigits (natDigits n) ((natDigits n).length : Int) = (n : ℚ) := by
  unfold natDigits
  rw [List.length_map, lowDigits_length, valDigits_lowDigits,
    Nat.mod_eq_of_lt (numDigitsAux_bound n n (Nat.le_refl _))]

theorem natDigits_length_low (n : Nat) (h : 0 < n) :
    (10 : ℚ) ^ (((natDigits n).length : Int) - 1) ≤ (n : ℚ) := by
  unfold natDigits
  rw [List.length_map, lowDigits_length]
  have h1 := numDigitsAux_low n n h (Nat.le_refl _)
  have h2 : ((10 ^ numDigitsAux n n : Nat) : ℚ) ≤ ((10 * n : Nat) : ℚ) := by exact_mod_cast h1
  push_cast at h2
  have h3 := ten_zpow_pred ((numDigitsAux n n : Nat) : Int)
  rw [zpow_natCast] at h3
  linarith

/-- The decimal made by `assignShift` has the value `mant × 2^shift`. -/
theorem assignShift_val (mant : Nat) (shift : Int) :
    (decimal.assignShift mant shift).val = (mant : ℚ) * (2 : ℚ) ^ shift := by
  unfold decimal.assignShift
  by_cases h0 : mant = 0
  · rw [if_pos h0, h0]
    simp [decimal.val, valDigits]
  · rw [if_neg h0]
    by_cases hs : shift ≥ 0
    · rw [if_pos hs]
      simp only []
      rw [trim_val]
      unfold decimal.val
      simp only []
      rw [natDigits_val]
      push_cast
      congr 1
      rw [← zpow_natCast, Int.toNat_of_nonneg hs]
    · rw [if_neg hs]
      simp only []
      rw [trim_val]
      unfold decimal.val
      simp only []
      have hk : ((-shift).toNat : Int) = -shift := Int.toNat_of_nonneg (by omega)
      have := valDigits_shift (natDigits (mant * 5 ^ (-shift).toNat))
        ((natDigits (mant * 5 ^ (-shift).toNat)).length : Int) (-((-shift).toNat : Int))
      rw [show ((natDigits (mant * 5 ^ (-shift).toNat)).length : Int) - ((-shift).toNat : Int)
        = ((natDigits (mant * 5 ^ (-shift).toNat)).length : Int) + -((-shift).toNat : Int) by ring]
      rw [this, natDigits_val, hk, neg_neg]
      push_cast
      have h5 : ((5 : ℚ) ^ (-shift).toNat) = (5 : ℚ) ^ (-shift) := by
        rw [← zpow_natCast, hk]
      rw [h5]
      have h10 : (10 : ℚ) ^ shift = (2 : ℚ) ^ shift * (5 : ℚ) ^ shift := by
        rw [← mul_zpow]
        norm_num
      rw [h10, zpow_neg]
      have h5pos : (5 : ℚ) ^ shift ≠ 0 := zpow_ne_zero _ (by norm_num)
      field_simp
      ring

/-- A decimal made by `assignShift` from a positive mantissa is normalised: its first
digit is not zero, so its value is at least `10^(dp-1)`. -/
theorem assignShift_low (mant : Nat) (shift : Int) (h0 : mant ≠ 0) :
    (10 : ℚ) ^ ((decimal.assignShift mant shift).dp - 1) ≤ (decimal.assignShift mant shift).val := by
  have hpos : 0 < (decimal.assignShift mant shift).val := by
    rw [assignShift_val]
    have : (0 : ℚ) < (mant : ℚ) := by exact_mod_cast Nat.pos_of_ne_zero h0
    have := zpow_pos (by norm_num : (0 : ℚ) < 2) shift
    positivity
  have hne : (decimal.assignShift mant shift).d ≠ [] := by
    intro h
    unfold decimal.val at hpos
    rw [h] at hpos
    simp [valDigits] at hpos
  unfold decimal.assignShift at hne hpos ⊢
  rw [if_neg h0] at hne hpos ⊢
  by_cases hs : shift ≥ 0
  · rw [if_pos hs] at hne hpos ⊢
    simp only [] at hne hpos ⊢
    rw [trim_dp _ hne, trim_val]
    unfold decimal.val
    simp only []
    rw [natDigits_val]
    exact natDigits_length_low _ (Nat.mul_pos (Nat.pos_of_ne_zero h0) (Nat.pow_pos (by decide)))
  · rw [if_neg hs] at hne hpos ⊢
    simp only [] at hne hpos ⊢
    rw [trim_dp _ hne, trim_val]
    unfold decimal.val
    simp only []
    have hN : 0 < mant * 5 ^ (-shift).toNat :=
      Nat.mul_pos (Nat.pos_of_ne_zero h0) (Nat.pow_pos (by decide))
    have h1 := natDigits_length_low _ hN
    have h2 := valDigits_shift (natDigits (mant * 5 ^ (-shift).toNat))
        ((natDigits (mant * 5 ^ (-shift).toNat)).length : Int) (-((-shift).toNat : Int))
    rw [show ((natDigits (mant * 5 ^ (-shift).toNat)).length : Int) - ((-shift).toNat : Int)
        = ((natDigits (mant * 5 ^ (-shift).toNat)).length : Int) + -((-shift).toNat : Int) by ring]
    rw [h2, natDigits_val]
    rw [show ((natDigits (mant * 5 ^ (-shift).toNat)).length : Int) + -((-shift).toNat : Int) - 1
        = (((natDigits (mant * 5 ^ (-shift).toNat)).length : Int) - 1) + -((-shift).toNat : Int)
        by ring]
    rw [zpow_add₀ (by norm_num : (10 : ℚ) ≠ 0)]
    exact mul_le_mul_of_nonneg_right h1 (le_of_lt (ten_zpow_pos _))

theorem prefixVal_nonpos (a : decimal) (k : Int) (h : k ≤ 0) : a.prefixVal k = 0 := by
  unfold decimal.prefixVal
  have : k.toNat = 0 := by omega
  rw [this]
  rfl

theorem prefixVal_all (a : decimal) (k : Int) (h : a.nd ≤ k) : a.prefixVal k = a.val := by
  unfold decimal.prefixVal decimal.val
  unfold decimal.nd at h
  rw [List.take_of_length_le (by omega)]

theorem take_succ_getD (l : List Nat) (n : Nat) :
    valDigits (l.take (n + 1)) dp = valDigits (l.take n) dp
      + (l.getD n 0 : ℚ) * (10 : ℚ) ^ (dp - (n : Int) - 1) := by
  by_cases h : n < l.length
  · rw [List.take_succ, valDigits_append, List.length_take, Nat.min_eq_left (le_of_lt h)]
    rw [List.getD_eq_getElem?_getD, List.getElem?_eq_getElem h]
    simp [valDigits]
  · have h' : l.length ≤ n := by omega
    rw [List.take_of_length_le h', List.take_of_length_le (by omega),
      List.getD_eq_default _ _ h']
    simp

theorem prefixVal_step (a : decimal) (k : Int) :
    a.prefixVal (k + 1) = a.prefixVal k + (a.digit k : ℚ) * (10 : ℚ) ^ (a.dp - k - 1) := by
  unfold decimal.prefixVal decimal.digit
  by_cases h : 0 ≤ k
  · rw [if_pos h]
    have e1 : (k + 1).toNat = k.toNat + 1 := by omega
    rw [e1, take_succ_getD]
    have e2 : (k.toNat : Int) = k := Int.toNat_of_nonneg h
    rw [e2]
  · rw [if_neg h]
    have e1 : (k + 1).toNat = 0 := by omega
    have e2 : k.toNat = 0 := by omega
    rw [e1, e2]
    simp

theorem prefixVal_tail (a : decimal) (h : ∀ x ∈ a.d, x ≤ 9) (k : Int) :
    a.prefixVal k ≤ a.val ∧ a.val < a.prefixVal k + (10 : ℚ) ^ (a.dp - k) := by
  unfold decimal.prefixVal decimal.val
  have hsplit : valDigits a.d a.dp = valDigits (a.d.take k.toNat) a.dp
      + valDigits (a.d.drop k.toNat) (a.dp - ((a.d.take k.toNat).length : Int)) := by
    conv_lhs => rw [← List.take_append_drop k.toNat a.d]
    rw [valDigits_append]
  have h1 := valDigits_nonneg (a.d.drop k.toNat) (a.dp - ((a.d.take k.toNat).length : Int))
  have h2 := valDigits_lt_strict (a.d.drop k.toNat) (fun x hx => h x (List.mem_of_mem_drop hx))
    (a.dp - ((a.d.take k.toNat).length : Int))
  have h3 : (10 : ℚ) ^ (a.dp - ((a.d.take k.toNat).length : Int)) ≤ (10 : ℚ) ^ (a.dp - k) ∨
      a.d.drop k.toNat = [] := by
    by_cases hk : k.toNat ≤ a.d.length
    · by_cases hk0 : 0 ≤ k
      · left
        apply ten_zpow_mono
        rw [List.length_take, Nat.min_eq_left hk]
        omega
      · left
        apply ten_zpow_mono
        rw [List.length_take, Nat.min_eq_left hk]
        omega
    · right
      exact List.drop_of_length_le (by omega)
  constructor
  · linarith
  · rcases h3 with h3 | h3
    · linarith
    · rw [h3] at hsplit
      simp only [valDigits, add_zero] at hsplit
      rw [hsplit]
      have := ten_zpow_pos (a.dp - k)
      linarith

theorem valDigits_pos_of_last (l : List Nat) (x : Nat) (hx : l.getLast? = some x) (h0 : x ≠ 0) :
    ∀ dp, 0 < valDigits l dp := by
  intro dp
  obtain ⟨l', rfl⟩ : ∃ l', l = l' ++ [x] := by
    rcases List.eq_nil_or_concat l with h | ⟨l', y, h⟩
    · rw [h] at hx
      simp at hx
    · rw [h] at hx
      simp [List.getLast?_append] at hx
      exact ⟨l', by rw [h, hx]; simp⟩
  rw [valDigits_append]
  have h1 := valDigits_nonneg l' dp
  have h2 : (0 : ℚ) < (x : ℚ) := by exact_mod_cast Nat.pos_of_ne_zero h0
  have h3 := ten_zpow_pos (dp - (l'.length : Int) - 1)
  simp only [valDigits, add_zero]
  positivity

theorem prefixVal_tail_pos (a : decimal) (x : Nat) (hx : a.d.getLast? = some x) (h0 : x ≠ 0)
    (k : Int) (hk : k < a.nd) : a.prefixVal k < a.val := by
  unfold decimal.prefixVal decimal.val
  unfold decimal.nd at hk
  have hsplit : valDigits a.d a.dp = valDigits (a.d.take k.toNat) a.dp
      + valDigits (a.d.drop k.toNat) (a.dp - ((a.d.take k.toNat).length : Int)) := by
    conv_lhs => rw [← List.take_append_drop k.toNat a.d]
    rw [valDigits_append]
  have hne : 0 < a.d.length := by
    cases hd : a.d with
    | nil => rw [hd] at hx; simp at hx
    | cons c cs => simp
  have hlt : k.toNat < a.d.length := by omega
  have hlast : (a.d.drop k.toNat).getLast? = some x := by
    rw [List.getLast?_drop, if_neg (by omega)]
    exact hx
  have := valDigits_pos_of_last _ x hlast h0 (a.dp - ((a.d.take k.toNat).length : Int))
  linarith

theorem RoundDown_val (a : decimal) (k : Int) (h0 : 0 ≤ k) (h1 : k < a.nd) :
    (a.RoundDown k).val = a.prefixVal k := by
  unfold decimal.RoundDown
  have : ¬ (k < 0 ∨ k ≥ a.nd) := by omega
  rw [if_neg this, trim_val]
  rfl

theorem RoundDown_out (a : decimal) (k : Int) (h : k < 0 ∨ k ≥ a.nd) : a.RoundDown k = a := by
  unfold decimal.RoundDown
  rw [if_pos h]

theorem RoundUp_out (a : decimal) (k : Int) (h : k < 0 ∨ k ≥ a.nd) : a.RoundUp k = a := by
  unfold decimal.RoundUp
  rw [if_pos h]

theorem Round_out (a : decimal) (k : Int) (h : k < 0 ∨ k ≥ a.nd) : a.Round k = a := by
  unfold decimal.Round
  rw [if_pos h]

theorem roundUpRev_val (r : List Nat) (h : ∀ x ∈ r, x ≤ 9) : ∀ dp : Int,
    (∀ r', roundUpRev r = some r' →
      valDigits r'.reverse dp = valDigits r.reverse dp + (10 : ℚ) ^ (dp - (r.length : Int)))
    ∧ (roundUpRev r = none →
      valDigits r.reverse dp + (10 : ℚ) ^ (dp - (r.length : Int)) = (10 : ℚ) ^ dp) := by
  induction r with
  | nil =>
    intro dp
    constructor
    · intro r' hr
      simp [roundUpRev] at hr
    · intro _
      simp [valDigits]
  | cons c rest ih =>
    intro dp
    have ih' := ih (fun x hx => h x (List.mem_cons_of_mem _ hx)) dp
    have hc : c ≤ 9 := h c (List.mem_cons_self _ _)
    have hw := ten_zpow_pred (dp - (rest.length : Int))
    have hlen : dp - ((c :: rest).length : Int) = dp - (rest.length : Int) - 1 := by
      simp only [List.length_cons]
      push_cast
      ring
    have hv : valDigits (c :: rest).reverse dp
        = valDigits rest.reverse dp + (c : ℚ) * (10 : ℚ) ^ (dp - (rest.length : Int) - 1) := by
      rw [List.reverse_cons, valDigits_append, List.length_reverse]
      simp [valDigits]
    rw [hlen, hv]
    unfold roundUpRev
    by_cases h9 : c < 9
    · rw [if_pos h9]
      constructor
      · intro r' hr
        simp only [Option.some.injEq] at hr
        rw [← hr, List.reverse_cons, valDigits_append, List.length_reverse]
        simp only [valDigits, add_zero]
        push_cast
        ring
      · intro hr
        simp at hr
    · rw [if_neg h9]
      have hc9 : (c : ℚ) = 9 := by
        have : c = 9 := by omega
        rw [this]
        norm_num
      constructor
      · intro r' hr
        rw [ih'.1 r' hr, hc9]
        linarith
      · intro hr
        have := ih'.2 hr
        rw [hc9]
        linarith

theorem RoundUp_val (a : decimal) (h : ∀ x ∈ a.d, x ≤ 9) (k : Int) (h0 : 0 ≤ k) (h1 : k < a.nd) :
    (a.RoundUp k).val = a.prefixVal k + (10 : ℚ) ^ (a.dp - k) := by
  unfold decimal.RoundUp
  have hr : ¬ (k < 0 ∨ k ≥ a.nd) := by omega
  rw [if_neg hr]
  unfold decimal.nd at h1
  have hlen : ((a.d.take k.toNat).reverse.length : Int) = k := by
    rw [List.length_reverse, List.length_take]
    omega
  have key := roundUpRev_val (a.d.take k.toNat).reverse
    (fun x hx => h x (List.mem_of_mem_take (List.mem_reverse.mp hx))) a.dp
  rw [List.reverse_reverse, hlen] at key
  unfold decimal.prefixVal
  split
  · rename_i r hr'
    exact key.1 r hr'
  · rename_i hr'
    have := key.2 hr'
    rw [this]
    simp [decimal.val, valDigits]

theorem Round_cases (a : decimal) (k : Int) : a.Round k = a.RoundUp k ∨ a.Round k = a.RoundDown k := by
  unfold decimal.Round
  by_cases h : k < 0 ∨ k ≥ a.nd
  · rw [if_pos h]
    left
    exact (RoundUp_out a k h).symm
  · rw [if_neg h]
    split
    · left; rfl
    · right; rfl

theorem nat_mul_le (a b : Nat) (W : ℚ) (hW : 0 < W) (h : a ≤ b) : (a : ℚ) * W ≤ (b : ℚ) * W :=
  mul_le_mul_of_nonneg_right (by exact_mod_cast h) (le_of_lt hW)

theorem nat_lt_of_mul_lt (a b : Nat) (W : ℚ) (hW : 0 < W) (h : (a : ℚ) * W < (b : ℚ) * W) : a < b := by
  by_contra hn
  have := nat_mul_le b a W hW (by omega)
  linarith

/-- Rounding down at a digit where `lower` differs from `d` stays above `lower`. -/
theorem okdown_differ (Pd W x L : ℚ) (l m : Nat) (hW : 0 < W) (hx2 : x < Pd + m * W + W)
    (hL1 : Pd + l * W ≤ L) (hL2 : L < Pd + l * W + W) (hLx : L < x) (hlm : l ≠ m) :
    L < Pd + m * W := by
  rcases Nat.lt_or_gt_of_ne hlm with h | h
  · have := nat_mul_le (l + 1) m W hW h
    push_cast at this
    linarith
  · have := nat_mul_le (m + 1) l W hW h
    push_cast at this
    linarith

/-- The digit of `upper` is not below the digit of `d` while their prefixes agree. -/
theorem upper_digit_ge (Pd W x U : ℚ) (m u : Nat) (hW : 0 < W) (hx1 : Pd + m * W ≤ x)
    (hU2 : U < Pd + u * W + W) (hxU : x < U) : m ≤ u := by
  have h : (m : ℚ) * W < ((u + 1 : Nat) : ℚ) * W := by
    push_cast
    linarith
  have := nat_lt_of_mul_lt m (u + 1) W hW h
  omega

theorem okup_far (Pd W U : ℚ) (m u : Nat) (hW : 0 < W) (hU1 : Pd + u * W ≤ U) (h : m + 1 < u) :
    Pd + m * W + W < U := by
  have := nat_mul_le (m + 2) u W hW h
  push_cast at this
  linarith

theorem okup_carry_far (Pd W U : ℚ) (m u : Nat) (hW : 0 < W) (hU1 : Pd + 10 * W + u * W ≤ U)
    (hm : m ≤ 9) (h : m ≠ 9 ∨ u ≠ 0) : Pd + m * W + W < U := by
  have h1 : m + 2 ≤ 10 + u := by omega
  have := nat_mul_le (m + 2) (10 + u) W hW h1
  push_cast at this
  linarith

theorem lower_digit_eq (a : decimal) (li : Int) :
    (if li ≥ 0 ∧ li < a.nd then a.d.getD li.toNat 0 else 0) = a.digit li := by
  unfold decimal.digit decimal.nd
  by_cases h0 : 0 ≤ li
  · rw [if_pos h0]
    by_cases h1 : li < (a.d.length : Int)
    · rw [if_pos ⟨h0, h1⟩]
    · have : ¬ (li ≥ 0 ∧ li < (a.d.length : Int)) := fun h => h1 h.2
      rw [if_neg this, List.getD_eq_default _ _ (by omega)]
  · have : ¬ (li ≥ 0 ∧ li < (a.d.length : Int)) := fun h => h0 h.1
    rw [if_neg this, if_neg h0]

theorem upper_digit_eq (a : decimal) (ui : Nat) :
    (if (ui : Int) < a.nd then a.d.getD ui 0 else 0) = a.digit (ui : Int) := by
  unfold decimal.digit decimal.nd
  rw [if_pos (Int.ofNat_nonneg ui), Int.toNat_ofNat]
  by_cases h1 : (ui : Int) < (a.d.length : Int)
  · rw [if_pos h1]
  · rw [if_neg h1, List.getD_eq_default _ _ (by omega)]

theorem mid_digit_eq (a : decimal) (mi : Int) :
    (if mi ≥ 0 then a.d.getD mi.toNat 0 else 0) = a.digit mi := rfl

theorem digit_le (a : decimal) (h : ∀ x ∈ a.d, x ≤ 9) (k : Int) : a.digit k ≤ 9 := by
  unfold decimal.digit
  split
  · rw [List.getD_eq_getElem?_getD]
    cases hg : a.d[k.toNat]? with
    | none => simp
    | some v => exact h v (List.getElem?_mem hg)
  · omega

theorem roundShortestLoop_succ (d lower upper : decimal) (inclusive : Bool) (fuel ui upperdelta : Nat) :
    roundShortestLoop d lower upper inclusive (fuel + 1) ui upperdelta
      = if (ui : Int) - upper.dp + d.dp ≥ d.nd then d
        else if (decide (lower.digit ((ui : Int) - upper.dp + lower.dp)
              ≠ d.digit ((ui : Int) - upper.dp + d.dp))
            || (inclusive && decide ((ui : Int) - upper.dp + lower.dp + 1 = lower.nd)))
          && (decide (stepDelta upperdelta (d.digit ((ui : Int) - upper.dp + d.dp))
                (upper.digit (ui : Int)) > 0)
            && (inclusive || decide (stepDelta upperdelta (d.digit ((ui : Int) - upper.dp + d.dp))
                (upper.digit (ui : Int)) > 1) || decide ((ui : Int) + 1 < upper.nd)))
        then d.Round ((ui : Int) - upper.dp + d.dp + 1)
        else if (decide (lower.digit ((ui : Int) - upper.dp + lower.dp)
              ≠ d.digit ((ui : Int) - upper.dp + d.dp))
            || (inclusive && decide ((ui : Int) - upper.dp + lower.dp + 1 = lower.nd)))
        then d.RoundDown ((ui : Int) - upper.dp + d.dp + 1)
        else if (decide (stepDelta upperdelta (d.digit ((ui : Int) - upper.dp + d.dp))
                (upper.digit (ui : Int)) > 0)
            && (inclusive || decide (stepDelta upperdelta (d.digit ((ui : Int) - upper.dp + d.dp))
                (upper.digit (ui : Int)) > 1) || decide ((ui : Int) + 1 < upper.nd)))
        then d.RoundUp ((ui : Int) - upper.dp + d.dp + 1)
        else roundShortestLoop d lower upper inclusive fuel (ui + 1)
          (stepDelta upperdelta (d.digit ((ui : Int) - upper.dp + d.dp)) (upper.digit (ui : Int))) := by
  rw [roundShortestLoop]
  simp only [lower_digit_eq, upper_digit_eq, mid_digit_eq]
  rfl

theorem roundShortestLoop_inBounds (d lower upper : decimal) (inclusive : Bool)
    (hd : ∀ x ∈ d.d, x ≤ 9) (hl : ∀ x ∈ lower.d, x ≤ 9) (hu : ∀ x ∈ upper.d, x ≤ 9)
    (hLx : lower.val < d.val) (hxU : d.val < upper.val)
    (hulast : ∀ x, upper.d.getLast? = some x → x ≠ 0) (hune : upper.d ≠ []) :
    ∀ (fuel ui upperdelta : Nat),
      lower.prefixVal ((ui : Int) - upper.dp + lower.dp)
        = d.prefixVal ((ui : Int) - upper.dp + d.dp) →
      ((upperdelta = 0 ∧ upper.prefixVal (ui : Int) = d.prefixVal ((ui : Int) - upper.dp + d.dp))
        ∨ (upperdelta = 1 ∧ upper.prefixVal (ui : Int)
            = d.prefixVal ((ui : Int) - upper.dp + d.dp) + (10 : ℚ) ^ (upper.dp - (ui : Int)))) →
      inBounds lower.val upper.val inclusive
        (roundShortestLoop d lower upper inclusive fuel ui upperdelta).val := by
  have hexact : inBounds lower.val upper.val inclusive d.val :=
    ⟨le_of_lt hLx, le_of_lt hxU, fun _ => ⟨hLx, hxU⟩⟩
  intro fuel
  induction fuel with
  | zero =>
    intro ui upperdelta _ _
    exact hexact
  | succ fuel ih =>
    intro ui upperdelta hPl hδ
    rw [roundShortestLoop_succ]
    have ih' := ih (ui + 1)
    -- the weight of the current digit
    have hW : (0 : ℚ) < (10 : ℚ) ^ (upper.dp - (ui : Int) - 1) := ten_zpow_pos _
    have hW10 : (10 : ℚ) ^ (upper.dp - (ui : Int))
        = 10 * (10 : ℚ) ^ (upper.dp - (ui : Int) - 1) := ten_zpow_pred _
    have ed : d.dp - ((ui : Int) - upper.dp + d.dp) - 1 = upper.dp - (ui : Int) - 1 := by ring
    have el : lower.dp - ((ui : Int) - upper.dp + lower.dp) - 1 = upper.dp - (ui : Int) - 1 := by
      ring
    have ed' : d.dp - ((ui : Int) - upper.dp + d.dp + 1) = upper.dp - (ui : Int) - 1 := by ring
    have el' : lower.dp - ((ui : Int) - upper.dp + lower.dp + 1) = upper.dp - (ui : Int) - 1 := by
      ring
    have eu' : upper.dp - ((ui : Int) + 1) = upper.dp - (ui : Int) - 1 := by ring
    have sd := prefixVal_step d ((ui : Int) - upper.dp + d.dp)
    have sl := prefixVal_step lower ((ui : Int) - upper.dp + lower.dp)
    have su := prefixVal_step upper (ui : Int)
    rw [ed] at sd
    rw [el] at sl
    have td := prefixVal_tail d hd ((ui : Int) - upper.dp + d.dp + 1)
    have tl := prefixVal_tail lower hl ((ui : Int) - upper.dp + lower.dp + 1)
    have tu := prefixVal_tail upper hu ((ui : Int) + 1)
    rw [ed'] at td
    rw [el'] at tl
    rw [eu'] at tu
    have hm9 := digit_le d hd ((ui : Int) - upper.dp + d.dp)
    have enext_d : ((ui + 1 : Nat) : Int) - upper.dp + d.dp = (ui : Int) - upper.dp + d.dp + 1 := by
      push_cast
      ring
    have enext_l : ((ui + 1 : Nat) : Int) - upper.dp + lower.dp
        = (ui : Int) - upper.dp + lower.dp + 1 := by
      push_cast
      ring
    have enext_u : ((ui + 1 : Nat) : Int) = (ui : Int) + 1 := by push_cast; ring
    generalize hmi : (ui : Int) - upper.dp + d.dp = mi at *
    generalize hli : (ui : Int) - upper.dp + lower.dp = li at *
    generalize hm : d.digit mi = m at *
    generalize hll : lower.digit li = l at *
    generalize huu : upper.digit (ui : Int) = u at *
    generalize hWW : (10 : ℚ) ^ (upper.dp - (ui : Int) - 1) = W at *
    generalize hPd : d.prefixVal mi = Pd at *
    generalize hPd' : d.prefixVal (mi + 1) = Pd' at *
    generalize hPlo : lower.prefixVal li = Plo at *
    generalize hPlo' : lower.prefixVal (li + 1) = Plo' at *
    generalize hPu : upper.prefixVal (ui : Int) = Pu at *
    generalize hPu' : upper.prefixVal ((ui : Int) + 1) = Pu' at *
    by_cases hbreak : mi ≥ d.nd
    · rw [if_pos hbreak]
      exact hexact
    · rw [if_neg hbreak]
      -- rounding down
      have hdown : (decide (l ≠ m) || (inclusive && decide (li + 1 = lower.nd))) = true →
          0 ≤ mi + 1 → mi + 1 < d.nd →
          inBounds lower.val upper.val inclusive (d.RoundDown (mi + 1)).val := by
        intro hok h0 h1
        rw [RoundDown_val d (mi + 1) h0 h1, hPd']
        simp only [Bool.or_eq_true, decide_eq_true_eq, Bool.and_eq_true] at hok
        rcases hok with hne | ⟨hinc, hend⟩
        · have := okdown_differ Pd W d.val lower.val l m hW (by linarith) (by linarith)
            (by linarith) hLx hne
          exact ⟨by linarith, by linarith, fun _ => ⟨by linarith, by linarith⟩⟩
        · have hall := prefixVal_all lower (li + 1) (by omega)
          rw [hPlo'] at hall
          by_cases hne : l ≠ m
          · have := okdown_differ Pd W d.val lower.val l m hW (by linarith) (by linarith)
              (by linarith) hLx hne
            exact ⟨by linarith, by linarith, fun _ => ⟨by linarith, by linarith⟩⟩
          · have hlm : l = m := by
              by_contra h
              exact hne h
            rw [hlm] at sl
            refine ⟨by linarith, by linarith, fun h => ?_⟩
            rw [hinc] at h
            exact absurd h (by decide)
      -- rounding up
      have hup : (decide (stepDelta upperdelta m u > 0)
            && (inclusive || decide (stepDelta upperdelta m u > 1)
              || decide ((ui : Int) + 1 < upper.nd))) = true →
          0 ≤ mi + 1 → mi + 1 < d.nd →
          inBounds lower.val upper.val inclusive (d.RoundUp (mi + 1)).val := by
        intro hok h0 h1
        rw [RoundUp_val d hd (mi + 1) h0 h1, hPd']
        have ee : d.dp - (mi + 1) = upper.dp - (ui : Int) - 1 := by omega
        rw [ee, hWW]
        simp only [Bool.and_eq_true, decide_eq_true_eq, Bool.or_eq_true] at hok
        obtain ⟨hpos, hrest⟩ := hok
        have hmu : upperdelta = 0 → m ≤ u := by
          intro h0'
          rcases hδ with ⟨_, hP⟩ | ⟨h1', _⟩
          · exact upper_digit_ge Pd W d.val upper.val m u hW (by linarith) (by linarith) hxU
          · omega
        -- far: strictly below upper
        have hfar : stepDelta upperdelta m u > 1 → Pd' + W < upper.val := by
          intro h2
          unfold stepDelta at h2
          rcases hδ with ⟨hz, hP⟩ | ⟨ho, hP⟩
          · by_cases c1 : upperdelta = 0 ∧ m + 1 < u
            · have := okup_far Pd W upper.val m u hW (by linarith) c1.2
              linarith
            · rw [if_neg c1] at h2
              by_cases c2 : upperdelta = 0 ∧ m ≠ u
              · rw [if_pos c2] at h2
                omega
              · rw [if_neg c2] at h2
                have c3 : ¬ (upperdelta = 1 ∧ (m ≠ 9 ∨ u ≠ 0)) := by omega
                rw [if_neg c3] at h2
                omega
          · have c1 : ¬ (upperdelta = 0 ∧ m + 1 < u) := by omega
            have c2 : ¬ (upperdelta = 0 ∧ m ≠ u) := by omega
            rw [if_neg c1, if_neg c2] at h2
            by_cases c3 : upperdelta = 1 ∧ (m ≠ 9 ∨ u ≠ 0)
            · have := okup_carry_far Pd W upper.val m u hW (by linarith) hm9 c3.2
              linarith
            · rw [if_neg c3] at h2
              omega
        -- near: at most the prefix of upper
        have hnear : stepDelta upperdelta m u = 1 → Pd' + W = Pu' := by
          intro h2
          unfold stepDelta at h2
          rcases hδ with ⟨hz, hP⟩ | ⟨ho, hP⟩
          · have c1 : ¬ (upperdelta = 0 ∧ m + 1 < u) := by
              intro c
              rw [if_pos c] at h2
              omega
            rw [if_neg c1] at h2
            by_cases c2 : upperdelta = 0 ∧ m ≠ u
            · have hle := hmu hz
              have hu1 : u = m + 1 := by omega
              rw [hu1] at su
              push_cast at su
              linarith
            · rw [if_neg c2] at h2
              have c3 : ¬ (upperdelta = 1 ∧ (m ≠ 9 ∨ u ≠ 0)) := by omega
              rw [if_neg c3] at h2
              omega
          · have c1 : ¬ (upperdelta = 0 ∧ m + 1 < u) := by omega
            have c2 : ¬ (upperdelta = 0 ∧ m ≠ u) := by omega
            rw [if_neg c1, if_neg c2] at h2
            by_cases c3 : upperdelta = 1 ∧ (m ≠ 9 ∨ u ≠ 0)
            · rw [if_pos c3] at h2
              omega
            · have h9 : m = 9 ∧ u = 0 := by omega
              rw [h9.1] at sd
              rw [h9.2] at su
              push_cast at sd su
              linarith
        by_cases h2 : stepDelta upperdelta m u > 1
        · have := hfar h2
          exact ⟨by linarith, by linarith, fun _ => ⟨by linarith, by linarith⟩⟩
        · have h1' : stepDelta upperdelta m u = 1 := by omega
          have hn := hnear h1'
          rcases hrest with (hinc | h2') | hmore
          · refine ⟨by linarith, by linarith, fun h => ?_⟩
            rw [hinc] at h
            exact absurd h (by decide)
          · exact absurd h2' h2
          · obtain ⟨x, hx⟩ : ∃ x, upper.d.getLast? = some x := by
              cases hg : upper.d.getLast? with
              | none => exact absurd (List.getLast?_eq_none_iff.mp hg) hune
              | some x => exact ⟨x, rfl⟩
            have := prefixVal_tail_pos upper x hx (hulast x hx) ((ui : Int) + 1) hmore
            rw [hPu'] at this
            exact ⟨by linarith, by linarith, fun _ => ⟨by linarith, by linarith⟩⟩
      have hout : ¬ (0 ≤ mi + 1 ∧ mi + 1 < d.nd) → mi + 1 < 0 ∨ mi + 1 ≥ d.nd := by
        intro h
        omega
      by_cases okd : (decide (l ≠ m) || (inclusive && decide (li + 1 = lower.nd))) = true
      · by_cases oku : (decide (stepDelta upperdelta m u > 0)
            && (inclusive || decide (stepDelta upperdelta m u > 1)
              || decide ((ui : Int) + 1 < upper.nd))) = true
        · have hboth : ((decide (l ≠ m) || (inclusive && decide (li + 1 = lower.nd)))
              && (decide (stepDelta upperdelta m u > 0)
                && (inclusive || decide (stepDelta upperdelta m u > 1)
                  || decide ((ui : Int) + 1 < upper.nd)))) = true := by
            rw [okd, oku]
            rfl
          rw [if_pos hboth]
          by_cases hr : 0 ≤ mi + 1 ∧ mi + 1 < d.nd
          · rcases Round_cases d (mi + 1) with h | h
            · rw [h]
              exact hup oku hr.1 hr.2
            · rw [h]
              exact hdown okd hr.1 hr.2
          · rw [Round_out d _ (hout hr)]
            exact hexact
        · have hboth : ¬ ((decide (l ≠ m) || (inclusive && decide (li + 1 = lower.nd)))
              && (decide (stepDelta upperdelta m u > 0)
                && (inclusive || decide (stepDelta upperdelta m u > 1)
                  || decide ((ui : Int) + 1 < upper.nd)))) = true := by
            rw [okd]
            simpa using oku
          rw [if_neg hboth, if_pos okd]
          by_cases hr : 0 ≤ mi + 1 ∧ mi + 1 < d.nd
          · exact hdown okd hr.1 hr.2
          · rw [RoundDown_out d _ (hout hr)]
            exact hexact
      · have hboth : ¬ ((decide (l ≠ m) || (inclusive && decide (li + 1 = lower.nd)))
              && (decide (stepDelta upperdelta m u > 0)
                && (inclusive || decide (stepDelta upperdelta m u > 1)
                  || decide ((ui : Int) + 1 < upper.nd)))) = true := by
          intro h
          rw [Bool.and_eq_true] at h
          exact okd h.1
        rw [if_neg hboth, if_neg okd]
        by_cases oku : (decide (stepDelta upperdelta m u > 0)
            && (inclusive || decide (stepDelta upperdelta m u > 1)
              || decide ((ui : Int) + 1 < upper.nd))) = true
        · rw [if_pos oku]
          by_cases hr : 0 ≤ mi + 1 ∧ mi + 1 < d.nd
          · exact hup oku hr.1 hr.2
          · rw [RoundUp_out d _ (hout hr)]
            exact hexact
        · rw [if_neg oku]
          -- the loop goes on: the invariant holds at the next digit
          have hlm : l = m := by
            by_contra h
            apply okd
            simp [h]
          apply ih' (stepDelta upperdelta m u)
          · rw [enext_l, enext_d, hPlo', hPd']
            rw [hlm] at sl
            linarith
          · rw [enext_d, enext_u, hPd', hPu']
            have hnot2 : ¬ stepDelta upperdelta m u > 1 := by
              intro h2
              apply oku
              simp only [Bool.and_eq_true, decide_eq_true_eq, Bool.or_eq_true]
              exact ⟨by omega, Or.inl (Or.inr h2)⟩
            by_cases hz : stepDelta upperdelta m u = 0
            · left
              refine ⟨hz, ?_⟩
              unfold stepDelta at hz
              rcases hδ with ⟨h0, hP⟩ | ⟨h1, hP⟩
              · have c1 : ¬ (upperdelta = 0 ∧ m + 1 < u) := by
                  intro c
                  rw [if_pos c] at hz
                  omega
                rw [if_neg c1] at hz
                have c2 : ¬ (upperdelta = 0 ∧ m ≠ u) := by
                  intro c
                  rw [if_pos c] at hz
                  omega
                have hmu' : m = u := by
                  by_contra h
                  exact c2 ⟨h0, h⟩
                rw [hmu'] at sd
                linarith
              · have c1 : ¬ (upperdelta = 0 ∧ m + 1 < u) := by omega
                have c2 : ¬ (upperdelta = 0 ∧ m ≠ u) := by omega
                rw [if_neg c1, if_neg c2] at hz
                by_cases c3 : upperdelta = 1 ∧ (m ≠ 9 ∨ u ≠ 0)
                · rw [if_pos c3] at hz
                  omega
                · rw [if_neg c3] at hz
                  omega
            · right
              have h1' : stepDelta upperdelta m u = 1 := by omega
              refine ⟨h1', ?_⟩
              rw [eu', hWW]
              -- as in the rounding-up case
              unfold stepDelta at h1'
              rcases hδ with ⟨h0, hP⟩ | ⟨ho, hP⟩
              · have c1 : ¬ (upperdelta = 0 ∧ m + 1 < u) := by
                  intro c
                  rw [if_pos c] at h1'
                  omega
                rw [if_neg c1] at h1'
                by_cases c2 : upperdelta = 0 ∧ m ≠ u
                · have hle : m ≤ u :=
                    upper_digit_ge Pd W d.val upper.val m u hW (by linarith) (by linarith) hxU
                  have hu1 : u = m + 1 := by omega
                  rw [hu1] at su
                  push_cast at su
                  linarith
                · rw [if_neg c2] at h1'
                  have c3 : ¬ (upperdelta = 1 ∧ (m ≠ 9 ∨ u ≠ 0)) := by omega
                  rw [if_neg c3] at h1'
                  omega
              · have c1 : ¬ (upperdelta = 0 ∧ m + 1 < u) := by omega
                have c2 : ¬ (upperdelta = 0 ∧ m ≠ u) := by omega
                rw [if_neg c1, if_neg c2] at h1'
                by_cases c3 : upperdelta = 1 ∧ (m ≠ 9 ∨ u ≠ 0)
                · rw [if_pos c3] at h1'
                  omega
                · have h9 : m = 9 ∧ u = 0 := by omega
                  rw [h9.1] at sd
                  rw [h9.2] at su
                  push_cast at sd su
                  linarith

theorem two_zpow_pos (n : Int) : (0 : ℚ) < (2 : ℚ) ^ n := zpow_pos (by norm_num) n

theorem two_zpow_pred (n : Int) : (2 : ℚ) ^ n = 2 * (2 : ℚ) ^ (n - 1) := by
  have := zpow_add_one₀ (by norm_num : (2 : ℚ) ≠ 0) (n - 1)
  rw [sub_add_cancel] at this
  rw [this]
  ring

theorem ten_zpow_lt_imp {a b : Int} (h : (10 : ℚ) ^ a < (10 : ℚ) ^ b) : a < b := by
  by_contra hn
  have := ten_zpow_mono (show b ≤ a by omega)
  linarith

theorem assignShift_trimmed (mant : Nat) (shift : Int) :
    ∀ x, (decimal.assignShift mant shift).d.getLast? = some x → x ≠ 0 := by
  unfold decimal.assignShift
  split
  · intro x hx
    simp at hx
  · split
    · exact trim_last _
    · exact trim_last _

theorem val_pos_ne_nil (a : decimal) (h : 0 < a.val) : a.d ≠ [] := by
  intro hn
  unfold decimal.val at h
  rw [hn] at h
  simp [valDigits] at h

theorem decimal_val_lt (a : decimal) (h : ∀ x ∈ a.d, x ≤ 9) : a.val < (10 : ℚ) ^ a.dp :=
  valDigits_lt_strict a.d h a.dp

/-- The digits `roundShortest` chooses denote a number within the rounding interval of
the float. -/
theorem roundShortest_inBounds (mant : Nat) (exp : Int) (hm : mant ≠ 0) :
    inBounds (lowerBound mant exp) (upperBound mant exp) (decide (mant % 2 = 0))
      (roundShortest (decimal.assignShift mant (exp - 52)) mant exp).val := by
  have hmq : (1 : ℚ) ≤ (mant : ℚ) := by exact_mod_cast Nat.pos_of_ne_zero hm
  have hx : (decimal.assignShift mant (exp - 52)).val = (mant : ℚ) * (2 : ℚ) ^ (exp - 52) :=
    assignShift_val _ _
  have p53 := two_zpow_pos (exp - 53)
  have p54 := two_zpow_pos (exp - 54)
  have e52 : (2 : ℚ) ^ (exp - 52) = 2 * (2 : ℚ) ^ (exp - 53) := by
    rw [two_zpow_pred (exp - 52), show exp - 52 - 1 = exp - 53 by ring]
  have e53 : (2 : ℚ) ^ (exp - 53) = 2 * (2 : ℚ) ^ (exp - 54) := by
    rw [two_zpow_pred (exp - 53), show exp - 53 - 1 = exp - 54 by ring]
  -- the upper bound
  have hU : (decimal.assignShift (mant * 2 + 1) (exp - 52 - 1)).val = upperBound mant exp := by
    rw [assignShift_val]
    unfold upperBound
    push_cast
    rw [show exp - 52 - 1 = exp - 53 by ring]
    ring
  -- the lower bound
  have hL : (decimal.assignShift
      ((if mant > 4503599627370496 ∨ exp = -1022 then (mant - 1, exp) else (mant * 2 - 1, exp - 1)).1 * 2 + 1)
      ((if mant > 4503599627370496 ∨ exp = -1022 then (mant - 1, exp) else (mant * 2 - 1, exp - 1)).2
        - 52 - 1)).val = lowerBound mant exp := by
    rw [assignShift_val]
    unfold lowerBound
    have hc : (mant > 4503599627370496 ∨ exp = -1022) ↔ (mant > 2 ^ 52 ∨ exp = -1022) := by
      constructor <;> (intro h; rcases h with h | h; left; omega; right; omega)
    by_cases hcase : mant > 2 ^ 52 ∨ exp = -1022
    · rw [if_pos (hc.mpr hcase), if_pos hcase]
      simp only []
      have : ((mant - 1 : Nat) : ℚ) = (mant : ℚ) - 1 := by
        rw [Nat.cast_sub (Nat.pos_of_ne_zero hm)]
        simp
      push_cast
      rw [this, show exp - 52 - 1 = exp - 53 by ring]
      ring
    · rw [if_neg (fun h => hcase (hc.mp h)), if_neg hcase]
      simp only []
      have : ((mant * 2 - 1 : Nat) : ℚ) = (mant : ℚ) * 2 - 1 := by
        rw [Nat.cast_sub (by omega)]
        simp
      push_cast
      rw [this, show exp - 1 - 52 - 1 = exp - 54 by ring]
      ring
  have hLx : lowerBound mant exp < (mant : ℚ) * (2 : ℚ) ^ (exp - 52) := by
    unfold lowerBound
    split
    · rw [e52]
      nlinarith
    · rw [e52, e53]
      nlinarith
  have hxU : (mant : ℚ) * (2 : ℚ) ^ (exp - 52) < upperBound mant exp := by
    unfold upperBound
    rw [e52]
    nlinarith
  have hLpos : 0 < lowerBound mant exp := by
    unfold lowerBound
    split
    · have : (0 : ℚ) < 2 * (mant : ℚ) - 1 := by linarith
      positivity
    · have : (0 : ℚ) < 4 * (mant : ℚ) - 1 := by linarith
      positivity
  have hexact : inBounds (lowerBound mant exp) (upperBound mant exp) (decide (mant % 2 = 0))
      (decimal.assignShift mant (exp - 52)).val := by
    rw [hx]
    exact ⟨le_of_lt hLx, le_of_lt hxU, fun _ => ⟨hLx, hxU⟩⟩
  unfold roundShortest
  rw [if_neg hm]
  simp only []
  split
  · exact hexact
  · rw [← hU, ← hL]
    have hUpos : 0 < (decimal.assignShift (mant * 2 + 1) (exp - 52 - 1)).val := by
      rw [hU]
      linarith
    have hlone : (if mant > 4503599627370496 ∨ exp = -1022 then (mant - 1, exp)
        else (mant * 2 - 1, exp - 1)).1 * 2 + 1 ≠ 0 := by omega
    apply roundShortestLoop_inBounds
    · exact assignShift_le _ _
    · exact assignShift_le _ _
    · exact assignShift_le _ _
    · rw [hL, hx]
      exact hLx
    · rw [hU, hx]
      exact hxU
    · exact assignShift_trimmed _ _
    · exact val_pos_ne_nil _ hUpos
    · -- at the start no digit has been read
      have h1 := assignShift_low
        ((if mant > 4503599627370496 ∨ exp = -1022 then (mant - 1, exp)
          else (mant * 2 - 1, exp - 1)).1 * 2 + 1)
        ((if mant > 4503599627370496 ∨ exp = -1022 then (mant - 1, exp)
          else (mant * 2 - 1, exp - 1)).2 - 52 - 1) hlone
      have h2 := decimal_val_lt _ (assignShift_le (mant * 2 + 1) (exp - 52 - 1))
      have h3 := assignShift_low mant (exp - 52) hm
      rw [hL] at h1
      rw [hU] at h2
      rw [hx] at h3
      have h4 := ten_zpow_lt_imp (lt_of_le_of_lt h1 (lt_trans (lt_trans hLx hxU) h2))
      have h5 := ten_zpow_lt_imp (lt_of_le_of_lt h3 (lt_trans hxU h2))
      rw [prefixVal_nonpos _ _ (by push_cast; omega), prefixVal_nonpos _ _ (by push_cast; omega)]
    · left
      have h2 := decimal_val_lt _ (assignShift_le (mant * 2 + 1) (exp - 52 - 1))
      have h3 := assignShift_low mant (exp - 52) hm
      rw [hU] at h2
      rw [hx] at h3
      have h5 := ten_zpow_lt_imp (lt_of_le_of_lt h3 (lt_trans hxU h2))
      refine ⟨rfl, ?_⟩
      rw [prefixVal_nonpos _ _ (by simp), prefixVal_nonpos _ _ (by push_cast; omega)]

theorem two_zpow_add_nat (e : Int) (k : Nat) : (2 : ℚ) ^ (e + (k : Int)) = (2 : ℚ) ^ k * (2 : ℚ) ^ e := by
  rw [zpow_add₀ (by norm_num : (2 : ℚ) ≠ 0), zpow_natCast]
  ring

/-- The rounding intervals of two different positive floats, the smaller one first, do
not overlap; they share an end point at most when one of the mantissas is odd. -/
theorem bounds_apart (m m2 : Nat) (e e2 : Int)
    (hm : m < 2 ^ 53) (hn : -1022 < e → 2 ^ 52 ≤ m)
    (hm2 : 0 < m2) (he2 : -1022 ≤ e2) (hn2 : -1022 < e2 → 2 ^ 52 ≤ m2)
    (he : -1022 ≤ e)
    (hlt : e < e2 ∨ (e = e2 ∧ m < m2)) :
    upperBound m e ≤ lowerBound m2 e2
      ∧ (m % 2 = 0 → m2 % 2 = 0 → upperBound m e < lowerBound m2 e2) := by
  have ht := two_zpow_pos (e - 54)
  have e53 : (2 : ℚ) ^ (e - 53) = 2 * (2 : ℚ) ^ (e - 54) := by
    rw [two_zpow_pred (e - 53), show e - 53 - 1 = e - 54 by ring]
  have hmq : (m : ℚ) + 1 ≤ 2 ^ 53 := by exact_mod_cast hm
  rcases hlt with hlt | ⟨rfl, hlt⟩
  · -- a larger exponent
    obtain ⟨k, hk⟩ : ∃ k : Nat, e2 = e + 1 + (k : Int) := ⟨(e2 - e - 1).toNat, by omega⟩
    have hP : (1 : ℚ) ≤ (2 : ℚ) ^ k := one_le_pow₀ (by norm_num)
    have h54 : (2 : ℚ) ^ (e2 - 54) = (2 : ℚ) ^ k * (2 * (2 : ℚ) ^ (e - 54)) := by
      rw [show e2 - 54 = (e - 53) + (k : Int) by omega, two_zpow_add_nat, e53]
    have h53 : (2 : ℚ) ^ (e2 - 53) = (2 : ℚ) ^ k * (4 * (2 : ℚ) ^ (e - 54)) := by
      rw [two_zpow_pred (e2 - 53), show e2 - 53 - 1 = e2 - 54 by ring, h54]
      ring
    have hm2' : 2 ^ 52 ≤ m2 := hn2 (by omega)
    have hm2q : (2 : ℚ) ^ 52 ≤ (m2 : ℚ) := by exact_mod_cast hm2'
    unfold upperBound lowerBound
    rw [e53]
    by_cases hc : m2 > 2 ^ 52 ∨ e2 = -1022
    · rw [if_pos hc, h53]
      have hgt : m2 > 2 ^ 52 := by
        rcases hc with h | h
        · exact h
        · omega
      have hgq : (2 : ℚ) ^ 52 + 1 ≤ (m2 : ℚ) := by exact_mod_cast hgt
      have key : (2 * (m : ℚ) + 1) * 2 < (2 * (m2 : ℚ) - 1) * ((2 : ℚ) ^ k * 4) := by
        have h1 : (2 * (m2 : ℚ) - 1) * 4 ≤ (2 * (m2 : ℚ) - 1) * ((2 : ℚ) ^ k * 4) := by
          apply mul_le_mul_of_nonneg_left
          · linarith
          · linarith
        linarith
      have h2 := mul_lt_mul_of_pos_right key ht
      constructor
      · nlinarith
      · intro _ _
        nlinarith
    · rw [if_neg hc, h54]
      have heq : m2 = 2 ^ 52 := by
        have : ¬ m2 > 2 ^ 52 := fun h => hc (Or.inl h)
        omega
      have heqq : (m2 : ℚ) = 2 ^ 52 := by exact_mod_cast heq
      rw [heqq]
      have h1 : (4 * (2 : ℚ) ^ 52 - 1) * 2 ≤ (4 * (2 : ℚ) ^ 52 - 1) * ((2 : ℚ) ^ k * 2) := by
        apply mul_le_mul_of_nonneg_left
        · linarith
        · norm_num
      constructor
      · have key : (2 * (m : ℚ) + 1) * 2 ≤ (4 * (2 : ℚ) ^ 52 - 1) * ((2 : ℚ) ^ k * 2) := by
          have : (2 * (m : ℚ) + 1) * 2 ≤ (4 * (2 : ℚ) ^ 52 - 1) * 2 := by
            norm_num
            norm_num at hmq
            linarith
          linarith
        have h2 := mul_le_mul_of_nonneg_right key (le_of_lt ht)
        nlinarith
      · intro hev _
        have hm' : m + 2 ≤ 2 ^ 53 := by omega
        have hmq' : (m : ℚ) + 2 ≤ 2 ^ 53 := by exact_mod_cast hm'
        have key : (2 * (m : ℚ) + 1) * 2 < (4 * (2 : ℚ) ^ 52 - 1) * ((2 : ℚ) ^ k * 2) := by
          have : (2 * (m : ℚ) + 1) * 2 < (4 * (2 : ℚ) ^ 52 - 1) * 2 := by
            norm_num
            norm_num at hmq'
            linarith
          linarith
        have h2 := mul_lt_mul_of_pos_right key ht
        nlinarith
  · -- the same exponent
    have hltq : (m : ℚ) + 1 ≤ (m2 : ℚ) := by exact_mod_cast hlt
    unfold upperBound lowerBound
    by_cases hc : m2 > 2 ^ 52 ∨ e = -1022
    · rw [if_pos hc]
      have h53 := two_zpow_pos (e - 53)
      constructor
      · apply mul_le_mul_of_nonneg_right _ (le_of_lt h53)
        linarith
      · intro h1 h2
        have hlt' : m + 2 ≤ m2 := by omega
        have hltq' : (m : ℚ) + 2 ≤ (m2 : ℚ) := by exact_mod_cast hlt'
        apply mul_lt_mul_of_pos_right _ h53
        linarith
    · exfalso
      have h1 : ¬ m2 > 2 ^ 52 := fun h => hc (Or.inl h)
      have h2 : ¬ e = -1022 := fun h => hc (Or.inr h)
      have := hn (by omega)
      omega

/-- No number lies in the rounding intervals of two different positive floats. -/
theorem inBounds_unique (m m2 : Nat) (e e2 : Int) (y : ℚ)
    (hm0 : 0 < m) (hm : m < 2 ^ 53) (he : -1022 ≤ e) (hn : -1022 < e → 2 ^ 52 ≤ m)
    (hm20 : 0 < m2) (hm2 : m2 < 2 ^ 53) (he2 : -1022 ≤ e2) (hn2 : -1022 < e2 → 2 ^ 52 ≤ m2)
    (h1 : inBounds (lowerBound m e) (upperBound m e) (decide (m % 2 = 0)) y)
    (h2 : inBounds (lowerBound m2 e2) (upperBound m2 e2) (decide (m2 % 2 = 0)) y) :
    m = m2 ∧ e = e2 := by
  have main : ∀ (m m2 : Nat) (e e2 : Int), m < 2 ^ 53 → -1022 ≤ e → (-1022 < e → 2 ^ 52 ≤ m) →
      0 < m2 → -1022 ≤ e2 → (-1022 < e2 → 2 ^ 52 ≤ m2) →
      inBounds (lowerBound m e) (upperBound m e) (decide (m % 2 = 0)) y →
      inBounds (lowerBound m2 e2) (upperBound m2 e2) (decide (m2 % 2 = 0)) y →
      ¬ (e < e2 ∨ (e = e2 ∧ m < m2)) := by
    intro m m2 e e2 hm he hn hm20 he2 hn2 h1 h2 hlt
    obtain ⟨ha, hb⟩ := bounds_apart m m2 e e2 hm hn hm20 he2 hn2 he hlt
    obtain ⟨_, h1u, h1s⟩ := h1
    obtain ⟨h2l, _, h2s⟩ := h2
    by_cases p1 : m % 2 = 0
    · by_cases p2 : m2 % 2 = 0
      · have := hb p1 p2
        linarith
      · have := (h2s (by simp [p2])).1
        linarith
    · have := (h1s (by simp [p1])).2
      linarith
  have a := main m m2 e e2 hm he hn hm20 he2 hn2 h1 h2
  have b := main m2 m e2 e hm2 he2 hn2 hm0 he hn h2 h1
  constructor <;> omega

theorem fmtF_data (neg : Bool) (d : decimal) (prec : Nat) :
    (fmtF neg d prec).data = (if neg then ['-'] else []) ++ (intDigits d).map digitChar
      ++ (if prec > 0 then '.' :: (fracDigits d prec).map digitChar else []) := by
  unfold fmtF intDigits fracDigits
  simp only [String.data_append]
  have h0 : digitChar 0 = '0' := by decide
  congr 1
  · congr 1
    · cases neg <;> rfl
    · split
      · simp [h0]
      · simp [h0]
  · split
    · simp only [List.map_map, List.cons.injEq, true_and]
      apply List.map_congr_left
      intro i _
      simp only [Function.comp]
      split
      · rfl
      · exact h0.symm
    · rfl

theorem digitChar_ne_point : ∀ d, d < 10 → digitChar d ≠ '.' ∧ digitChar d ≠ '-' := by
  decide

theorem takeWhile_digits (l : List Nat) (h : ∀ x ∈ l, x ≤ 9) (rest : List Char) :
    (l.map digitChar ++ '.' :: rest).takeWhile (fun c => c != '.') = l.map digitChar
      ∧ (l.map digitChar ++ '.' :: rest).dropWhile (fun c => c != '.') = '.' :: rest
      ∧ (l.map digitChar).takeWhile (fun c => c != '.') = l.map digitChar
      ∧ (l.map digitChar).dropWhile (fun c => c != '.') = [] := by
  induction l with
  | nil => simp
  | cons c cs ih =>
    have hc := (digitChar_ne_point c (by have := h c (by simp); omega)).1
    obtain ⟨i1, i2, i3, i4⟩ := ih (fun x hx => h x (by simp [hx]))
    simp [hc, i1, i2, i3, i4]

theorem map_toNat_digitChar (l : List Nat) (h : ∀ x ∈ l, x ≤ 9) :
    (l.map digitChar).map (fun c => c.toNat - 48) = l := by
  induction l with
  | nil => rfl
  | cons c cs ih =>
    simp only [List.map_cons]
    rw [ih (fun x hx => h x (by simp [hx])), digitChar_toNat c (by have := h c (by simp); omega)]

/-- Reading the digits `ddd.ddd` gives the number the digits stand for. -/
theorem textValue_digits (i f : List Nat) (hi : ∀ x ∈ i, x ≤ 9) (hf : ∀ x ∈ f, x ≤ 9) :
    textValue (i.map digitChar ++ '.' :: f.map digitChar) = valDigits (i ++ f) i.length
      ∧ textValue (i.map digitChar) = valDigits i i.length := by
  obtain ⟨h1, h2, h3, h4⟩ := takeWhile_digits i hi (f.map digitChar)
  unfold textValue
  simp only []
  rw [h1, h2, h3, h4]
  constructor
  · rw [List.drop_one, List.tail_cons, ← List.map_append, map_toNat_digitChar, List.length_map]
    intro x hx
    rcases List.mem_append.mp hx with h | h
    · exact hi x h
    · exact hf x h
  · simp only [List.drop_nil, List.append_nil]
    rw [map_toNat_digitChar _ hi, List.length_map]

theorem fracDigits_eq (d : decimal) :
    fracDigits d (d.nd - d.dp).toNat
      = List.replicate (-d.dp).toNat 0 ++ d.d.drop d.dp.toNat := by
  apply List.ext_getElem?
  intro n
  unfold fracDigits decimal.nd
  rw [List.getElem?_map, List.getElem?_append]
  by_cases hn : n < ((d.d.length : Int) - d.dp).toNat
  · rw [List.getElem?_range hn]
    simp only [Option.map_some', List.length_replicate, List.getElem?_replicate,
      List.getElem?_drop, List.getD_eq_getElem?_getD]
    by_cases h1 : n < (-d.dp).toNat
    · rw [if_pos h1, if_pos h1, if_neg (by omega)]
    · rw [if_neg h1, if_pos (by omega)]
      have e : (d.dp + (n : Int)).toNat = d.dp.toNat + (n - (-d.dp).toNat) := by omega
      rw [e]
      have hlt : d.dp.toNat + (n - (-d.dp).toNat) < d.d.length := by omega
      rw [List.getElem?_eq_getElem hlt]
      rfl
  · rw [List.getElem?_eq_none (by simpa using hn)]
    simp only [Option.map_none', List.length_replicate, List.getElem?_replicate,
      List.getElem?_drop]
    rw [if_neg (by omega)]
    symm
    apply List.getElem?_eq_none
    omega

theorem intDigits_le (d : decimal) (h : ∀ x ∈ d.d, x ≤ 9) : ∀ x ∈ intDigits d, x ≤ 9 := by
  intro x hx
  unfold intDigits at hx
  split at hx
  · rcases List.mem_append.mp hx with hx | hx
    · exact h x (List.mem_of_mem_take hx)
    · rw [(List.mem_replicate.mp hx).2]
      omega
  · simp only [List.mem_singleton] at hx
    omega

theorem intDigits_ne_nil (d : decimal) : intDigits d ≠ [] := by
  intro hn
  have := congrArg List.length hn
  unfold intDigits at this
  split at this
  · simp only [List.length_append, List.length_take, List.length_replicate,
      List.length_nil] at this
    omega
  · simp at this

theorem fracDigits_le (d : decimal) (prec : Nat) (h : ∀ x ∈ d.d, x ≤ 9) :
    ∀ x ∈ fracDigits d prec, x ≤ 9 := by
  intro x hx
  unfold fracDigits at hx
  obtain ⟨i, _, rfl⟩ := List.mem_map.mp hx
  split
  · rw [List.getD_eq_getElem?_getD]
    cases hg : d.d[(d.dp + (i : Int)).toNat]? with
    | none => simp
    | some v =>
      have := h v (List.getElem?_mem hg)
      simpa using this
  · omega

/-- The digits of the text of a decimal, the point placed after the integer digits,
stand for the number the decimal stands for. -/
theorem fmtF_digits_val (d : decimal) :
    valDigits (intDigits d ++ fracDigits d (d.nd - d.dp).toNat) (intDigits d).length = d.val := by
  rw [fracDigits_eq]
  unfold intDigits decimal.val
  by_cases hdp : d.dp > 0
  · rw [if_pos hdp]
    have hneg : (-d.dp).toNat = 0 := by omega
    rw [hneg]
    simp only [List.replicate_zero, List.nil_append]
    by_cases hlen : d.d.length ≤ d.dp.toNat
    · rw [min_eq_left hlen, List.take_length, List.drop_eq_nil_of_le hlen, List.append_nil,
        valDigits_append, valDigits_zeros]
      simp only [List.length_append, List.length_replicate, add_zero]
      congr 1
      omega
    · have hlen' : d.dp.toNat ≤ d.d.length := by omega
      rw [min_eq_right hlen', Nat.sub_self]
      simp only [List.replicate_zero, List.append_nil, List.take_append_drop,
        List.length_take]
      congr 1
      omega
  · rw [if_neg hdp]
    have h0 : d.dp.toNat = 0 := by omega
    rw [h0, List.drop_zero]
    rw [show [0] ++ (List.replicate (-d.dp).toNat 0 ++ d.d)
      = List.replicate ((-d.dp).toNat + 1) 0 ++ d.d by
        rw [List.replicate_succ]
        rfl]
    rw [valDigits_append, valDigits_zeros]
    simp only [List.length_replicate, List.length_singleton, zero_add]
    congr 1
    push_cast
    omega

theorem FormatFloat_eq (v : Float64) :
    FormatFloat v = if v.exp0 = 2 ^ 11 - 1 then
        (if v.mant0 ≠ 0 then "NaN" else if v.neg then "-Inf" else "+Inf")
      else fmtF v.neg v.digits (v.digits.nd - v.digits.dp).toNat := rfl

theorem digits_le (v : Float64) : ∀ x ∈ v.digits.d, x ≤ 9 :=
  roundShortest_le _ _ _ (assignShift_le _ _)

theorem textNeg_digit (x : Nat) (hx : x < 10) (r : List Char) :
    textNeg (digitChar x :: r) = false ∧ textBody (digitChar x :: r) = digitChar x :: r := by
  have hne := (digitChar_ne_point x hx).2
  constructor
  · unfold textNeg
    split
    · rename_i heq
      simp only [List.cons.injEq] at heq
      exact absurd heq.1 hne
    · rfl
  · unfold textBody
    split
    · rename_i heq
      simp only [List.cons.injEq] at heq
      exact absurd heq.1 hne
    · rfl

/-- The text `fmtF` writes starts with a digit after its sign, its sign is the sign
given, and it reads as the number the decimal stands for. -/
theorem fmtF_read (neg : Bool) (d : decimal) (h : ∀ x ∈ d.d, x ≤ 9) :
    textNeg (fmtF neg d (d.nd - d.dp).toNat).data = neg
      ∧ textValue (textBody (fmtF neg d (d.nd - d.dp).toNat).data) = d.val
      ∧ ∃ x r, x < 10 ∧ textBody (fmtF neg d (d.nd - d.dp).toNat).data = digitChar x :: r := by
  rw [fmtF_data]
  have hi := intDigits_le d h
  have hf := fracDigits_le d (d.nd - d.dp).toNat h
  have hv := textValue_digits (intDigits d) (fracDigits d (d.nd - d.dp).toNat) hi hf
  have hval := fmtF_digits_val d
  cases hI : intDigits d with
  | nil => exact absurd hI (intDigits_ne_nil d)
  | cons x I =>
    have hx : x < 10 := by
      have := hi x (by rw [hI]; exact List.mem_cons_self _ _)
      omega
    rw [hI] at hv hval
    have hbody : ∀ rest, textBody ((if neg = true then ['-'] else [])
        ++ List.map digitChar (x :: I) ++ rest) = List.map digitChar (x :: I) ++ rest
        ∧ textNeg ((if neg = true then ['-'] else [])
        ++ List.map digitChar (x :: I) ++ rest) = neg := by
      intro rest
      cases neg
      · exact ⟨(textNeg_digit x hx _).2, (textNeg_digit x hx _).1⟩
      · exact ⟨rfl, rfl⟩
    refine ⟨(hbody _).2, ?_, x, List.map digitChar I ++ (if (d.nd - d.dp).toNat > 0 then
      '.' :: List.map digitChar (fracDigits d (d.nd - d.dp).toNat) else []), hx, ?_⟩
    · rw [(hbody _).1]
      split
      · rw [hv.1, hval]
      · rename_i hp
        rw [List.append_nil, hv.2, ← hval]
        have : fracDigits d (d.nd - d.dp).toNat = [] := by
          apply List.eq_nil_of_length_eq_zero
          unfold fracDigits
          rw [List.length_map, List.length_range]
          omega
        rw [this, List.append_nil]
    · rw [(hbody _).1]
      rfl

theorem Float64_ext (a b : Float64) (ha : a.bits < 2 ^ 64) (hb : b.bits < 2 ^ 64)
    (hn : a.neg = b.neg) (he : a.exp0 = b.exp0) (hm : a.mant0 = b.mant0) : a = b := by
  cases a with
  | mk x =>
  cases b with
  | mk y =>
  unfold Float64.neg at hn
  unfold Float64.exp0 at he
  unfold Float64.mant0 at hm
  simp only [ne_eq, decide_not, Bool.not_eq_eq_eq_not, Bool.not_not, decide_eq_decide] at hn
  simp only [] at ha hb he hm
  congr 1
  have h1 : x / 2 ^ 63 = y / 2 ^ 63 := by
    by_cases h : x / 2 ^ 63 = 0
    · rw [h, hn.mp h]
    · have h2 : ¬ y / 2 ^ 63 = 0 := fun h3 => h (hn.mpr h3)
      omega
  omega

theorem mant_lt (v : Float64) : v.mant < 2 ^ 53 := by
  unfold Float64.mant Float64.mant0
  split <;> omega

theorem exp_ge (v : Float64) : -1022 ≤ v.exp := by
  unfold Float64.exp
  split <;> omega

theorem mant_ge (v : Float64) (h : -1022 < v.exp) : 2 ^ 52 ≤ v.mant := by
  unfold Float64.exp at h
  unfold Float64.mant
  split
  · rename_i h0
    rw [if_pos h0] at h
    omega
  · omega

theorem fields_of_mant_exp (a b : Float64) (hm : a.mant = b.mant) (he : a.exp = b.exp) :
    a.exp0 = b.exp0 ∧ a.mant0 = b.mant0 := by
  have ha : a.mant0 < 2 ^ 52 := by unfold Float64.mant0; omega
  have hb : b.mant0 < 2 ^ 52 := by unfold Float64.mant0; omega
  unfold Float64.mant at hm
  unfold Float64.exp at he
  by_cases h1 : a.exp0 = 0
  · by_cases h2 : b.exp0 = 0
    · rw [if_pos h1, if_pos h2] at hm
      exact ⟨by omega, hm⟩
    · rw [if_pos h1, if_neg h2] at hm
      omega
  · by_cases h2 : b.exp0 = 0
    · rw [if_neg h1, if_pos h2] at hm
      omega
    · rw [if_neg h1, if_neg h2] at hm he
      omega

theorem digitChar_ne_letter : ∀ x, x < 10 →
    digitChar x ≠ 'N' ∧ digitChar x ≠ '+' ∧ digitChar x ≠ 'I' := by
  decide

theorem special_text (s : String) (hs : s = "NaN" ∨ s = "+Inf" ∨ s = "-Inf")
    (x : Nat) (hx : x < 10) (r : List Char) : textBody s.data ≠ digitChar x :: r := by
  obtain ⟨h1, h2, h3⟩ := digitChar_ne_letter x hx
  intro h
  rcases hs with rfl | rfl | rfl
  · exact h1 (List.cons.inj h).1.symm
  · exact h2 (List.cons.inj h).1.symm
  · exact h3 (List.cons.inj h).1.symm

theorem digits_val_zero (v : Float64) (h : v.mant = 0) : v.digits.val = 0 := by
  unfold Float64.digits roundShortest
  rw [if_pos h]
  rfl

theorem digits_inBounds (v : Float64) (h : v.mant ≠ 0) :
    inBounds (lowerBound v.mant v.exp) (upperBound v.mant v.exp) (decide (v.mant % 2 = 0))
      v.digits.val :=
  roundShortest_inBounds v.mant v.exp h

theorem lowerBound_pos (mant : Nat) (exp : Int) (hm : mant ≠ 0) : 0 < lowerBound mant exp := by
  have hmq : (1 : ℚ) ≤ (mant : ℚ) := by exact_mod_cast Nat.pos_of_ne_zero hm
  have p53 := two_zpow_pos (exp - 53)
  have p54 := two_zpow_pos (exp - 54)
  unfold lowerBound
  split
  · have : (0 : ℚ) < 2 * (mant : ℚ) - 1 := by linarith
    positivity
  · have : (0 : ℚ) < 4 * (mant : ℚ) - 1 := by linarith
    positivity

/-- Two finite floats whose shortest digits stand for the same number have the same
mantissa and exponent fields. -/
theorem digits_val_inj (a b : Float64) (h : a.digits.val = b.digits.val) :
    a.exp0 = b.exp0 ∧ a.mant0 = b.mant0 := by
  by_cases ha : a.mant = 0
  · have hb : b.mant = 0 := by
      by_contra hb
      have h1 := (digits_inBounds b hb).1
      have h2 := lowerBound_pos b.mant b.exp hb
      rw [← h, digits_val_zero a ha] at h1
      linarith
    have e1 : a.exp = b.exp := by
      have := mant_ge a
      have := mant_ge b
      have := exp_ge a
      have := exp_ge b
      by_contra hne
      rcases lt_or_gt_of_ne hne with h3 | h3
      · have := mant_ge b (by omega)
        omega
      · have := mant_ge a (by omega)
        omega
    exact fields_of_mant_exp a b (by rw [ha, hb]) e1
  · have hb : b.mant ≠ 0 := by
      intro hb
      have h1 := (digits_inBounds a ha).1
      have h2 := lowerBound_pos a.mant a.exp ha
      rw [h, digits_val_zero b hb] at h1
      linarith
    have h1 := digits_inBounds a ha
    have h2 := digits_inBounds b hb
    rw [h] at h1
    obtain ⟨e1, e2⟩ := inBounds_unique a.mant b.mant a.exp b.exp _
      (Nat.pos_of_ne_zero ha) (mant_lt a) (exp_ge a) (mant_ge a)
      (Nat.pos_of_ne_zero hb) (mant_lt b) (exp_ge b) (mant_ge b) h1 h2
    exact fields_of_mant_exp a b e1 e2

/-- `FormatFloat` writes different floats differently, apart from the NaNs, which
are all written `NaN`. -/
theorem FormatFloat_injective (a b : Float64) (ha : a.bits < 2 ^ 64) (hb : b.bits < 2 ^ 64)
    (h : FormatFloat a = FormatFloat b) : a = b ∨ (a.isNaN ∧ b.isNaN) := by
  rw [FormatFloat_eq, FormatFloat_eq] at h
  have hsp : ∀ v : Float64, (if v.mant0 ≠ 0 then "NaN" else if v.neg then "-Inf" else "+Inf")
      = "NaN" ∨ (if v.mant0 ≠ 0 then "NaN" else if v.neg then "-Inf" else "+Inf") = "+Inf"
      ∨ (if v.mant0 ≠ 0 then "NaN" else if v.neg then "-Inf" else "+Inf") = "-Inf" := by
    intro v
    split
    · exact Or.inl rfl
    · split
      · exact Or.inr (Or.inr rfl)
      · exact Or.inr (Or.inl rfl)
  by_cases ea : a.exp0 = 2 ^ 11 - 1
  · by_cases eb : b.exp0 = 2 ^ 11 - 1
    · rw [if_pos ea, if_pos eb] at h
      by_cases ma : a.mant0 ≠ 0
      · by_cases mb : b.mant0 ≠ 0
        · exact Or.inr ⟨⟨ea, ma⟩, ⟨eb, mb⟩⟩
        · exfalso
          rw [if_pos ma, if_neg mb] at h
          cases hbneg : b.neg <;> rw [hbneg] at h <;> revert h <;> decide
      · by_cases mb : b.mant0 ≠ 0
        · exfalso
          rw [if_neg ma, if_pos mb] at h
          cases haneg : a.neg <;> rw [haneg] at h <;> revert h <;> decide
        · left
          rw [if_neg ma, if_neg mb] at h
          apply Float64_ext a b ha hb _ (by rw [ea, eb]) (by omega)
          cases haneg : a.neg <;> cases hbneg : b.neg <;> rw [haneg, hbneg] at h <;>
            first | rfl | exact absurd h (by decide)
    · exfalso
      rw [if_pos ea, if_neg eb] at h
      obtain ⟨_, _, x, r, hx, hr⟩ := fmtF_read b.neg b.digits (digits_le b)
      rw [← h] at hr
      exact special_text _ (hsp a) x hx r hr
  · by_cases eb : b.exp0 = 2 ^ 11 - 1
    · exfalso
      rw [if_neg ea, if_pos eb] at h
      obtain ⟨_, _, x, r, hx, hr⟩ := fmtF_read a.neg a.digits (digits_le a)
      rw [h] at hr
      exact special_text _ (hsp b) x hx r hr
    · left
      rw [if_neg ea, if_neg eb] at h
      obtain ⟨a1, a2, _⟩ := fmtF_read a.neg a.digits (digits_le a)
      obtain ⟨b1, b2, _⟩ := fmtF_read b.neg b.digits (digits_le b)
      rw [h] at a1 a2
      obtain ⟨e1, e2⟩ := digits_val_inj a b (a2.symm.trans b2)
      exact Float64_ext a b ha hb (a1.symm.trans b1) e1 e2

theorem FormatFloat_NaN (v : Float64) (h : v.isNaN) : FormatFloat v = "NaN" := by
  rw [FormatFloat_eq, if_pos h.1, if_pos h.2]

/-- The text of a finite float reads as a number in the rounding interval of the
float, with the sign of the float; the text of a zero reads as zero. -/
theorem FormatFloat_read (v : Float64) (h : v.exp0 ≠ 2 ^ 11 - 1) :
    textNeg (FormatFloat v).data = v.neg
      ∧ (v.mant = 0 → textValue (textBody (FormatFloat v).data) = 0)
      ∧ (v.mant ≠ 0 → inBounds (lowerBound v.mant v.exp) (upperBound v.mant v.exp)
          (decide (v.mant % 2 = 0)) (textValue (textBody (FormatFloat v).data))) := by
  rw [FormatFloat_eq, if_neg h]
  obtain ⟨h1, h2, _⟩ := fmtF_read v.neg v.digits (digits_le v)
  refine ⟨h1, ?_, ?_⟩
  · intro hm
    rw [h2, digits_val_zero v hm]
  · intro hm
    rw [h2]
    exact digits_inBounds v hm

/-! ## The rows -/

theorem appendInt_four (x : Nat) (h : x < 10000) : (appendInt (x : Int) 4).data = lowDigits 4 x := by
  unfold appendInt
  simp only []
  have hx : ¬ ((x : Int) < 0) := by omega
  rw [if_neg hx]
  have hn : (x : Int).natAbs = x := Int.natAbs_ofNat x
  rw [hn]
  show ("" : String).data ++ (List.replicate (4 - numDigits x) '0' ++ lowDigits (numDigits x) x) = _
  rw [padded_eq]
  have h2 : numDigits x ≤ 4 := by
    unfold numDigits
    by_cases h0 : x = 0
    · rw [if_pos h0]
      decide
    · rw [if_neg h0]
      have h3 := numDigitsAux_low x x (Nat.pos_of_ne_zero h0) (Nat.le_refl _)
      have h4 : 10 ^ numDigitsAux x x < 10 ^ 5 := by omega
      have := (Nat.pow_lt_pow_iff_right (by decide : 1 < 10)).mp h4
      omega
  rw [max_eq_left h2]
  rfl

/-- C2: `writeData` appends to its output (a `bytes.Buffer`, as in `handleRequest`)
exactly the rows of the data and nothing else, so there is no header; the rows are
those of the (timepoint, sensor) pairs, timepoint by timepoint and sensor by sensor
within each; the row of a pair is the timestamp in the layout
`2006-01-02 15:04:05.000000` (for the years 0 to 9999 the 26 characters
`YYYY-MM-DD HH:MM:SS.ffffff`, every part zero-padded), a comma, the component (in quotes with doubled quotes
where the CSV writer requires it), a comma, the value as `FormatFloat` prints it, and a
line feed; the number of rows is the total number of sensors; and the timepoint of
2023-06-01T14:30:00Z with sensors (temp, 21.5), (co2, 450) yields the two rows of
the specification. -/
theorem C2_rows (data : List timepoint) (init : String) :
    writeData bytes.Buffer data init
      = (init ++ String.join ((records data).map recordText), none)
    ∧ records data = data.flatMap (fun d => d.Sensors.map (fun s =>
        [d.Timestamp.Format ATHENA_TIMESTAMP_FORMAT, s.Comp, FormatFloat s.Value]))
    ∧ (∀ (t : Time) (s : Sensor),
        recordText [t.Format ATHENA_TIMESTAMP_FORMAT, s.Comp, FormatFloat s.Value]
          = t.Format ATHENA_TIMESTAMP_FORMAT ++ "," ++ fieldText s.Comp ++ ","
            ++ FormatFloat s.Value ++ "\n")
    ∧ (∀ comp : String, fieldText comp
        = if fieldNeedsQuotes comp then ⟨'"' :: (escapeQuotes comp.data ++ ['"'])⟩ else comp)
    ∧ (∀ (t : Time) (y : Nat), t.wallClock.year = (y : Int) → y < 10000 →
        (t.Format ATHENA_TIMESTAMP_FORMAT).data
          = lowDigits 4 y ++ '-' :: (lowDigits 2 t.wallClock.month
            ++ '-' :: (lowDigits 2 t.wallClock.day ++ ' ' :: (lowDigits 2 t.wallClock.hour
            ++ ':' :: (lowDigits 2 t.wallClock.min ++ ':' :: (lowDigits 2 t.wallClock.sec
            ++ '.' :: lowDigits 6 t.wallClock.micro)))))
        ∧ (t.Format ATHENA_TIMESTAMP_FORMAT).length = 26)
    ∧ (records data).length = (data.map (fun d => d.Sensors.length)).sum
    ∧ sampleTimepoint.Timestamp.Format RFC3339 = "2023-06-01T14:30:00Z"
    ∧ writeData bytes.Buffer [sampleTimepoint] ""
      = ("2023-06-01 14:30:00.000000,temp,21.5\n2023-06-01 14:30:00.000000,co2,450\n", none) := by
  refine ⟨writeData_bytes_Buffer data init, rfl, ?_, fun _ => rfl, ?_, records_length data,
    by decide, ?_⟩
  · intro t s
    exact recordText_record _ s (Format_ATHENA_plain t)
  · intro t y hy hlt
    have hd := Format_ATHENA_data t
    rw [hy, appendInt_four y hlt] at hd
    refine ⟨hd, ?_⟩
    show (t.Format ATHENA_TIMESTAMP_FORMAT).data.length = 26
    rw [hd]
    simp [lowDigits_length]
  · rw [writeData_bytes_Buffer]
    decide

/-- C3 fails as stated. The timestamps 2023-06-01T14:30:00Z and
2023-06-01T14:30:00+01:00 lie an hour apart, yet the readings (temp, 21.5) at the one
and at the other are written as the same row, because the row carries the wall clock
without the zone. And the two `NaN` values with bit patterns `0x7FF8000000000000` and
`0x7FF8000000000001` are both written as `NaN`. -/
theorem C3_different_readings_same_row :
    (⟨utcSeconds 2023 6 1 14 30 0, 0, UTC⟩ : Time).Format RFC3339 = "2023-06-01T14:30:00Z"
    ∧ (⟨utcSeconds 2023 6 1 13 30 0, 0, FixedZone "" 3600⟩ : Time).Format RFC3339
        = "2023-06-01T14:30:00+01:00"
    ∧ (⟨utcSeconds 2023 6 1 14 30 0, 0, UTC⟩ : Time).sec
        = (⟨utcSeconds 2023 6 1 13 30 0, 0, FixedZone "" 3600⟩ : Time).sec + 3600
    ∧ recordText (record ((⟨utcSeconds 2023 6 1 14 30 0, 0, UTC⟩ : Time).Format
          ATHENA_TIMESTAMP_FORMAT) ⟨"temp", Float64.normal false (43 * 2 ^ 47) (-48)⟩)
        = "2023-06-01 14:30:00.000000,temp,21.5\n"
    ∧ recordText (record ((⟨utcSeconds 2023 6 1 13 30 0, 0, FixedZone "" 3600⟩ : Time).Format
          ATHENA_TIMESTAMP_FORMAT) ⟨"temp", Float64.normal false (43 * 2 ^ 47) (-48)⟩)
        = "2023-06-01 14:30:00.000000,temp,21.5\n"
    ∧ (⟨0x7FF8000000000000⟩ : Float64) ≠ ⟨0x7FF8000000000001⟩
    ∧ FormatFloat ⟨0x7FF8000000000000⟩ = "NaN"
    ∧ FormatFloat ⟨0x7FF8000000000001⟩ = "NaN" := by
  decide

/-- C3 (as the code has it): reading the row of a reading back as CSV gives three
fields: the timestamp text, the component exactly as it was (commas, quotes and line
breaks included), and the text of the value. Two rows are equal exactly when these
three texts are. The timestamp text determines, and is determined by, the wall clock
of the timestamp in its own zone to the microsecond (the zone offset is not written).
The text of a finite value carries the sign of the value and reads as a number in the
rounding interval of the value, so it decodes to the value at full float64 precision;
two values have the same text exactly when they are the same float64 or both NaN. So
for two timestamps with the same zone offset, equal rows mean the same instant to the
microsecond, the same component, and the same value unless both values are NaN. -/
theorem C3_row_read_back (t1 t2 : Time) (s1 s2 : Sensor) (rest : List Char) :
    readRow ((recordText (record (t1.Format ATHENA_TIMESTAMP_FORMAT) s1)).data ++ rest)
      = some (t1.Format ATHENA_TIMESTAMP_FORMAT, s1.Comp, FormatFloat s1.Value, rest)
    ∧ (recordText (record (t1.Format ATHENA_TIMESTAMP_FORMAT) s1)
        = recordText (record (t2.Format ATHENA_TIMESTAMP_FORMAT) s2)
      ↔ t1.Format ATHENA_TIMESTAMP_FORMAT = t2.Format ATHENA_TIMESTAMP_FORMAT
        ∧ s1.Comp = s2.Comp ∧ FormatFloat s1.Value = FormatFloat s2.Value)
    ∧ (t1.nsec < 1000000000 → t2.nsec < 1000000000 →
        (t1.Format ATHENA_TIMESTAMP_FORMAT = t2.Format ATHENA_TIMESTAMP_FORMAT
          ↔ t1.wallClock = t2.wallClock))
    ∧ (s1.Value.exp0 ≠ 2 ^ 11 - 1 →
        textNeg (FormatFloat s1.Value).data = s1.Value.neg
        ∧ (s1.Value.mant = 0 → textValue (textBody (FormatFloat s1.Value).data) = 0)
        ∧ (s1.Value.mant ≠ 0 →
            inBounds (lowerBound s1.Value.mant s1.Value.exp)
              (upperBound s1.Value.mant s1.Value.exp) (decide (s1.Value.mant % 2 = 0))
              (textValue (textBody (FormatFloat s1.Value).data))))
    ∧ (s1.Value.bits < 2 ^ 64 → s2.Value.bits < 2 ^ 64 →
        (FormatFloat s1.Value = FormatFloat s2.Value
          ↔ s1.Value = s2.Value ∨ (s1.Value.isNaN ∧ s2.Value.isNaN)))
    ∧ (t1.nsec < 1000000000 → t2.nsec < 1000000000 →
        minInt64 ≤ t1.sec → t1.sec ≤ maxInt64 → minInt64 ≤ t2.sec → t2.sec ≤ maxInt64 →
        t1.loc.offset = t2.loc.offset →
        s1.Value.bits < 2 ^ 64 → s2.Value.bits < 2 ^ 64 →
        recordText (record (t1.Format ATHENA_TIMESTAMP_FORMAT) s1)
          = recordText (record (t2.Format ATHENA_TIMESTAMP_FORMAT) s2) →
        t1.sec = t2.sec ∧ t1.nsec / 1000 = t2.nsec / 1000 ∧ s1.Comp = s2.Comp
          ∧ (s1.Value = s2.Value ∨ (s1.Value.isNaN ∧ s2.Value.isNaN))) := by
  have hinj : recordText (record (t1.Format ATHENA_TIMESTAMP_FORMAT) s1)
        = recordText (record (t2.Format ATHENA_TIMESTAMP_FORMAT) s2)
      → t1.Format ATHENA_TIMESTAMP_FORMAT = t2.Format ATHENA_TIMESTAMP_FORMAT
        ∧ s1.Comp = s2.Comp ∧ FormatFloat s1.Value = FormatFloat s2.Value :=
    fun h => recordText_injective _ _ _ _ _ _ h
  refine ⟨readRow_recordText _ _ _ rest, ⟨hinj, ?_⟩, ?_, ?_, ?_, ?_⟩
  · rintro ⟨h1, h2, h3⟩
    unfold record
    rw [h1, h2, h3]
  · intro n1 n2
    exact Format_ATHENA_wallClock t1 t2 n1 n2
  · intro hfin
    exact FormatFloat_read s1.Value hfin
  · intro v1 v2
    constructor
    · exact FormatFloat_injective s1.Value s2.Value v1 v2
    · rintro (h | ⟨h1, h2⟩)
      · rw [h]
      · rw [FormatFloat_NaN _ h1, FormatFloat_NaN _ h2]
  · intro n1 n2 a1 a2 b1 b2 ho v1 v2 h
    obtain ⟨h1, h2, h3⟩ := hinj h
    have hw := (Format_ATHENA_wallClock t1 t2 n1 n2).mp h1
    obtain ⟨e1, e2⟩ := wallClock_same_offset t1 t2 hw ho a1 a2 b1 b2
    exact ⟨e1, e2, h2, FormatFloat_injective s1.Value s2.Value v1 v2 h3⟩

/-- C3, an instance: the reading (temp, 21.5) at 2023-06-01T14:30:00Z and the same
reading 999 nanoseconds later are written as the same row, and they are the same
instant to the microsecond, the same component and the same value. -/
theorem C3_row_read_back_witness :
    (⟨utcSeconds 2023 6 1 14 30 0, 0, UTC⟩ : Time) ≠ ⟨utcSeconds 2023 6 1 14 30 0, 999, UTC⟩
    ∧ recordText (record ((⟨utcSeconds 2023 6 1 14 30 0, 0, UTC⟩ : Time).Format
          ATHENA_TIMESTAMP_FORMAT) ⟨"temp", Float64.normal false (43 * 2 ^ 47) (-48)⟩)
        = recordText (record ((⟨utcSeconds 2023 6 1 14 30 0, 999, UTC⟩ : Time).Format
          ATHENA_TIMESTAMP_FORMAT) ⟨"temp", Float64.normal false (43 * 2 ^ 47) (-48)⟩)
    ∧ (utcSeconds 2023 6 1 14 30 0 = utcSeconds 2023 6 1 14 30 0 ∧ 0 / 1000 = 999 / 1000
        ∧ "temp" = "temp"
        ∧ (Float64.normal false (43 * 2 ^ 47) (-48) = Float64.normal false (43 * 2 ^ 47) (-48)
          ∨ ((Float64.normal false (43 * 2 ^ 47) (-48)).isNaN
            ∧ (Float64.normal false (43 * 2 ^ 47) (-48)).isNaN))) :=
  ⟨by decide, by decide,
    (C3_row_read_back ⟨utcSeconds 2023 6 1 14 30 0, 0, UTC⟩
      ⟨utcSeconds 2023 6 1 14 30 0, 999, UTC⟩
      ⟨"temp", Float64.normal false (43 * 2 ^ 47) (-48)⟩
      ⟨"temp", Float64.normal false (43 * 2 ^ 47) (-48)⟩ []).2.2.2.2.2
      (by decide) (by decide) (by decide) (by decide) (by decide) (by decide) rfl
      (by decide) (by decide) (by decide)⟩

end AwairToS3
